import Mathlib

set_option autoImplicit false

/-!
Shallow embedding of the SLAB-style caching allocator from `main.cpp`.

Machine pointers (`slabStruct*`, `void*`, `uintptr_t`) are modelled as `Nat`
addresses; a nullable pointer is `Option Nat` (`none` = `nullptr`).  The heap
of slab headers currently held from the page primitive is an association list
from slab base address to header contents.  Reads or writes through a pointer
whose header is not in the heap (dangling or null dereference, undefined
behaviour in the C source) make the modelled operation return `none`.
`uint32_t` arithmetic on `refcnt` is taken modulo `2 ^ 32`, pointer arithmetic
modulo `2 ^ 64`.
-/

/-- `sizeof(slabStruct)` on LP64: two 8-byte pointers and a `uint32_t`,
padded to the 8-byte struct alignment, hence 24 bytes. -/
def sizeofSlabStruct : Nat := 24

/-- Header `struct slabStruct { slabStruct *previous; slabStruct *next; uint32_t refcnt; }`. -/
structure slabStruct where
  previous : Option Nat
  next : Option Nat
  refcnt : Nat
  deriving DecidableEq, Repr

/-- One iteration of the loop in `smallest_power_of_two`, with explicit fuel
(the loop halves `n`, so `n` itself is always enough fuel). -/
def spo_loop : Nat → Nat → Nat
  | 0, _ => 0
  | fuel + 1, n => if n = 0 then 0 else spo_loop fuel (n / 2) + 1

/-- `int smallest_power_of_two(size_t n) { pow = 0; while (n > 0) { n >>= 1; pow += 1; } return pow; }` -/
def smallest_power_of_two (n : Nat) : Nat := spo_loop n n

/-- Bitwise AND of the low `fuel` bits of two naturals, computed bit by bit. -/
def landFuel : Nat → Nat → Nat → Nat
  | 0, _, _ => 0
  | f + 1, a, b => (if a % 2 = 1 ∧ b % 2 = 1 then 1 else 0) + 2 * landFuel f (a / 2) (b / 2)

/-- 64-bit bitwise AND: the `&` of two `uintptr_t` values. -/
def land64 (a b : Nat) : Nat := landFuel 64 a b

/-- `calculate_slab_start`: `mask = ~(((uintptr_t)1 << (order + 12)) - 1);
return allocation & mask;`.  As a 64-bit value the mask is
`2 ^ 64 - 2 ^ (slab_order + 12)`. -/
def calculate_slab_start (slab_order : Nat) (allocation : Nat) : Nat :=
  land64 allocation (2 ^ 64 - 2 ^ (slab_order + 12))

/-- `struct cache`: three intrusive list heads and the geometry fields. -/
structure cache where
  complete_slab : Option Nat
  partially_slab : Option Nat
  empty_slab : Option Nat
  object_size : Nat
  slab_order : Nat
  slab_objects : Nat
  deriving DecidableEq, Repr

/-- `cache_setup(cache, object_size)`: zeroes the heads and derives the
geometry.  `slab_order = smallest_power_of_two((sizeof(slabStruct) + object_size) / 4096)`
(`size_t` addition, hence modulo `2 ^ 64`); one object per slab when the order
is positive, else `(4096 - sizeof(slabStruct)) / object_size` objects. -/
def cache_setup (object_size : Nat) : cache :=
  let slab_order := smallest_power_of_two (((sizeofSlabStruct + object_size) % 2 ^ 64) / 4096)
  { complete_slab := none
    partially_slab := none
    empty_slab := none
    object_size := object_size
    slab_order := slab_order
    slab_objects := if slab_order > 0 then 1 else (4096 - sizeofSlabStruct) / object_size }

/-- The slab headers currently held from the page primitive, keyed by slab
base address. -/
abbrev SlabHeap : Type := List (Nat × slabStruct)

/-- Read the header stored at base address `a` (`none` when no held slab has
that base: such a dereference is undefined behaviour in the source). -/
def hget : SlabHeap → Nat → Option slabStruct
  | [], _ => none
  | (b, s) :: t, a => if a = b then some s else hget t a

/-- Overwrite the header stored at base address `a` (no-op when absent;
callers go through `hwrite`, which fails when absent). -/
def hset : SlabHeap → Nat → slabStruct → SlabHeap
  | [], _, _ => []
  | (b, s) :: t, a, s' => if a = b then (b, s') :: t else (b, s) :: hset t a s'

/-- Write through a slab pointer: fails (undefined behaviour) when the header
is not in the heap. -/
def hwrite (heap : SlabHeap) (a : Nat) (f : slabStruct → slabStruct) : Option SlabHeap :=
  match hget heap a with
  | none => none
  | some s => some (hset heap a (f s))

/-- Remove the header at base address `a`: the effect of `free_slab`. -/
def hdel : SlabHeap → Nat → SlabHeap
  | [], _ => []
  | (b, s) :: t, a => if a = b then t else (b, s) :: hdel t a

/-- Base addresses of all currently held slabs. -/
def hdom (heap : SlabHeap) : List Nat := heap.map Prod.fst

/-- Whole-program state: the `cache` object, the held slab headers, and ghost
counters of successful `alloc_slab` and of `free_slab` calls. -/
structure State where
  cache : cache
  heap : SlabHeap
  nacq : Nat
  nrel : Nat
  deriving DecidableEq, Repr

/-- Common body of `insert_in_complete_list` / `insert_in_partially_list` /
`insert_in_empty_list` (the three functions are verbatim clones): `slab->next = head;
slab->previous = nullptr; if (head) head->previous = slab;` and the caller
then redirects the head to `slab`. -/
def push_front_raw (heap : SlabHeap) (head : Option Nat) (slab : Nat) : Option SlabHeap := do
  let heap1 ← hwrite heap slab fun s => { s with next := head, previous := none }
  match head with
  | none => pure heap1
  | some h => hwrite heap1 h fun s => { s with previous := some slab }

/-- `insert_in_complete_list(cache, slab)`. -/
def insert_in_complete_list (st : State) (slab : Nat) : Option State := do
  let heap' ← push_front_raw st.heap st.cache.complete_slab slab
  pure { st with heap := heap', cache := { st.cache with complete_slab := some slab } }

/-- `insert_in_partially_list(cache, slab)`. -/
def insert_in_partially_list (st : State) (slab : Nat) : Option State := do
  let heap' ← push_front_raw st.heap st.cache.partially_slab slab
  pure { st with heap := heap', cache := { st.cache with partially_slab := some slab } }

/-- `insert_in_empty_list(cache, slab)`. -/
def insert_in_empty_list (st : State) (slab : Nat) : Option State := do
  let heap' ← push_front_raw st.heap st.cache.empty_slab slab
  pure { st with heap := heap', cache := { st.cache with empty_slab := some slab } }

/-- `remove_from_empty_list(cache, slab)`: if the slab has a predecessor,
bypass it; otherwise redirect whichever of `empty_slab` / `partially_slab`
equals the slab (the `complete_slab` head is never considered).  Then fix the
successor's back link and clear the slab's own links. -/
def remove_from_empty_list (st : State) (slab : Nat) : Option State := do
  let s ← hget st.heap slab
  let st1 ←
    match s.previous with
    | some previous => do
      let heap1 ← hwrite st.heap previous fun x => { x with next := s.next }
      pure { st with heap := heap1 }
    | none =>
      if st.cache.empty_slab = some slab then
        pure { st with cache := { st.cache with empty_slab := s.next } }
      else if st.cache.partially_slab = some slab then
        pure { st with cache := { st.cache with partially_slab := s.next } }
      else
        pure st
  let s1 ← hget st1.heap slab
  let st2 ←
    match s1.next with
    | some nxt => do
      let heap2 ← hwrite st1.heap nxt fun x => { x with previous := s1.previous }
      pure { st1 with heap := heap2 }
    | none => pure st1
  let heap3 ← hwrite st2.heap slab fun x => { x with previous := none, next := none }
  pure { st2 with heap := heap3 }

/-- `cache_alloc(cache)`.  The extra argument `page` is the base address that
`alloc_slab` would return if the new-slab branch is reached (`none` when the
page primitive refuses).  In the source that branch stores through the
returned pointer without a null check, so `page = none` reaching it is a null
dereference and the model returns `none`. -/
def cache_alloc (st : State) (page : Option Nat) : Option (Nat × State) :=
  match st.cache.partially_slab with
  | some current_slab => do
    let s ← hget st.heap current_slab
    let result := (current_slab + sizeofSlabStruct + st.cache.object_size * s.refcnt) % 2 ^ 64
    let heap1 ← hwrite st.heap current_slab fun x => { x with refcnt := (x.refcnt + 1) % 2 ^ 32 }
    let s1 ← hget heap1 current_slab
    if s1.refcnt = st.cache.slab_objects then do
      let st2 := { st with heap := heap1, cache := { st.cache with partially_slab := s1.next } }
      let st3 ←
        match s1.next with
        | some nxt => do
          let heap2 ← hwrite st2.heap nxt fun x => { x with previous := none }
          pure { st2 with heap := heap2 }
        | none => pure st2
      let st4 ← insert_in_empty_list st3 current_slab
      pure (result, st4)
    else
      pure (result, { st with heap := heap1 })
  | none =>
    match st.cache.complete_slab with
    | some current_slab => do
      let result := (current_slab + sizeofSlabStruct) % 2 ^ 64
      let heap1 ← hwrite st.heap current_slab fun x => { x with refcnt := (x.refcnt + 1) % 2 ^ 32 }
      let s1 ← hget heap1 current_slab
      let st2 := { st with heap := heap1, cache := { st.cache with complete_slab := s1.next } }
      let st3 ←
        match s1.next with
        | some nxt => do
          let heap2 ← hwrite st2.heap nxt fun x => { x with previous := none }
          pure { st2 with heap := heap2 }
        | none => pure st2
      let st4 ←
        if s1.refcnt = st.cache.slab_objects then insert_in_empty_list st3 current_slab
        else insert_in_partially_list st3 current_slab
      pure (result, st4)
    | none =>
      match page with
      | none => none
      | some b => do
        let result := (b + sizeofSlabStruct) % 2 ^ 64
        let st1 : State :=
          { st with
            heap := (b, { previous := none, next := none, refcnt := 1 }) :: st.heap
            nacq := st.nacq + 1 }
        let st2 ←
          if (1 : Nat) = st.cache.slab_objects then insert_in_empty_list st1 b
          else insert_in_partially_list st1 b
        pure (result, st2)

/-- `cache_free(cache, ptr)`: recover the slab base by masking, decrement the
`uint32_t` reference count, and migrate the slab to the complete list exactly
when the count reaches zero. -/
def cache_free (st : State) (ptr : Nat) : Option State := do
  let slab := calculate_slab_start st.cache.slab_order ptr
  let heap1 ← hwrite st.heap slab fun x => { x with refcnt := (x.refcnt + (2 ^ 32 - 1)) % 2 ^ 32 }
  let s1 ← hget heap1 slab
  if s1.refcnt = 0 then do
    let st2 ← remove_from_empty_list { st with heap := heap1 } slab
    insert_in_complete_list st2 slab
  else
    pure { st with heap := heap1 }

/-- The `while (current)` loop of `free_list`, with explicit fuel: reads
`current->next`, then `free_slab(current)`, then advances.  Running out of
fuel (a cyclic list) or reading a freed header yields `none`. -/
def free_list_loop : Nat → State → Option Nat → Option State
  | _, st, none => some st
  | 0, _, some _ => none
  | fuel + 1, st, some current => do
    let s ← hget st.heap current
    free_list_loop fuel { st with heap := hdel st.heap current, nrel := st.nrel + 1 } s.next

/-- `free_list(list)`: walk the chain and `free_slab` every node.  One unit of
fuel per held slab is enough for any acyclic chain. -/
def free_list (st : State) (head : Option Nat) : Option State :=
  free_list_loop (st.heap.length + 1) st head

/-- `cache_release(cache)`: free all three lists, then zero the heads. -/
def cache_release (st : State) : Option State := do
  let st1 ← free_list st st.cache.complete_slab
  let st2 ← free_list st1 st1.cache.partially_slab
  let st3 ← free_list st2 st2.cache.empty_slab
  pure { st3 with
    cache := { st3.cache with complete_slab := none, partially_slab := none, empty_slab := none } }

/-- `cache_shrink(cache)`: free only the complete list and zero its head. -/
def cache_shrink (st : State) : Option State := do
  let st1 ← free_list st st.cache.complete_slab
  pure { st1 with cache := { st1.cache with complete_slab := none } }

/-- State of a freshly set-up cache: `cache_setup` on a cache that holds no
slabs yet. -/
def initState (object_size : Nat) : State :=
  { cache := cache_setup object_size, heap := [], nacq := 0, nrel := 0 }

/-- Modelled from the spec: the geometry policy of §4.1, "the smallest
`order ∈ [0,10]` such that `4096·2^order ≥ header_size + object_size`"
(`none` when no order up to 10 fits one object). -/
def spec_smallest_order (object_size : Nat) : Option Nat :=
  (List.range 11).find? fun o => decide (sizeofSlabStruct + object_size ≤ 4096 * 2 ^ o)

/-- Trace state: after `cache_setup(cache, 41)` and one `cache_alloc` that
acquired the slab at base 4096 (99 objects of 41 bytes fit in an order-0 slab). -/
def st41_a : State :=
  { cache := { complete_slab := none, partially_slab := some 4096, empty_slab := none,
               object_size := 41, slab_order := 0, slab_objects := 99 },
    heap := [(4096, { previous := none, next := none, refcnt := 1 })], nacq := 1, nrel := 0 }

/-- Trace state: `st41_a` after one more `cache_alloc` (two objects outstanding). -/
def st41_b : State :=
  { cache := { complete_slab := none, partially_slab := some 4096, empty_slab := none,
               object_size := 41, slab_order := 0, slab_objects := 99 },
    heap := [(4096, { previous := none, next := none, refcnt := 2 })], nacq := 1, nrel := 0 }

/-- Trace state: after `cache_setup(cache, 2000)` (two objects per order-0
slab) and one `cache_alloc` that acquired the slab at base 4096. -/
def st2000_a : State :=
  { cache := { complete_slab := none, partially_slab := some 4096, empty_slab := none,
               object_size := 2000, slab_order := 0, slab_objects := 2 },
    heap := [(4096, { previous := none, next := none, refcnt := 1 })], nacq := 1, nrel := 0 }

/-- Trace state: `st2000_a` after a second `cache_alloc` fills the slab, which
migrates to the full (`empty_slab`) list. -/
def st2000_b : State :=
  { cache := { complete_slab := none, partially_slab := none, empty_slab := some 4096,
               object_size := 2000, slab_order := 0, slab_objects := 2 },
    heap := [(4096, { previous := none, next := none, refcnt := 2 })], nacq := 1, nrel := 0 }

/-- Trace state: `st2000_b` after `cache_free` of the second object.  The slab
has occupancy 1 of 2 but still sits on the full (`empty_slab`) list. -/
def st2000_c : State :=
  { cache := { complete_slab := none, partially_slab := none, empty_slab := some 4096,
               object_size := 2000, slab_order := 0, slab_objects := 2 },
    heap := [(4096, { previous := none, next := none, refcnt := 1 })], nacq := 1, nrel := 0 }

/-- Doubly-linked chain segment: starting from forward pointer `h`, whose
target's back link must equal `prev`, the nodes traversed are exactly `l`;
afterwards the forward pointer is `hOut` and the last traversed node (as a
back link for what follows) is `pOut`. -/
def isSeg (heap : SlabHeap) : Option Nat → Option Nat → List Nat → Option Nat → Option Nat → Prop
  | prev, h, [], pOut, hOut => pOut = prev ∧ hOut = h
  | prev, h, a :: l, pOut, hOut =>
      h = some a ∧ ∃ s, hget heap a = some s ∧ s.previous = prev ∧
        isSeg heap (some a) s.next l pOut hOut

/-- Well-formed null-terminated doubly-linked list with node list `l`, rooted
at the head pointer `h`; the head node's back link is `prev`. -/
def isChain (heap : SlabHeap) (prev h : Option Nat) (l : List Nat) : Prop :=
  ∃ pOut, isSeg heap prev h l pOut none

/-- A base address the cache can work with: non-null, aligned to the slab
size `2^(slab_order+12)`, with the whole slab below `2^64`. -/
def goodBase (c : cache) (b : Nat) : Prop :=
  b ≠ 0 ∧ b % 2 ^ (c.slab_order + 12) = 0 ∧ b + 2 ^ (c.slab_order + 12) ≤ 2 ^ 64

/-- Geometry facts that `cache_setup` establishes and no other operation
touches. -/
def geomOK (c : cache) : Prop :=
  0 < c.object_size ∧ 1 ≤ c.slab_objects ∧ c.slab_objects < 2 ^ 32 ∧
  c.slab_order + 12 ≤ 64 ∧
  sizeofSlabStruct + c.object_size * c.slab_objects ≤ 2 ^ (c.slab_order + 12)

/-- Occupancy discipline of the three lists as the code actually maintains
it: complete slabs have `refcnt = 0`, partial slabs `0 < refcnt <
slab_objects`; full-list slabs only satisfy `0 < refcnt ≤ slab_objects`
because `cache_free` does not migrate a full slab until it empties. -/
def occOK (c : cache) (heap : SlabHeap) (lc lp le : List Nat) : Prop :=
  (∀ b ∈ lc, ∃ s, hget heap b = some s ∧ s.refcnt = 0) ∧
  (∀ b ∈ lp, ∃ s, hget heap b = some s ∧ 1 ≤ s.refcnt ∧ s.refcnt < c.slab_objects) ∧
  (∀ b ∈ le, ∃ s, hget heap b = some s ∧ 1 ≤ s.refcnt ∧ s.refcnt ≤ c.slab_objects)

/-- Well-formedness of a cache state, with the three node lists explicit:
the three heads root disjoint well-formed chains that together cover exactly
the held slabs, occupancy matches list membership as the code maintains it,
all bases are aligned, the geometry is sane, and the ghost page counters
balance the held-slab count. -/
def InvWith (st : State) (lc lp le : List Nat) : Prop :=
  isChain st.heap none st.cache.complete_slab lc ∧
  isChain st.heap none st.cache.partially_slab lp ∧
  isChain st.heap none st.cache.empty_slab le ∧
  (lc ++ lp ++ le).Nodup ∧
  (hdom st.heap).Perm (lc ++ lp ++ le) ∧
  occOK st.cache st.heap lc lp le ∧
  (∀ b ∈ hdom st.heap, goodBase st.cache b) ∧
  geomOK st.cache ∧
  st.nacq = st.nrel + st.heap.length

/-- Well-formedness of a cache state (C10's invariant). -/
def WF (st : State) : Prop := ∃ lc lp le, InvWith st lc lp le

/-! ### Characterization of `smallest_power_of_two` -/

theorem spo_loop_le_iff : ∀ f n k : Nat, n ≤ f → (spo_loop f n ≤ k ↔ n < 2 ^ k)
  | 0, n, k, hf => by
    interval_cases n
    simp [spo_loop, Nat.pos_pow_of_pos]
  | f + 1, n, k, hf => by
    rcases Nat.eq_zero_or_pos n with h0 | h0
    · subst h0
      simp [spo_loop, Nat.pos_pow_of_pos]
    · have hne : n ≠ 0 := Nat.pos_iff_ne_zero.mp h0
      have hrec : n / 2 ≤ f := by
        have := Nat.div_lt_self h0 (by norm_num : 1 < 2)
        omega
      rw [spo_loop, if_neg hne]
      cases k with
      | zero =>
        constructor
        · intro h
          exact absurd h (by omega)
        · intro h
          exact absurd h (by omega)
      | succ k' =>
        have ih := spo_loop_le_iff f (n / 2) k' hrec
        constructor
        · intro h
          have h1 : spo_loop f (n / 2) ≤ k' := by omega
          have h2 := ih.mp h1
          have : n < 2 ^ k' * 2 := (Nat.div_lt_iff_lt_mul (by norm_num)).mp h2
          calc n < 2 ^ k' * 2 := this
            _ = 2 ^ (k' + 1) := by ring
        · intro h
          have h2 : n / 2 < 2 ^ k' := by
            apply (Nat.div_lt_iff_lt_mul (by norm_num)).mpr
            calc n < 2 ^ (k' + 1) := h
              _ = 2 ^ k' * 2 := by ring
          have := ih.mpr h2
          omega

theorem smallest_power_of_two_le_iff (n k : Nat) :
    smallest_power_of_two n ≤ k ↔ n < 2 ^ k :=
  spo_loop_le_iff n n k le_rfl

/-! ### Claims C1, C2, C4, C5, C6, C7 -/

/-- C1: the claim says every pointer returned by `cache_alloc` is disjoint
from every currently-live slot.  The code violates it: with `object_size = 41`
the trace alloc → alloc → free(first) → alloc hands out address 4161 twice
while the first copy is still live (the bump index `refcnt` moved back over a
live slot).  This theorem evaluates the code on that failing trace. -/
theorem C1_alloc_aliases_live_slot :
    cache_alloc (initState 41) (some 4096) = some (4120, st41_a) ∧
    cache_alloc st41_a none = some (4161, st41_b) ∧
    cache_free st41_b 4120 = some st41_a ∧
    cache_alloc st41_a none = some (4161, st41_b) := by
  decide

/-- C2: the claim says a `cache_free` that takes a full slab from
`in_use = objects_per_slab` to `objects_per_slab - 1` unlinks it from the full
list and pushes it to the partial list.  The code only migrates at
`in_use = 0`: with `object_size = 2000` (2 objects per slab), filling the slab
and freeing one object leaves the slab on the full (`empty_slab`) list with
occupancy 1 of 2, and the partial list empty. -/
theorem C2_partially_freed_slab_stays_on_full_list :
    cache_alloc (initState 2000) (some 4096) = some (4120, st2000_a) ∧
    cache_alloc st2000_a none = some (6120, st2000_b) ∧
    cache_free st2000_b 6120 = some st2000_c ∧
    st2000_c.cache.empty_slab = some 4096 ∧
    st2000_c.cache.partially_slab = none ∧
    hget st2000_c.heap 4096 = some { previous := none, next := none, refcnt := 1 } ∧
    0 < 1 ∧ 1 < st2000_c.cache.slab_objects := by
  decide

/-- C4 counterexample: the claim says `cache_setup` chooses the smallest
order with `4096·2^order ≥ header_size + object_size`, and that
`header_size + object_size = 8192` must give order 1.  At
`object_size = 8168` (so `header + size = 8192`) the spec policy gives
order 1 but the code computes order 2. -/
theorem C4_counterexample_order_at_power_boundary :
    spec_smallest_order 8168 = some 1 ∧ (cache_setup 8168).slab_order = 2 := by
  decide

/-- C4 (amended): `cache_setup` chooses `slab_order` as the smallest order
with `4096·2^order` STRICTLY greater than `header_size + object_size`
(equivalently, `slab_order ≤ k` iff `header_size + object_size < 4096·2^k`);
at exact multiples `header_size + object_size = 4096·2^j` it therefore picks
`j + 1`, one more than the claim's order, and no clamp to `[0, 10]` is
applied. -/
theorem C4_order_is_least_strict_bound (object_size k : Nat)
    (h : sizeofSlabStruct + object_size < 2 ^ 64) :
    (cache_setup object_size).slab_order ≤ k ↔
      sizeofSlabStruct + object_size < 4096 * 2 ^ k := by
  have hmod : (sizeofSlabStruct + object_size) % 2 ^ 64 = sizeofSlabStruct + object_size :=
    Nat.mod_eq_of_lt h
  show smallest_power_of_two (((sizeofSlabStruct + object_size) % 2 ^ 64) / 4096) ≤ k ↔ _
  rw [hmod, smallest_power_of_two_le_iff]
  rw [Nat.div_lt_iff_lt_mul (by norm_num : 0 < 4096)]
  rw [Nat.mul_comm]

/-- Witness for `C4_order_is_least_strict_bound` at `object_size = 8168`,
`k = 2`. -/
theorem C4_order_is_least_strict_bound_witness :
    sizeofSlabStruct + 8168 < 2 ^ 64 ∧
      ((cache_setup 8168).slab_order ≤ 2 ↔ sizeofSlabStruct + 8168 < 4096 * 2 ^ 2) :=
  ⟨by decide, C4_order_is_least_strict_bound 8168 2 (by decide)⟩

/-- C5: the claim says `cache_setup` fails with `ConfigTooLarge` when the
required order exceeds 10 and leaves the cache uninitialized.  The code has no
such check: at `object_size = 4194281` (header + size = `2^22 + 1`, which no
order up to 10 can house) it initializes the cache anyway, with
`slab_order = 11` — outside the `[0, 10]` contract of `alloc_slab`. -/
theorem C5_no_config_too_large_check :
    spec_smallest_order 4194281 = none ∧
    (cache_setup 4194281).slab_order = 11 ∧
    ¬ (cache_setup 4194281).slab_order ≤ 10 ∧
    (cache_setup 4194281).slab_objects = 1 := by
  decide

/-- C6: the claim says that when all three lists are empty and the page
primitive refuses, `cache_alloc` surfaces `OutOfPages` and leaves the cache
unchanged.  The code never checks the result of `alloc_slab`: it immediately
stores `current_slab->refcnt = 1` through the null pointer, which the model
renders as `none` (undefined behaviour), not a clean error return. -/
theorem C6_null_page_is_dereferenced :
    (initState 41).cache.complete_slab = none ∧
    (initState 41).cache.partially_slab = none ∧
    (initState 41).cache.empty_slab = none ∧
    cache_alloc (initState 41) none = none := by
  decide

/-- C7: the claim says `free(alloc(c))` leaves the three list heads identical
to the pre-call state whenever the alloc reused an existing slab, for any
resulting occupancy.  When the alloc fills a partial slab (here: 1 of 2 → 2
of 2) the slab migrates to the full list, and the following free does not
migrate it back, so the round trip moves the slab from the partial list to
the full list even though no new slab was created (`nacq` unchanged). -/
theorem C7_roundtrip_moves_slab_to_full_list :
    cache_alloc (initState 2000) (some 4096) = some (4120, st2000_a) ∧
    cache_alloc st2000_a none = some (6120, st2000_b) ∧
    cache_free st2000_b 6120 = some st2000_c ∧
    st2000_c.nacq = st2000_a.nacq ∧
    st2000_a.cache.partially_slab = some 4096 ∧
    st2000_a.cache.empty_slab = none ∧
    st2000_c.cache.partially_slab = none ∧
    st2000_c.cache.empty_slab = some 4096 := by
  decide

/-! ### Masking lemmas for `calculate_slab_start` -/

theorem landFuel_ones : ∀ f x : Nat, x < 2 ^ f → landFuel f x (2 ^ f - 1) = x
  | 0, x, hx => by
    interval_cases x
    rfl
  | f + 1, x, hx => by
    have hodd : (2 ^ (f + 1) - 1) % 2 = 1 := by
      have h2 : 2 ^ (f + 1) = 2 * 2 ^ f := by ring
      have hpos : 0 < 2 ^ f := Nat.pos_pow_of_pos f (by norm_num)
      omega
    have hdiv : (2 ^ (f + 1) - 1) / 2 = 2 ^ f - 1 := by
      have h2 : 2 ^ (f + 1) = 2 * 2 ^ f := by ring
      have hpos : 0 < 2 ^ f := Nat.pos_pow_of_pos f (by norm_num)
      omega
    have hx2 : x / 2 < 2 ^ f := by
      apply (Nat.div_lt_iff_lt_mul (by norm_num)).mpr
      have h2 : 2 ^ (f + 1) = 2 ^ f * 2 := by ring
      omega
    have ih := landFuel_ones f (x / 2) hx2
    rw [landFuel, hdiv, ih]
    rcases Nat.mod_two_eq_zero_or_one x with h | h <;> · rw [hodd]; simp [h]; omega

theorem landFuel_mask : ∀ f m x : Nat, m ≤ f → x < 2 ^ f →
    landFuel f x (2 ^ f - 2 ^ m) = 2 ^ m * (x / 2 ^ m)
  | f, 0, x, _, hx => by
    simpa using landFuel_ones f x hx
  | 0, m + 1, x, hm, hx => absurd hm (by omega)
  | f + 1, m + 1, x, hm, hx => by
    have hpow : ∀ j : Nat, (0:Nat) < 2 ^ j := fun j => Nat.pos_pow_of_pos j (by norm_num)
    have heven : (2 ^ (f + 1) - 2 ^ (m + 1)) % 2 = 0 := by
      have h1 : 2 ^ (f + 1) = 2 * 2 ^ f := by ring
      have h2 : 2 ^ (m + 1) = 2 * 2 ^ m := by ring
      omega
    have hdiv : (2 ^ (f + 1) - 2 ^ (m + 1)) / 2 = 2 ^ f - 2 ^ m := by
      have h1 : 2 ^ (f + 1) = 2 * 2 ^ f := by ring
      have h2 : 2 ^ (m + 1) = 2 * 2 ^ m := by ring
      omega
    have hx2 : x / 2 < 2 ^ f := by
      apply (Nat.div_lt_iff_lt_mul (by norm_num)).mpr
      have h2 : 2 ^ (f + 1) = 2 ^ f * 2 := by ring
      omega
    have ih := landFuel_mask f m (x / 2) (by omega) hx2
    rw [landFuel, hdiv, ih]
    have hnotbit : ¬ (x % 2 = 1 ∧ (2 ^ (f + 1) - 2 ^ (m + 1)) % 2 = 1) := by omega
    rw [if_neg hnotbit]
    have hdd : x / 2 / 2 ^ m = x / 2 ^ (m + 1) := by
      rw [Nat.div_div_eq_div_mul]
      congr 1
      ring
    rw [hdd]
    ring

theorem land64_mask (m x : Nat) (hm : m ≤ 64) (hx : x < 2 ^ 64) :
    land64 x (2 ^ 64 - 2 ^ m) = 2 ^ m * (x / 2 ^ m) :=
  landFuel_mask 64 m x hm hx

/-! ### Geometry facts established by `cache_setup` -/

theorem setup_slab_order (os : Nat) :
    (cache_setup os).slab_order =
      smallest_power_of_two (((sizeofSlabStruct + os) % 2 ^ 64) / 4096) := rfl

theorem setup_slab_objects (os : Nat) :
    (cache_setup os).slab_objects =
      if (cache_setup os).slab_order > 0 then 1 else (4096 - sizeofSlabStruct) / os := rfl

theorem setup_fits (os : Nat) (hsz : sizeofSlabStruct + os < 2 ^ 64) :
    sizeofSlabStruct + os < 4096 * 2 ^ (cache_setup os).slab_order := by
  rw [setup_slab_order, Nat.mod_eq_of_lt hsz]
  have h1 := (smallest_power_of_two_le_iff ((sizeofSlabStruct + os) / 4096)
    (smallest_power_of_two ((sizeofSlabStruct + os) / 4096))).mp le_rfl
  have h2 := (Nat.div_lt_iff_lt_mul (by norm_num : (0:Nat) < 4096)).mp h1
  omega

theorem setup_objects_fit (os : Nat) (hos : 0 < os) (hsz : sizeofSlabStruct + os < 2 ^ 64) :
    sizeofSlabStruct + os * (cache_setup os).slab_objects ≤
      2 ^ ((cache_setup os).slab_order + 12) := by
  have hpow : 4096 * 2 ^ (cache_setup os).slab_order = 2 ^ ((cache_setup os).slab_order + 12) := by
    rw [pow_add]
    ring
  rw [setup_slab_objects]
  by_cases h : (cache_setup os).slab_order > 0
  · rw [if_pos h, Nat.mul_one]
    have := setup_fits os hsz
    omega
  · rw [if_neg h]
    have h0 : (cache_setup os).slab_order = 0 := by omega
    rw [h0]
    have hb : ((4096 - sizeofSlabStruct) / os) * os ≤ 4096 - sizeofSlabStruct :=
      Nat.div_mul_le_self _ os
    have hc : os * ((4096 - sizeofSlabStruct) / os) ≤ 4096 - sizeofSlabStruct := by
      rw [Nat.mul_comm]
      exact hb
    have h24 : sizeofSlabStruct = 24 := rfl
    have hp : (2:Nat) ^ (0 + 12) = 4096 := by norm_num
    omega

theorem setup_objects_pos (os : Nat) (hos : 0 < os) (hsz : sizeofSlabStruct + os < 2 ^ 64) :
    1 ≤ (cache_setup os).slab_objects := by
  rw [setup_slab_objects]
  by_cases h : (cache_setup os).slab_order > 0
  · rw [if_pos h]
  · rw [if_neg h]
    have h0 : (cache_setup os).slab_order = 0 := by omega
    have hlt := setup_fits os hsz
    rw [h0] at hlt
    have hle : os ≤ 4096 - sizeofSlabStruct := by
      simp only [sizeofSlabStruct] at *
      omega
    exact (Nat.one_le_div_iff hos).mpr hle

/-- C3: for a slab base whose low `12 + slab_order` bits are zero and whose
whole slab lies below `2^64`, masking any valid slot pointer
`base + header + k·object_size` (`k < objects_per_slab`) with
`calculate_slab_start` yields exactly `base` — the base of the slab the
pointer was carved from. -/
theorem C3_mask_recovers_slab_base (object_size base k : Nat)
    (hos : 0 < object_size)
    (hsz : sizeofSlabStruct + object_size < 2 ^ 64)
    (halign : base % 2 ^ ((cache_setup object_size).slab_order + 12) = 0)
    (hfit : base + 2 ^ ((cache_setup object_size).slab_order + 12) ≤ 2 ^ 64)
    (hk : k < (cache_setup object_size).slab_objects) :
    calculate_slab_start (cache_setup object_size).slab_order
      (base + sizeofSlabStruct + object_size * k) = base := by
  set o := (cache_setup object_size).slab_order with ho
  have hoff : sizeofSlabStruct + object_size * k < 2 ^ (o + 12) := by
    have h1 : object_size * k + object_size ≤ object_size * (cache_setup object_size).slab_objects := by
      have : k + 1 ≤ (cache_setup object_size).slab_objects := hk
      calc object_size * k + object_size = object_size * (k + 1) := by ring
        _ ≤ object_size * (cache_setup object_size).slab_objects :=
            Nat.mul_le_mul_left object_size this
    have h2 := setup_objects_fit object_size hos hsz
    rw [← ho] at h2
    omega
  have hm64 : o + 12 ≤ 64 := by
    have hp : 2 ^ (o + 12) ≤ 2 ^ 64 := by omega
    exact (Nat.pow_le_pow_iff_right (by norm_num : 1 < 2)).mp hp
  have hx : base + sizeofSlabStruct + object_size * k < 2 ^ 64 := by omega
  obtain ⟨q, hq⟩ := Nat.dvd_of_mod_eq_zero halign
  show land64 (base + sizeofSlabStruct + object_size * k) (2 ^ 64 - 2 ^ (o + 12)) = base
  rw [land64_mask (o + 12) _ hm64 hx]
  have hdiv : (base + sizeofSlabStruct + object_size * k) / 2 ^ (o + 12) = q := by
    rw [hq]
    have hpos : 0 < 2 ^ (o + 12) := Nat.pos_pow_of_pos _ (by norm_num)
    rw [Nat.add_assoc, Nat.mul_add_div hpos]
    have : (sizeofSlabStruct + object_size * k) / 2 ^ (o + 12) = 0 :=
      Nat.div_eq_of_lt hoff
    omega
  rw [hdiv, ← hq]

/-- Witness for `C3_mask_recovers_slab_base`: `object_size = 41`,
`base = 4096`, slot `k = 1` (pointer 4161 masks back to 4096). -/
theorem C3_mask_recovers_slab_base_witness :
    calculate_slab_start (cache_setup 41).slab_order (4096 + sizeofSlabStruct + 41 * 1) = 4096 :=
  C3_mask_recovers_slab_base 41 4096 1 (by decide) (by decide) (by decide) (by decide) (by decide)


/-! ### Heap access lemmas -/

theorem hget_eq_none_iff (heap : SlabHeap) (a : Nat) : hget heap a = none ↔ a ∉ hdom heap := by
  induction heap with
  | nil => simp [hget, hdom]
  | cons hd t ih =>
    obtain ⟨b, s⟩ := hd
    by_cases h : a = b
    · subst h
      simp [hget, hdom]
    · simp only [hget, if_neg h, hdom, List.map_cons, List.mem_cons]
      rw [ih]
      simp [hdom, h]

theorem hget_mem_dom {heap : SlabHeap} {a : Nat} {s : slabStruct}
    (h : hget heap a = some s) : a ∈ hdom heap := by
  by_contra hc
  rw [← hget_eq_none_iff] at hc
  rw [h] at hc
  exact Option.noConfusion hc

theorem hget_isSome_of_mem {heap : SlabHeap} {a : Nat} (h : a ∈ hdom heap) :
    ∃ s, hget heap a = some s := by
  cases hg : hget heap a with
  | none => exact absurd ((hget_eq_none_iff heap a).mp hg) (by simpa using h)
  | some s => exact ⟨s, rfl⟩

theorem hget_hset_self (heap : SlabHeap) (a : Nat) (s : slabStruct)
    (h : a ∈ hdom heap) : hget (hset heap a s) a = some s := by
  induction heap with
  | nil => simp [hdom] at h
  | cons hd t ih =>
    obtain ⟨b, s1⟩ := hd
    by_cases hab : a = b
    · subst hab
      simp [hget, hset]
    · simp only [hset, if_neg hab, hget, if_neg hab]
      simp only [hdom, List.map_cons, List.mem_cons] at h
      exact ih (h.resolve_left hab)

theorem hget_hset_ne (heap : SlabHeap) (a b : Nat) (s : slabStruct)
    (h : b ≠ a) : hget (hset heap a s) b = hget heap b := by
  induction heap with
  | nil => simp [hget, hset]
  | cons hd t ih =>
    obtain ⟨c, s1⟩ := hd
    by_cases hac : a = c
    · subst hac
      by_cases hbc : b = a
      · exact absurd hbc h
      · simp [hset, hget, hbc]
    · simp only [hset, if_neg hac, hget]
      by_cases hbc : b = c
      · rw [if_pos hbc, if_pos hbc]
      · rw [if_neg hbc, if_neg hbc]
        exact ih

theorem hdom_hset (heap : SlabHeap) (a : Nat) (s : slabStruct) :
    hdom (hset heap a s) = hdom heap := by
  induction heap with
  | nil => rfl
  | cons hd t ih =>
    obtain ⟨b, s1⟩ := hd
    by_cases hab : a = b
    · simp [hset, if_pos hab, hdom]
    · simp only [hset, if_neg hab, hdom, List.map_cons]
      simp only [hdom] at ih
      rw [ih]

theorem length_hset (heap : SlabHeap) (a : Nat) (s : slabStruct) :
    (hset heap a s).length = heap.length := by
  induction heap with
  | nil => rfl
  | cons hd t ih =>
    obtain ⟨b, s1⟩ := hd
    by_cases hab : a = b
    · simp [hset, if_pos hab]
    · simp only [hset, if_neg hab, List.length_cons]
      rw [ih]

theorem hget_hdel_ne (heap : SlabHeap) (a b : Nat)
    (h : b ≠ a) : hget (hdel heap a) b = hget heap b := by
  induction heap with
  | nil => rfl
  | cons hd t ih =>
    obtain ⟨c, s1⟩ := hd
    by_cases hac : a = c
    · subst hac
      simp [hdel, hget, h]
    · simp only [hdel, if_neg hac, hget]
      by_cases hbc : b = c
      · rw [if_pos hbc, if_pos hbc]
      · rw [if_neg hbc, if_neg hbc]
        exact ih

theorem hdom_hdel_sublist (heap : SlabHeap) (a : Nat) :
    (hdom (hdel heap a)).Sublist (hdom heap) := by
  induction heap with
  | nil => exact List.Sublist.refl _
  | cons hd t ih =>
    obtain ⟨c, s1⟩ := hd
    by_cases hac : a = c
    · simp only [hdel, if_pos hac, hdom, List.map_cons]
      exact List.Sublist.cons _ (List.Sublist.refl _)
    · simp only [hdel, if_neg hac, hdom, List.map_cons]
      exact List.Sublist.cons₂ _ ih

theorem hget_hdel_self (heap : SlabHeap) (a : Nat)
    (hnd : (hdom heap).Nodup) : hget (hdel heap a) a = none := by
  induction heap with
  | nil => rfl
  | cons hd t ih =>
    obtain ⟨c, s1⟩ := hd
    simp only [hdom, List.map_cons, List.nodup_cons] at hnd
    by_cases hac : a = c
    · subst hac
      simp only [hdel, if_pos rfl]
      rw [hget_eq_none_iff]
      exact hnd.1
    · simp only [hdel, if_neg hac, hget, if_neg hac]
      exact ih hnd.2

theorem length_hdel (heap : SlabHeap) (a : Nat)
    (h : a ∈ hdom heap) : (hdel heap a).length + 1 = heap.length := by
  induction heap with
  | nil => simp [hdom] at h
  | cons hd t ih =>
    obtain ⟨c, s1⟩ := hd
    by_cases hac : a = c
    · simp [hdel, if_pos hac]
    · simp only [hdel, if_neg hac, List.length_cons]
      simp only [hdom, List.map_cons, List.mem_cons] at h
      rw [← ih (h.resolve_left hac)]

theorem mem_hdom_hdel (heap : SlabHeap) (a b : Nat)
    (hnd : (hdom heap).Nodup) : b ∈ hdom (hdel heap a) ↔ b ∈ hdom heap ∧ b ≠ a := by
  constructor
  · intro hb
    by_cases hba : b = a
    · subst hba
      have h0 := hget_hdel_self heap b hnd
      rw [hget_eq_none_iff] at h0
      exact absurd hb h0
    · exact ⟨(hdom_hdel_sublist heap a).mem hb, hba⟩
  · rintro ⟨hb, hba⟩
    obtain ⟨s, hs⟩ := hget_isSome_of_mem hb
    have h1 : hget (hdel heap a) b = some s := by
      rw [hget_hdel_ne heap a b hba]
      exact hs
    exact hget_mem_dom h1

theorem hwrite_eq {heap : SlabHeap} {a : Nat} {s : slabStruct} (f : slabStruct → slabStruct)
    (h : hget heap a = some s) : hwrite heap a f = some (hset heap a (f s)) := by
  unfold hwrite
  rw [h]

/-! ### Chain segment lemmas -/

theorem isSeg_nil_iff {heap : SlabHeap} {prev h pOut hOut : Option Nat} :
    isSeg heap prev h [] pOut hOut ↔ (pOut = prev ∧ hOut = h) := Iff.rfl

theorem isSeg_cons_iff {heap : SlabHeap} {prev h pOut hOut : Option Nat} {a : Nat} {l : List Nat} :
    isSeg heap prev h (a :: l) pOut hOut ↔
      (h = some a ∧ ∃ s, hget heap a = some s ∧ s.previous = prev ∧
        isSeg heap (some a) s.next l pOut hOut) := Iff.rfl

theorem isSeg_append {heap : SlabHeap} {prev h pOut hOut : Option Nat} (l1 l2 : List Nat) :
    isSeg heap prev h (l1 ++ l2) pOut hOut ↔
      ∃ pm hm, isSeg heap prev h l1 pm hm ∧ isSeg heap pm hm l2 pOut hOut := by
  induction l1 generalizing prev h with
  | nil =>
    simp only [List.nil_append, isSeg_nil_iff]
    constructor
    · intro hx
      exact ⟨prev, h, ⟨rfl, rfl⟩, hx⟩
    · rintro ⟨pm, hm, ⟨hp, hh⟩, hx⟩
      rw [hp, hh] at hx
      exact hx
  | cons a t ih =>
    simp only [List.cons_append, isSeg_cons_iff]
    constructor
    · rintro ⟨hh, s, hs, hp, hrest⟩
      obtain ⟨pm, hm, h1, h2⟩ := (ih).mp hrest
      exact ⟨pm, hm, ⟨hh, s, hs, hp, h1⟩, h2⟩
    · rintro ⟨pm, hm, ⟨hh, s, hs, hp, h1⟩, h2⟩
      exact ⟨hh, s, hs, hp, (ih).mpr ⟨pm, hm, h1, h2⟩⟩

theorem isSeg_frame {heap1 heap2 : SlabHeap} {prev h pOut hOut : Option Nat} {l : List Nat}
    (hframe : ∀ a ∈ l, ∀ s, hget heap1 a = some s →
      ∃ s2, hget heap2 a = some s2 ∧ s2.previous = s.previous ∧ s2.next = s.next)
    (hseg : isSeg heap1 prev h l pOut hOut) : isSeg heap2 prev h l pOut hOut := by
  induction l generalizing prev h with
  | nil => exact hseg
  | cons a t ih =>
    obtain ⟨hh, s, hs, hp, hrest⟩ := hseg
    obtain ⟨s2, hs2, hprev, hnext⟩ := hframe a (List.mem_cons_self a t) s hs
    refine ⟨hh, s2, hs2, hprev.trans hp, ?_⟩
    rw [hnext]
    exact ih (fun b hb => hframe b (List.mem_cons_of_mem a hb)) hrest

theorem isSeg_frame_eq {heap1 heap2 : SlabHeap} {prev h pOut hOut : Option Nat} {l : List Nat}
    (hframe : ∀ a ∈ l, hget heap2 a = hget heap1 a)
    (hseg : isSeg heap1 prev h l pOut hOut) : isSeg heap2 prev h l pOut hOut := by
  refine isSeg_frame (fun a ha s hs => ⟨s, ?_, rfl, rfl⟩) hseg
  rw [hframe a ha]
  exact hs

theorem isSeg_mem {heap : SlabHeap} {prev h pOut hOut : Option Nat} {l : List Nat}
    (hseg : isSeg heap prev h l pOut hOut) : ∀ a ∈ l, ∃ s, hget heap a = some s := by
  induction l generalizing prev h with
  | nil => intro a ha; exact absurd ha (List.not_mem_nil a)
  | cons b t ih =>
    obtain ⟨hh, s, hs, hp, hrest⟩ := hseg
    intro a ha
    rcases List.mem_cons.mp ha with h1 | h1
    · subst h1; exact ⟨s, hs⟩
    · exact ih hrest a h1

theorem isSeg_last {heap : SlabHeap} {prev h pOut hOut : Option Nat} {l : List Nat} {b : Nat}
    (hseg : isSeg heap prev h (l ++ [b]) pOut hOut) : pOut = some b := by
  obtain ⟨pm, hm, h1, h2⟩ := (isSeg_append l [b]).mp hseg
  obtain ⟨hh, s, hs, hp, hrest⟩ := h2
  obtain ⟨hps, _⟩ := hrest
  rw [hps]

/-! ### Chain lemmas -/

theorem isChain_nil_iff {heap : SlabHeap} {prev h : Option Nat} :
    isChain heap prev h [] ↔ h = none := by
  unfold isChain
  simp only [isSeg_nil_iff]
  constructor
  · rintro ⟨p, hp, hh⟩
    exact hh.symm
  · intro hh
    exact ⟨prev, rfl, hh.symm⟩

theorem isChain_cons_iff {heap : SlabHeap} {prev h : Option Nat} {a : Nat} {l : List Nat} :
    isChain heap prev h (a :: l) ↔
      (h = some a ∧ ∃ s, hget heap a = some s ∧ s.previous = prev ∧
        isChain heap (some a) s.next l) := by
  unfold isChain
  simp only [isSeg_cons_iff]
  constructor
  · rintro ⟨p, hh, s, hs, hp, hseg⟩
    exact ⟨hh, s, hs, hp, p, hseg⟩
  · rintro ⟨hh, s, hs, hp, p, hseg⟩
    exact ⟨p, hh, s, hs, hp, hseg⟩

theorem isChain_frame {heap1 heap2 : SlabHeap} {prev h : Option Nat} {l : List Nat}
    (hframe : ∀ a ∈ l, ∀ s, hget heap1 a = some s →
      ∃ s2, hget heap2 a = some s2 ∧ s2.previous = s.previous ∧ s2.next = s.next)
    (hch : isChain heap1 prev h l) : isChain heap2 prev h l := by
  obtain ⟨p, hseg⟩ := hch
  exact ⟨p, isSeg_frame hframe hseg⟩

theorem isChain_frame_eq {heap1 heap2 : SlabHeap} {prev h : Option Nat} {l : List Nat}
    (hframe : ∀ a ∈ l, hget heap2 a = hget heap1 a)
    (hch : isChain heap1 prev h l) : isChain heap2 prev h l := by
  obtain ⟨p, hseg⟩ := hch
  exact ⟨p, isSeg_frame_eq hframe hseg⟩

theorem isChain_mem {heap : SlabHeap} {prev h : Option Nat} {l : List Nat}
    (hch : isChain heap prev h l) : ∀ a ∈ l, ∃ s, hget heap a = some s := by
  obtain ⟨p, hseg⟩ := hch
  exact isSeg_mem hseg

theorem isChain_head_mem {heap : SlabHeap} {prev h : Option Nat} {l : List Nat}
    (hch : isChain heap prev h l) : ∀ a, h = some a → a ∈ l := by
  intro a ha
  cases l with
  | nil =>
    rw [isChain_nil_iff] at hch
    rw [hch] at ha
    exact Option.noConfusion ha
  | cons b t =>
    rw [isChain_cons_iff] at hch
    rw [hch.1] at ha
    have heq : b = a := Option.some_inj.mp ha
    subst heq
    exact List.mem_cons_self b t

theorem isChain_head_ne {heap : SlabHeap} {prev h : Option Nat} {l : List Nat} {x : Nat}
    (hch : isChain heap prev h l) (hx : x ∉ l) : h ≠ some x := by
  intro hc
  exact hx (isChain_head_mem hch x hc)

theorem isChain_mem_dom {heap : SlabHeap} {prev h : Option Nat} {l : List Nat}
    (hch : isChain heap prev h l) : ∀ a ∈ l, a ∈ hdom heap := by
  intro a ha
  obtain ⟨s, hs⟩ := isChain_mem hch a ha
  exact hget_mem_dom hs

/-! ### Insertion: `push_front_raw` specification -/

theorem push_front_raw_spec (heap : SlabHeap) (hd : Option Nat) (slab : Nat) (s : slabStruct)
    (l : List Nat)
    (hs : hget heap slab = some s)
    (hch : isChain heap none hd l)
    (hnot : slab ∉ l)
    (hnd : l.Nodup) :
    ∃ heap', push_front_raw heap hd slab = some heap' ∧
      isChain heap' none (some slab) (slab :: l) ∧
      hget heap' slab = some { previous := none, next := hd, refcnt := s.refcnt } ∧
      (∀ b, b ≠ slab → b ∉ l → hget heap' b = hget heap b) ∧
      (∀ b s0, hget heap b = some s0 → ∃ s1, hget heap' b = some s1 ∧ s1.refcnt = s0.refcnt) ∧
      hdom heap' = hdom heap ∧
      heap'.length = heap.length := by
  have hmem : slab ∈ hdom heap := hget_mem_dom hs
  set s' : slabStruct := { previous := none, next := hd, refcnt := s.refcnt } with hs'
  have hw1 : hwrite heap slab (fun x => { x with next := hd, previous := none }) =
      some (hset heap slab s') := by
    rw [hwrite_eq _ hs]
  have hget1 : hget (hset heap slab s') slab = some s' := hget_hset_self heap slab s' hmem
  cases hd with
  | none =>
    have hl : l = [] := by
      cases l with
      | nil => rfl
      | cons a t =>
        rw [isChain_cons_iff] at hch
        exact absurd hch.1 (by simp)
    subst hl
    refine ⟨hset heap slab s', ?_, ?_, hget1, ?_, ?_, hdom_hset heap slab s',
      length_hset heap slab s'⟩
    · unfold push_front_raw
      rw [hw1]
      rfl
    · rw [isChain_cons_iff]
      exact ⟨rfl, s', hget1, rfl, isChain_nil_iff.mpr rfl⟩
    · intro b hb _
      exact hget_hset_ne heap slab b s' hb
    · intro b s0 hb
      by_cases hbs : b = slab
      · subst hbs
        rw [hb] at hs
        refine ⟨s', hget1, ?_⟩
        rw [Option.some_inj.mp hs]
      · refine ⟨s0, ?_, rfl⟩
        rw [hget_hset_ne heap slab b s' hbs]
        exact hb
  | some h0 =>
    cases l with
    | nil =>
      rw [isChain_nil_iff] at hch
      exact absurd hch (by simp)
    | cons a t =>
      rw [isChain_cons_iff] at hch
      obtain ⟨hha, s0, hs0, hs0p, hs0rest⟩ := hch
      have ha : a = h0 := by
        have := hha.symm
        exact Option.some_inj.mp this
      subst ha
      have hanecons : a ≠ slab := fun hc => hnot (hc ▸ List.mem_cons_self a t)
      have hslabne : slab ≠ a := fun hc => hanecons hc.symm
      have hget1a : hget (hset heap slab s') a = some s0 := by
        rw [hget_hset_ne heap slab a s' hanecons]
        exact hs0
      set s0' : slabStruct := { s0 with previous := some slab } with hs0'
      have hamem : a ∈ hdom (hset heap slab s') := hget_mem_dom hget1a
      set heap2 : SlabHeap := hset (hset heap slab s') a s0' with hheap2
      have hw2 : hwrite (hset heap slab s') a (fun x => { x with previous := some slab }) =
          some heap2 := by
        rw [hwrite_eq _ hget1a]
      have hnda : a ∉ t := by
        rw [List.nodup_cons] at hnd
        exact hnd.1
      have hframe_t : ∀ b ∈ t, hget heap2 b = hget heap b := by
        intro b hb
        have hb1 : b ≠ a := fun hc => hnda (hc ▸ hb)
        have hb2 : b ≠ slab := fun hc => hnot (hc ▸ List.mem_cons_of_mem a hb)
        rw [hheap2, hget_hset_ne _ a b s0' hb1, hget_hset_ne heap slab b s' hb2]
      have hget2slab : hget heap2 slab = some s' := by
        rw [hheap2, hget_hset_ne _ a slab s0' hslabne]
        exact hget1
      have hget2a : hget heap2 a = some s0' := hget_hset_self _ a s0' hamem
      refine ⟨heap2, ?_, ?_, hget2slab, ?_, ?_, ?_, ?_⟩
      · unfold push_front_raw
        rw [hw1]
        show hwrite (hset heap slab s') a (fun x => { x with previous := some slab }) = some heap2
        exact hw2
      · rw [isChain_cons_iff]
        refine ⟨rfl, s', hget2slab, rfl, ?_⟩
        show isChain heap2 (some slab) (some a) (a :: t)
        rw [isChain_cons_iff]
        refine ⟨rfl, s0', hget2a, rfl, ?_⟩
        show isChain heap2 (some a) s0.next t
        exact isChain_frame_eq hframe_t hs0rest
      · intro b hbslab hbl
        have hb1 : b ≠ a := fun hc => hbl (hc ▸ List.mem_cons_self a t)
        rw [hheap2, hget_hset_ne _ a b s0' hb1, hget_hset_ne heap slab b s' hbslab]
      · intro b sb hb
        by_cases hbs : b = slab
        · subst hbs
          rw [hb] at hs
          refine ⟨s', hget2slab, ?_⟩
          rw [Option.some_inj.mp hs]
        · by_cases hba : b = a
          · subst hba
            rw [hb] at hs0
            refine ⟨s0', hget2a, ?_⟩
            rw [Option.some_inj.mp hs0]
          · refine ⟨sb, ?_, rfl⟩
            rw [hheap2, hget_hset_ne _ a b s0' hba, hget_hset_ne heap slab b s' hbs]
            exact hb
      · rw [hheap2, hdom_hset, hdom_hset]
      · rw [hheap2, length_hset, length_hset]

/-! ### The `free_list` walk -/

theorem free_list_loop_spec (l : List Nat) : ∀ (fuel : Nat) (st : State) (prev h : Option Nat),
    isChain st.heap prev h l → l.Nodup → (hdom st.heap).Nodup → l.length ≤ fuel →
    ∃ st', free_list_loop fuel st h = some st' ∧
      st'.cache = st.cache ∧ st'.nacq = st.nacq ∧ st'.nrel = st.nrel + l.length ∧
      (∀ b, b ∉ l → hget st'.heap b = hget st.heap b) ∧
      (∀ b ∈ l, hget st'.heap b = none) ∧
      st'.heap.length + l.length = st.heap.length ∧
      (hdom st'.heap).Nodup := by
  induction l with
  | nil =>
    intro fuel st prev h hch _ hdnd _
    rw [isChain_nil_iff] at hch
    subst hch
    refine ⟨st, ?_, rfl, rfl, by simp, fun b _ => rfl, fun b hb => absurd hb (List.not_mem_nil b),
      by simp, hdnd⟩
    cases fuel <;> rfl
  | cons a t ih =>
    intro fuel st prev h hch hnd hdnd hfuel
    rw [isChain_cons_iff] at hch
    obtain ⟨hh, sa, hsa, hsap, hrest⟩ := hch
    subst hh
    cases fuel with
    | zero => exact absurd hfuel (by simp)
    | succ f =>
      rw [List.nodup_cons] at hnd
      have hamem : a ∈ hdom st.heap := hget_mem_dom hsa
      set st2 : State := { st with heap := hdel st.heap a, nrel := st.nrel + 1 } with hst2
      have hch2 : isChain st2.heap (some a) sa.next t := by
        refine isChain_frame_eq ?_ hrest
        intro b hb
        exact hget_hdel_ne st.heap a b (fun hc => hnd.1 (hc ▸ hb))
      have hdnd2 : (hdom st2.heap).Nodup := (hdom_hdel_sublist st.heap a).nodup hdnd
      obtain ⟨st', heq, hcache, hnacq, hnrel, hframe, hnone, hlen, hdnd'⟩ :=
        ih f st2 (some a) sa.next hch2 hnd.2 hdnd2 (by simpa using hfuel)
      refine ⟨st', ?_, hcache, hnacq, ?_, ?_, ?_, ?_, hdnd'⟩
      · show free_list_loop (f + 1) st (some a) = some st'
        unfold free_list_loop
        rw [hsa]
        exact heq
      · rw [hnrel]
        show st.nrel + 1 + t.length = st.nrel + (t.length + 1)
        omega
      · intro b hb
        have hb1 : b ≠ a := fun hc => hb (hc ▸ List.mem_cons_self a t)
        have hb2 : b ∉ t := fun hc => hb (List.mem_cons_of_mem a hc)
        rw [hframe b hb2]
        exact hget_hdel_ne st.heap a b hb1
      · intro b hb
        rcases List.mem_cons.mp hb with hb1 | hb1
        · subst hb1
          rw [hframe b hnd.1]
          exact hget_hdel_self st.heap b hdnd
        · exact hnone b hb1
      · have h1 : (hdel st.heap a).length + 1 = st.heap.length := length_hdel st.heap a hamem
        have h2 : st'.heap.length + t.length = (hdel st.heap a).length := hlen
        simp only [List.length_cons]
        omega

theorem free_list_spec (st : State) (prev h : Option Nat) (l : List Nat)
    (hch : isChain st.heap prev h l) (hnd : l.Nodup) (hdnd : (hdom st.heap).Nodup) :
    ∃ st', free_list st h = some st' ∧
      st'.cache = st.cache ∧ st'.nacq = st.nacq ∧ st'.nrel = st.nrel + l.length ∧
      (∀ b, b ∉ l → hget st'.heap b = hget st.heap b) ∧
      (∀ b ∈ l, hget st'.heap b = none) ∧
      st'.heap.length + l.length = st.heap.length ∧
      (hdom st'.heap).Nodup := by
  have hsub : l ⊆ hdom st.heap := fun b hb => isChain_mem_dom hch b hb
  have hlen : l.length ≤ st.heap.length := by
    have := (List.subperm_of_subset hnd hsub).length_le
    simpa [hdom] using this
  exact free_list_loop_spec l (st.heap.length + 1) st prev h hch hnd hdnd (by omega)

/-! ### Unlink: `remove_from_empty_list` specification -/

theorem head?_append_cons_ne_nil {α : Type} (l1 : List α) (x : α) (l2 : List α)
    (h : l1 ≠ []) : (l1 ++ x :: l2).head? = (l1 ++ l2).head? := by
  cases l1 with
  | nil => exact absurd rfl h
  | cons a t => rfl

theorem remove_spec_partial (st : State) (lc l1 l2 le : List Nat) (x : Nat) (sx : slabStruct)
    (hsx : hget st.heap x = some sx)
    (hc : isChain st.heap none st.cache.complete_slab lc)
    (hp : isChain st.heap none st.cache.partially_slab (l1 ++ x :: l2))
    (he : isChain st.heap none st.cache.empty_slab le)
    (hnd : (lc ++ (l1 ++ x :: l2) ++ le).Nodup) :
    ∃ heap', remove_from_empty_list st x = some
        { st with
          heap := heap'
          cache := { st.cache with partially_slab := (l1 ++ l2).head? } } ∧
      isChain heap' none ((l1 ++ l2).head?) (l1 ++ l2) ∧
      isChain heap' none st.cache.complete_slab lc ∧
      isChain heap' none st.cache.empty_slab le ∧
      hget heap' x = some { previous := none, next := none, refcnt := sx.refcnt } ∧
      (∀ b s0, hget st.heap b = some s0 → ∃ s1, hget heap' b = some s1 ∧ s1.refcnt = s0.refcnt) ∧
      (∀ b, b ∉ l1 ++ x :: l2 → hget heap' b = hget st.heap b) ∧
      hdom heap' = hdom st.heap ∧
      heap'.length = st.heap.length := by
  -- unpack disjointness (the big append associates as (lc ++ (l1 ++ x :: l2)) ++ le)
  have hnd0 := List.nodup_append.mp hnd
  have hnd1 := List.nodup_append.mp hnd0.1
  have hndp : (l1 ++ x :: l2).Nodup := hnd1.2.1
  have hnde : le.Nodup := hnd0.2.1
  have hndc : lc.Nodup := hnd1.1
  have hxp : x ∈ l1 ++ x :: l2 := List.mem_append_right l1 (List.mem_cons_self x l2)
  have hxle : x ∉ le := fun hxe => hnd0.2.2 (List.mem_append_right lc hxp) hxe
  have hframe_lc : ∀ b ∈ lc, b ∉ l1 ++ x :: l2 :=
    fun b hb hbc => hnd1.2.2 hb hbc
  have hframe_le : ∀ b ∈ le, b ∉ l1 ++ x :: l2 :=
    fun b hb hbc => hnd0.2.2 (List.mem_append_right lc hbc) hb
  have hne_e : st.cache.empty_slab ≠ some x := isChain_head_ne he hxle
  -- decompose the partial chain around x
  obtain ⟨pO, hseg⟩ := hp
  obtain ⟨pm, hm, hseg1, hseg2⟩ := (isSeg_append l1 (x :: l2)).mp hseg
  obtain ⟨sxp, sxn, sxr⟩ := sx
  obtain ⟨hmx, sx', hsx', hsxp, hseg3⟩ := hseg2
  have hsxeq : sx' = ⟨sxp, sxn, sxr⟩ := by
    rw [hsx] at hsx'
    exact (Option.some_inj.mp hsx').symm
  subst hsxeq
  -- nodup facts inside the partial list
  have hndp1 := List.nodup_append.mp hndp
  have hx_not_l1 : x ∉ l1 := fun hx1 => hndp1.2.2 hx1 (List.mem_cons_self x l2)
  have hx_not_l2 : x ∉ l2 := by
    have h2 := hndp1.2.1
    rw [List.nodup_cons] at h2
    exact h2.1
  have hl1_l2_disj : ∀ b ∈ l1, b ∉ l2 :=
    fun b hb hb2 => hndp1.2.2 hb (List.mem_cons_of_mem x hb2)
  simp only at hsxp hseg3
  rcases List.eq_nil_or_concat l1 with hl1 | ⟨l1', p, hl1⟩
  · -- x is the head of the partial list
    subst hl1
    obtain ⟨hpm, hhm⟩ := hseg1
    subst hpm
    subst hsxp
    have hhd : st.cache.partially_slab = some x := hhm.symm.trans hmx
    cases l2 with
    | nil =>
      -- singleton partial list: [x]
      obtain ⟨hpO, hnone⟩ := hseg3
      have hsxn : sxn = none := hnone.symm
      subst hsxn
      refine ⟨hset st.heap x ⟨none, none, sxr⟩, ?_, ?_, ?_, ?_, ?_, ?_, ?_, ?_, ?_⟩
      · unfold remove_from_empty_list
        rw [hsx]
        simp only [Option.bind_eq_bind', Option.some_bind']
        rw [if_neg hne_e, if_pos hhd]
        simp only [Option.pure_def, Option.bind_eq_bind', Option.some_bind']
        rw [hsx]
        simp only [Option.some_bind']
        rw [hwrite_eq _ hsx]
        simp only [Option.some_bind']
        rfl
      · simp only [List.nil_append]
        exact isChain_nil_iff.mpr rfl
      · refine isChain_frame_eq ?_ hc
        intro b hb
        exact hget_hset_ne _ x b _ (fun hbx => hframe_lc b hb (hbx ▸ hxp))
      · refine isChain_frame_eq ?_ he
        intro b hb
        exact hget_hset_ne _ x b _ (fun hbx => hframe_le b hb (hbx ▸ hxp))
      · exact hget_hset_self st.heap x _ (hget_mem_dom hsx)
      · intro b s0 hb
        by_cases hbx : b = x
        · subst hbx
          rw [hb] at hsx
          refine ⟨⟨none, none, sxr⟩, hget_hset_self st.heap b _ (hget_mem_dom hb), ?_⟩
          have heq0 := Option.some_inj.mp hsx
          subst heq0
          rfl
        · exact ⟨s0, by rw [hget_hset_ne _ x b _ hbx]; exact hb, rfl⟩
      · intro b hb
        exact hget_hset_ne _ x b _ (fun hbx => hb (hbx ▸ hxp))
      · exact hdom_hset st.heap x _
      · exact length_hset st.heap x _
    | cons nxt l2' =>
      obtain ⟨hmn, sn, hsn, hsnp, hseg4⟩ := hseg3
      have hsxn : sxn = some nxt := hmn
      subst hsxn
      have hnxt_ne_x : nxt ≠ x := fun hc' => hx_not_l2 (hc' ▸ List.mem_cons_self nxt l2')
      have hx_ne_nxt : x ≠ nxt := fun hc' => hnxt_ne_x hc'.symm
      have hg2x : hget (hset st.heap nxt { sn with previous := none }) x =
          some ⟨none, some nxt, sxr⟩ := by
        rw [hget_hset_ne _ nxt x _ hx_ne_nxt]
        exact hsx
      have hg3x : hget (hset (hset st.heap nxt { sn with previous := none }) x
          ⟨none, none, sxr⟩) x = some ⟨none, none, sxr⟩ :=
        hget_hset_self _ x _ (hget_mem_dom hg2x)
      have hnxt_mem : nxt ∈ x :: nxt :: l2' := List.mem_cons_of_mem x (List.mem_cons_self nxt l2')
      have hg3nxt : hget (hset (hset st.heap nxt { sn with previous := none }) x
          ⟨none, none, sxr⟩) nxt = some { sn with previous := none } := by
        rw [hget_hset_ne _ x nxt _ hnxt_ne_x]
        exact hget_hset_self st.heap nxt _ (hget_mem_dom hsn)
      have hframe23 : ∀ b, b ≠ x → b ≠ nxt →
          hget (hset (hset st.heap nxt { sn with previous := none }) x
            ⟨none, none, sxr⟩) b = hget st.heap b := by
        intro b hbx hbn
        rw [hget_hset_ne _ x b _ hbx, hget_hset_ne _ nxt b _ hbn]
      refine ⟨hset (hset st.heap nxt { sn with previous := none }) x ⟨none, none, sxr⟩,
        ?_, ?_, ?_, ?_, hg3x, ?_, ?_, ?_, ?_⟩
      · unfold remove_from_empty_list
        rw [hsx]
        simp only [Option.bind_eq_bind', Option.some_bind']
        rw [if_neg hne_e, if_pos hhd]
        simp only [Option.pure_def, Option.bind_eq_bind', Option.some_bind']
        rw [hsx]
        simp only [Option.some_bind']
        rw [hwrite_eq _ hsn]
        simp only [Option.some_bind']
        rw [hwrite_eq _ hg2x]
        simp only [Option.some_bind']
        rfl
      · -- new partial chain: nxt :: l2' with cleared back link
        simp only [List.nil_append, List.head?_cons]
        rw [isChain_cons_iff]
        refine ⟨rfl, { sn with previous := none }, hg3nxt, rfl, ?_⟩
        show isChain _ (some nxt) sn.next l2'
        refine isChain_frame_eq ?_ ⟨pO, hseg4⟩
        intro b hb
        have hbn : b ≠ nxt := by
          have h2 := hndp1.2.1
          rw [List.nodup_cons, List.nodup_cons] at h2
          exact fun hc' => h2.2.1 (hc' ▸ hb)
        have hbx : b ≠ x := fun hc' => hx_not_l2 (hc' ▸ List.mem_cons_of_mem nxt hb)
        exact hframe23 b hbx hbn
      · refine isChain_frame_eq ?_ hc
        intro b hb
        have hbP := hframe_lc b hb
        refine hframe23 b (fun hc' => hbP (hc' ▸ hxp)) (fun hc' => hbP ?_)
        rw [hc']
        exact List.mem_append_right [] hnxt_mem
      · refine isChain_frame_eq ?_ he
        intro b hb
        have hbP := hframe_le b hb
        refine hframe23 b (fun hc' => hbP (hc' ▸ hxp)) (fun hc' => hbP ?_)
        rw [hc']
        exact List.mem_append_right [] hnxt_mem
      · intro b s0 hb
        by_cases hbx : b = x
        · subst hbx
          rw [hb] at hsx
          refine ⟨⟨none, none, sxr⟩, hg3x, ?_⟩
          have heq0 := Option.some_inj.mp hsx
          subst heq0
          rfl
        · by_cases hbn : b = nxt
          · subst hbn
            rw [hb] at hsn
            refine ⟨{ sn with previous := none }, hg3nxt, ?_⟩
            have heq0 := Option.some_inj.mp hsn
            subst heq0
            rfl
          · exact ⟨s0, by rw [hframe23 b hbx hbn]; exact hb, rfl⟩
      · intro b hb
        refine hframe23 b (fun hc' => hb (hc' ▸ hxp)) (fun hc' => hb ?_)
        rw [hc']
        exact List.mem_append_right [] hnxt_mem
      · rw [hdom_hset, hdom_hset]
      · rw [length_hset, length_hset]
  · -- x has a predecessor p: the heads are untouched
    rw [List.concat_eq_append] at hl1
    subst hl1
    obtain ⟨pm2, hm2, hseg1a, hseg1b⟩ := (isSeg_append l1' [p]).mp hseg1
    obtain ⟨hm2p, sp, hsp, hspp, hseg1c⟩ := hseg1b
    subst hm2p
    obtain ⟨hpmp, hmspnext⟩ := hseg1c
    have hspnext : sp.next = some x := by
      rw [← hmspnext]
      exact hmx
    subst hpmp
    subst hsxp
    have hpmem : p ∈ l1' ++ [p] := List.mem_append_right l1' (List.mem_singleton.mpr rfl)
    have hp_ne_x : p ≠ x := fun hc' => hx_not_l1 (hc' ▸ hpmem)
    have hx_ne_p : x ≠ p := fun hc' => hp_ne_x hc'.symm
    have hp_not_l1' : p ∉ l1' := by
      have h2 := hndp1.1
      rw [List.nodup_append] at h2
      exact fun hc' => h2.2.2 hc' (List.mem_singleton.mpr rfl)
    have hhead : st.cache.partially_slab = ((l1' ++ [p]) ++ l2).head? := by
      cases l1' with
      | nil =>
        obtain ⟨hpm2, hhd⟩ := hseg1a
        simp only [List.nil_append, List.singleton_append, List.head?_cons]
        exact hhd.symm
      | cons a t =>
        obtain ⟨hhd, _⟩ := hseg1a
        simp only [List.cons_append, List.head?_cons]
        exact hhd
    have hcc : ({ st.cache with partially_slab := ((l1' ++ [p]) ++ l2).head? } : cache) =
        st.cache := by
      rw [← hhead]
    cases l2 with
    | nil =>
      obtain ⟨hpO, hnone⟩ := hseg3
      have hsxn : sxn = none := hnone.symm
      subst hsxn
      have hg1x : hget (hset st.heap p { sp with next := none }) x =
          some ⟨some p, none, sxr⟩ := by
        rw [hget_hset_ne _ p x _ hx_ne_p]
        exact hsx
      have hg3p : hget (hset (hset st.heap p { sp with next := none }) x ⟨none, none, sxr⟩) p =
          some { sp with next := none } := by
        rw [hget_hset_ne _ x p _ hp_ne_x]
        exact hget_hset_self st.heap p _ (hget_mem_dom hsp)
      have hg3x : hget (hset (hset st.heap p { sp with next := none }) x ⟨none, none, sxr⟩) x =
          some ⟨none, none, sxr⟩ := hget_hset_self _ x _ (hget_mem_dom hg1x)
      have hframe3 : ∀ b, b ≠ p → b ≠ x →
          hget (hset (hset st.heap p { sp with next := none }) x ⟨none, none, sxr⟩) b =
            hget st.heap b := by
        intro b hbp hbx
        rw [hget_hset_ne _ x b _ hbx, hget_hset_ne _ p b _ hbp]
      have hpP : p ∈ (l1' ++ [p]) ++ x :: [] := List.mem_append_left _ hpmem
      refine ⟨hset (hset st.heap p { sp with next := none }) x ⟨none, none, sxr⟩,
        ?_, ?_, ?_, ?_, hg3x, ?_, ?_, ?_, ?_⟩
      · rw [hcc]
        unfold remove_from_empty_list
        rw [hsx]
        simp only [Option.bind_eq_bind', Option.some_bind']
        rw [hwrite_eq _ hsp]
        simp only [Option.pure_def, Option.bind_eq_bind', Option.some_bind']
        rw [hg1x]
        simp only [Option.some_bind']
        rw [hwrite_eq _ hg1x]
        simp only [Option.some_bind']
      · rw [← hhead]
        simp only [List.append_nil]
        refine ⟨some p, (isSeg_append l1' [p]).mpr ⟨pm2, some p, ?_, ?_⟩⟩
        · refine isSeg_frame_eq ?_ hseg1a
          intro b hb
          exact hframe3 b (fun hc' => hp_not_l1' (hc' ▸ hb))
            (fun hc' => hx_not_l1 (hc' ▸ List.mem_append_left [p] hb))
        · refine ⟨rfl, { sp with next := none }, hg3p, ?_, ?_⟩
          · show sp.previous = pm2
            exact hspp
          · exact ⟨rfl, rfl⟩
      · refine isChain_frame_eq ?_ hc
        intro b hb
        have hbP := hframe_lc b hb
        exact hframe3 b (fun hc' => hbP (hc' ▸ hpP)) (fun hc' => hbP (hc' ▸ hxp))
      · refine isChain_frame_eq ?_ he
        intro b hb
        have hbP := hframe_le b hb
        exact hframe3 b (fun hc' => hbP (hc' ▸ hpP)) (fun hc' => hbP (hc' ▸ hxp))
      · intro b s0 hb
        by_cases hbx : b = x
        · subst hbx
          rw [hb] at hsx
          refine ⟨⟨none, none, sxr⟩, hg3x, ?_⟩
          have heq0 := Option.some_inj.mp hsx
          subst heq0
          rfl
        · by_cases hbp : b = p
          · subst hbp
            rw [hb] at hsp
            refine ⟨{ sp with next := none }, hg3p, ?_⟩
            have heq0 := Option.some_inj.mp hsp
            subst heq0
            rfl
          · exact ⟨s0, by rw [hframe3 b hbp hbx]; exact hb, rfl⟩
      · intro b hb
        exact hframe3 b (fun hc' => hb (hc' ▸ hpP)) (fun hc' => hb (hc' ▸ hxp))
      · rw [hdom_hset, hdom_hset]
      · rw [length_hset, length_hset]
    | cons nxt l2' =>
      obtain ⟨hmn, sn, hsn, hsnp, hseg4⟩ := hseg3
      have hsxn : sxn = some nxt := hmn
      subst hsxn
      have hnxt_ne_x : nxt ≠ x := fun hc' => hx_not_l2 (hc' ▸ List.mem_cons_self nxt l2')
      have hx_ne_nxt : x ≠ nxt := fun hc' => hnxt_ne_x hc'.symm
      have hp_not_l2 : p ∉ nxt :: l2' := hl1_l2_disj p hpmem
      have hp_ne_nxt : p ≠ nxt := fun hc' => hp_not_l2 (hc' ▸ List.mem_cons_self nxt l2')
      have hnxt_ne_p : nxt ≠ p := fun hc' => hp_ne_nxt hc'.symm
      have hnxt_not_l2' : nxt ∉ l2' := by
        have h2 := hndp1.2.1
        rw [List.nodup_cons, List.nodup_cons] at h2
        exact h2.2.1
      have hg1x : hget (hset st.heap p { sp with next := some nxt }) x =
          some ⟨some p, some nxt, sxr⟩ := by
        rw [hget_hset_ne _ p x _ hx_ne_p]
        exact hsx
      have hg1nxt : hget (hset st.heap p { sp with next := some nxt }) nxt = some sn := by
        rw [hget_hset_ne _ p nxt _ hnxt_ne_p]
        exact hsn
      have hg2x : hget (hset (hset st.heap p { sp with next := some nxt }) nxt
          { sn with previous := some p }) x = some ⟨some p, some nxt, sxr⟩ := by
        rw [hget_hset_ne _ nxt x _ hx_ne_nxt]
        exact hg1x
      have hg3p : hget (hset (hset (hset st.heap p { sp with next := some nxt }) nxt
          { sn with previous := some p }) x ⟨none, none, sxr⟩) p =
          some { sp with next := some nxt } := by
        rw [hget_hset_ne _ x p _ hp_ne_x, hget_hset_ne _ nxt p _ hp_ne_nxt]
        exact hget_hset_self st.heap p _ (hget_mem_dom hsp)
      have hg3nxt : hget (hset (hset (hset st.heap p { sp with next := some nxt }) nxt
          { sn with previous := some p }) x ⟨none, none, sxr⟩) nxt =
          some { sn with previous := some p } := by
        rw [hget_hset_ne _ x nxt _ hnxt_ne_x]
        exact hget_hset_self _ nxt _ (hget_mem_dom hg1nxt)
      have hg3x : hget (hset (hset (hset st.heap p { sp with next := some nxt }) nxt
          { sn with previous := some p }) x ⟨none, none, sxr⟩) x =
          some ⟨none, none, sxr⟩ := hget_hset_self _ x _ (hget_mem_dom hg2x)
      have hframe3 : ∀ b, b ≠ p → b ≠ x → b ≠ nxt →
          hget (hset (hset (hset st.heap p { sp with next := some nxt }) nxt
            { sn with previous := some p }) x ⟨none, none, sxr⟩) b = hget st.heap b := by
        intro b hbp hbx hbn
        rw [hget_hset_ne _ x b _ hbx, hget_hset_ne _ nxt b _ hbn, hget_hset_ne _ p b _ hbp]
      have hpP : p ∈ (l1' ++ [p]) ++ x :: nxt :: l2' := List.mem_append_left _ hpmem
      have hnxtP : nxt ∈ (l1' ++ [p]) ++ x :: nxt :: l2' :=
        List.mem_append_right _ (List.mem_cons_of_mem x (List.mem_cons_self nxt l2'))
      refine ⟨hset (hset (hset st.heap p { sp with next := some nxt }) nxt
        { sn with previous := some p }) x ⟨none, none, sxr⟩,
        ?_, ?_, ?_, ?_, hg3x, ?_, ?_, ?_, ?_⟩
      · rw [hcc]
        unfold remove_from_empty_list
        rw [hsx]
        simp only [Option.bind_eq_bind', Option.some_bind']
        rw [hwrite_eq _ hsp]
        simp only [Option.pure_def, Option.bind_eq_bind', Option.some_bind']
        rw [hg1x]
        simp only [Option.some_bind']
        rw [hwrite_eq _ hg1nxt]
        simp only [Option.some_bind']
        rw [hwrite_eq _ hg2x]
        simp only [Option.some_bind']
      · rw [← hhead]
        refine ⟨pO, (isSeg_append (l1' ++ [p]) (nxt :: l2')).mpr ⟨some p, some nxt, ?_, ?_⟩⟩
        · refine (isSeg_append l1' [p]).mpr ⟨pm2, some p, ?_, ?_⟩
          · refine isSeg_frame_eq ?_ hseg1a
            intro b hb
            refine hframe3 b (fun hc' => hp_not_l1' (hc' ▸ hb))
              (fun hc' => hx_not_l1 (hc' ▸ List.mem_append_left [p] hb)) ?_
            intro hc'
            refine hl1_l2_disj b (List.mem_append_left [p] hb) ?_
            rw [hc']
            exact List.mem_cons_self nxt l2'
          · refine ⟨rfl, { sp with next := some nxt }, hg3p, ?_, ?_⟩
            · show sp.previous = pm2
              exact hspp
            · exact ⟨rfl, rfl⟩
        · refine ⟨rfl, { sn with previous := some p }, hg3nxt, rfl, ?_⟩
          show isSeg _ (some nxt) sn.next l2' pO none
          refine isSeg_frame_eq ?_ hseg4
          intro b hb
          exact hframe3 b (fun hc' => hp_not_l2 (hc' ▸ List.mem_cons_of_mem nxt hb))
            (fun hc' => hx_not_l2 (hc' ▸ List.mem_cons_of_mem nxt hb))
            (fun hc' => hnxt_not_l2' (hc' ▸ hb))
      · refine isChain_frame_eq ?_ hc
        intro b hb
        have hbP := hframe_lc b hb
        exact hframe3 b (fun hc' => hbP (hc' ▸ hpP)) (fun hc' => hbP (hc' ▸ hxp))
          (fun hc' => hbP (hc' ▸ hnxtP))
      · refine isChain_frame_eq ?_ he
        intro b hb
        have hbP := hframe_le b hb
        exact hframe3 b (fun hc' => hbP (hc' ▸ hpP)) (fun hc' => hbP (hc' ▸ hxp))
          (fun hc' => hbP (hc' ▸ hnxtP))
      · intro b s0 hb
        by_cases hbx : b = x
        · subst hbx
          rw [hb] at hsx
          refine ⟨⟨none, none, sxr⟩, hg3x, ?_⟩
          have heq0 := Option.some_inj.mp hsx
          subst heq0
          rfl
        · by_cases hbp : b = p
          · subst hbp
            rw [hb] at hsp
            refine ⟨{ sp with next := some nxt }, hg3p, ?_⟩
            have heq0 := Option.some_inj.mp hsp
            subst heq0
            rfl
          · by_cases hbn : b = nxt
            · subst hbn
              rw [hb] at hsn
              refine ⟨{ sn with previous := some p }, hg3nxt, ?_⟩
              have heq0 := Option.some_inj.mp hsn
              subst heq0
              rfl
            · exact ⟨s0, by rw [hframe3 b hbp hbx hbn]; exact hb, rfl⟩
      · intro b hb
        exact hframe3 b (fun hc' => hb (hc' ▸ hpP)) (fun hc' => hb (hc' ▸ hxp))
          (fun hc' => hb (hc' ▸ hnxtP))
      · rw [hdom_hset, hdom_hset, hdom_hset]
      · rw [length_hset, length_hset, length_hset]

theorem remove_spec_full (st : State) (lc lp l1 l2 : List Nat) (x : Nat) (sx : slabStruct)
    (hsx : hget st.heap x = some sx)
    (hc : isChain st.heap none st.cache.complete_slab lc)
    (hp : isChain st.heap none st.cache.partially_slab lp)
    (he : isChain st.heap none st.cache.empty_slab (l1 ++ x :: l2))
    (hnd : (lc ++ lp ++ (l1 ++ x :: l2)).Nodup) :
    ∃ heap', remove_from_empty_list st x = some
        { st with
          heap := heap'
          cache := { st.cache with empty_slab := (l1 ++ l2).head? } } ∧
      isChain heap' none ((l1 ++ l2).head?) (l1 ++ l2) ∧
      isChain heap' none st.cache.complete_slab lc ∧
      isChain heap' none st.cache.partially_slab lp ∧
      hget heap' x = some { previous := none, next := none, refcnt := sx.refcnt } ∧
      (∀ b s0, hget st.heap b = some s0 → ∃ s1, hget heap' b = some s1 ∧ s1.refcnt = s0.refcnt) ∧
      (∀ b, b ∉ l1 ++ x :: l2 → hget heap' b = hget st.heap b) ∧
      hdom heap' = hdom st.heap ∧
      heap'.length = st.heap.length := by
  -- unpack disjointness (the big append associates as (lc ++ lp) ++ (l1 ++ x :: l2))
  have hnd0 := List.nodup_append.mp hnd
  have hnd1 := List.nodup_append.mp hnd0.1
  have hndp : (l1 ++ x :: l2).Nodup := hnd0.2.1
  have hnde : lp.Nodup := hnd1.2.1
  have hndc : lc.Nodup := hnd1.1
  have hxp : x ∈ l1 ++ x :: l2 := List.mem_append_right l1 (List.mem_cons_self x l2)
  have hframe_lc : ∀ b ∈ lc, b ∉ l1 ++ x :: l2 :=
    fun b hb hbc => hnd0.2.2 (List.mem_append_left lp hb) hbc
  have hframe_lp : ∀ b ∈ lp, b ∉ l1 ++ x :: l2 :=
    fun b hb hbc => hnd0.2.2 (List.mem_append_right lc hb) hbc
  -- decompose the full chain around x
  obtain ⟨pO, hseg⟩ := he
  obtain ⟨pm, hm, hseg1, hseg2⟩ := (isSeg_append l1 (x :: l2)).mp hseg
  obtain ⟨sxp, sxn, sxr⟩ := sx
  obtain ⟨hmx, sx', hsx', hsxp, hseg3⟩ := hseg2
  have hsxeq : sx' = ⟨sxp, sxn, sxr⟩ := by
    rw [hsx] at hsx'
    exact (Option.some_inj.mp hsx').symm
  subst hsxeq
  -- nodup facts inside the partial list
  have hndp1 := List.nodup_append.mp hndp
  have hx_not_l1 : x ∉ l1 := fun hx1 => hndp1.2.2 hx1 (List.mem_cons_self x l2)
  have hx_not_l2 : x ∉ l2 := by
    have h2 := hndp1.2.1
    rw [List.nodup_cons] at h2
    exact h2.1
  have hl1_l2_disj : ∀ b ∈ l1, b ∉ l2 :=
    fun b hb hb2 => hndp1.2.2 hb (List.mem_cons_of_mem x hb2)
  simp only at hsxp hseg3
  rcases List.eq_nil_or_concat l1 with hl1 | ⟨l1', p, hl1⟩
  · -- x is the head of the partial list
    subst hl1
    obtain ⟨hpm, hhm⟩ := hseg1
    subst hpm
    subst hsxp
    have hhd : st.cache.empty_slab = some x := hhm.symm.trans hmx
    cases l2 with
    | nil =>
      -- singleton partial list: [x]
      obtain ⟨hpO, hnone⟩ := hseg3
      have hsxn : sxn = none := hnone.symm
      subst hsxn
      refine ⟨hset st.heap x ⟨none, none, sxr⟩, ?_, ?_, ?_, ?_, ?_, ?_, ?_, ?_, ?_⟩
      · unfold remove_from_empty_list
        rw [hsx]
        simp only [Option.bind_eq_bind', Option.some_bind']
        rw [if_pos hhd]
        simp only [Option.pure_def, Option.bind_eq_bind', Option.some_bind']
        rw [hsx]
        simp only [Option.some_bind']
        rw [hwrite_eq _ hsx]
        simp only [Option.some_bind']
        rfl
      · simp only [List.nil_append]
        exact isChain_nil_iff.mpr rfl
      · refine isChain_frame_eq ?_ hc
        intro b hb
        exact hget_hset_ne _ x b _ (fun hbx => hframe_lc b hb (hbx ▸ hxp))
      · refine isChain_frame_eq ?_ hp
        intro b hb
        exact hget_hset_ne _ x b _ (fun hbx => hframe_lp b hb (hbx ▸ hxp))
      · exact hget_hset_self st.heap x _ (hget_mem_dom hsx)
      · intro b s0 hb
        by_cases hbx : b = x
        · subst hbx
          rw [hb] at hsx
          refine ⟨⟨none, none, sxr⟩, hget_hset_self st.heap b _ (hget_mem_dom hb), ?_⟩
          have heq0 := Option.some_inj.mp hsx
          subst heq0
          rfl
        · exact ⟨s0, by rw [hget_hset_ne _ x b _ hbx]; exact hb, rfl⟩
      · intro b hb
        exact hget_hset_ne _ x b _ (fun hbx => hb (hbx ▸ hxp))
      · exact hdom_hset st.heap x _
      · exact length_hset st.heap x _
    | cons nxt l2' =>
      obtain ⟨hmn, sn, hsn, hsnp, hseg4⟩ := hseg3
      have hsxn : sxn = some nxt := hmn
      subst hsxn
      have hnxt_ne_x : nxt ≠ x := fun hc' => hx_not_l2 (hc' ▸ List.mem_cons_self nxt l2')
      have hx_ne_nxt : x ≠ nxt := fun hc' => hnxt_ne_x hc'.symm
      have hg2x : hget (hset st.heap nxt { sn with previous := none }) x =
          some ⟨none, some nxt, sxr⟩ := by
        rw [hget_hset_ne _ nxt x _ hx_ne_nxt]
        exact hsx
      have hg3x : hget (hset (hset st.heap nxt { sn with previous := none }) x
          ⟨none, none, sxr⟩) x = some ⟨none, none, sxr⟩ :=
        hget_hset_self _ x _ (hget_mem_dom hg2x)
      have hnxt_mem : nxt ∈ x :: nxt :: l2' := List.mem_cons_of_mem x (List.mem_cons_self nxt l2')
      have hg3nxt : hget (hset (hset st.heap nxt { sn with previous := none }) x
          ⟨none, none, sxr⟩) nxt = some { sn with previous := none } := by
        rw [hget_hset_ne _ x nxt _ hnxt_ne_x]
        exact hget_hset_self st.heap nxt _ (hget_mem_dom hsn)
      have hframe23 : ∀ b, b ≠ x → b ≠ nxt →
          hget (hset (hset st.heap nxt { sn with previous := none }) x
            ⟨none, none, sxr⟩) b = hget st.heap b := by
        intro b hbx hbn
        rw [hget_hset_ne _ x b _ hbx, hget_hset_ne _ nxt b _ hbn]
      refine ⟨hset (hset st.heap nxt { sn with previous := none }) x ⟨none, none, sxr⟩,
        ?_, ?_, ?_, ?_, hg3x, ?_, ?_, ?_, ?_⟩
      · unfold remove_from_empty_list
        rw [hsx]
        simp only [Option.bind_eq_bind', Option.some_bind']
        rw [if_pos hhd]
        simp only [Option.pure_def, Option.bind_eq_bind', Option.some_bind']
        rw [hsx]
        simp only [Option.some_bind']
        rw [hwrite_eq _ hsn]
        simp only [Option.some_bind']
        rw [hwrite_eq _ hg2x]
        simp only [Option.some_bind']
        rfl
      · -- new partial chain: nxt :: l2' with cleared back link
        simp only [List.nil_append, List.head?_cons]
        rw [isChain_cons_iff]
        refine ⟨rfl, { sn with previous := none }, hg3nxt, rfl, ?_⟩
        show isChain _ (some nxt) sn.next l2'
        refine isChain_frame_eq ?_ ⟨pO, hseg4⟩
        intro b hb
        have hbn : b ≠ nxt := by
          have h2 := hndp1.2.1
          rw [List.nodup_cons, List.nodup_cons] at h2
          exact fun hc' => h2.2.1 (hc' ▸ hb)
        have hbx : b ≠ x := fun hc' => hx_not_l2 (hc' ▸ List.mem_cons_of_mem nxt hb)
        exact hframe23 b hbx hbn
      · refine isChain_frame_eq ?_ hc
        intro b hb
        have hbP := hframe_lc b hb
        refine hframe23 b (fun hc' => hbP (hc' ▸ hxp)) (fun hc' => hbP ?_)
        rw [hc']
        exact List.mem_append_right [] hnxt_mem
      · refine isChain_frame_eq ?_ hp
        intro b hb
        have hbP := hframe_lp b hb
        refine hframe23 b (fun hc' => hbP (hc' ▸ hxp)) (fun hc' => hbP ?_)
        rw [hc']
        exact List.mem_append_right [] hnxt_mem
      · intro b s0 hb
        by_cases hbx : b = x
        · subst hbx
          rw [hb] at hsx
          refine ⟨⟨none, none, sxr⟩, hg3x, ?_⟩
          have heq0 := Option.some_inj.mp hsx
          subst heq0
          rfl
        · by_cases hbn : b = nxt
          · subst hbn
            rw [hb] at hsn
            refine ⟨{ sn with previous := none }, hg3nxt, ?_⟩
            have heq0 := Option.some_inj.mp hsn
            subst heq0
            rfl
          · exact ⟨s0, by rw [hframe23 b hbx hbn]; exact hb, rfl⟩
      · intro b hb
        refine hframe23 b (fun hc' => hb (hc' ▸ hxp)) (fun hc' => hb ?_)
        rw [hc']
        exact List.mem_append_right [] hnxt_mem
      · rw [hdom_hset, hdom_hset]
      · rw [length_hset, length_hset]
  · -- x has a predecessor p: the heads are untouched
    rw [List.concat_eq_append] at hl1
    subst hl1
    obtain ⟨pm2, hm2, hseg1a, hseg1b⟩ := (isSeg_append l1' [p]).mp hseg1
    obtain ⟨hm2p, sp, hsp, hspp, hseg1c⟩ := hseg1b
    subst hm2p
    obtain ⟨hpmp, hmspnext⟩ := hseg1c
    have hspnext : sp.next = some x := by
      rw [← hmspnext]
      exact hmx
    subst hpmp
    subst hsxp
    have hpmem : p ∈ l1' ++ [p] := List.mem_append_right l1' (List.mem_singleton.mpr rfl)
    have hp_ne_x : p ≠ x := fun hc' => hx_not_l1 (hc' ▸ hpmem)
    have hx_ne_p : x ≠ p := fun hc' => hp_ne_x hc'.symm
    have hp_not_l1' : p ∉ l1' := by
      have h2 := hndp1.1
      rw [List.nodup_append] at h2
      exact fun hc' => h2.2.2 hc' (List.mem_singleton.mpr rfl)
    have hhead : st.cache.empty_slab = ((l1' ++ [p]) ++ l2).head? := by
      cases l1' with
      | nil =>
        obtain ⟨hpm2, hhd⟩ := hseg1a
        simp only [List.nil_append, List.singleton_append, List.head?_cons]
        exact hhd.symm
      | cons a t =>
        obtain ⟨hhd, _⟩ := hseg1a
        simp only [List.cons_append, List.head?_cons]
        exact hhd
    have hcc : ({ st.cache with empty_slab := ((l1' ++ [p]) ++ l2).head? } : cache) =
        st.cache := by
      rw [← hhead]
    cases l2 with
    | nil =>
      obtain ⟨hpO, hnone⟩ := hseg3
      have hsxn : sxn = none := hnone.symm
      subst hsxn
      have hg1x : hget (hset st.heap p { sp with next := none }) x =
          some ⟨some p, none, sxr⟩ := by
        rw [hget_hset_ne _ p x _ hx_ne_p]
        exact hsx
      have hg3p : hget (hset (hset st.heap p { sp with next := none }) x ⟨none, none, sxr⟩) p =
          some { sp with next := none } := by
        rw [hget_hset_ne _ x p _ hp_ne_x]
        exact hget_hset_self st.heap p _ (hget_mem_dom hsp)
      have hg3x : hget (hset (hset st.heap p { sp with next := none }) x ⟨none, none, sxr⟩) x =
          some ⟨none, none, sxr⟩ := hget_hset_self _ x _ (hget_mem_dom hg1x)
      have hframe3 : ∀ b, b ≠ p → b ≠ x →
          hget (hset (hset st.heap p { sp with next := none }) x ⟨none, none, sxr⟩) b =
            hget st.heap b := by
        intro b hbp hbx
        rw [hget_hset_ne _ x b _ hbx, hget_hset_ne _ p b _ hbp]
      have hpP : p ∈ (l1' ++ [p]) ++ x :: [] := List.mem_append_left _ hpmem
      refine ⟨hset (hset st.heap p { sp with next := none }) x ⟨none, none, sxr⟩,
        ?_, ?_, ?_, ?_, hg3x, ?_, ?_, ?_, ?_⟩
      · rw [hcc]
        unfold remove_from_empty_list
        rw [hsx]
        simp only [Option.bind_eq_bind', Option.some_bind']
        rw [hwrite_eq _ hsp]
        simp only [Option.pure_def, Option.bind_eq_bind', Option.some_bind']
        rw [hg1x]
        simp only [Option.some_bind']
        rw [hwrite_eq _ hg1x]
        simp only [Option.some_bind']
      · rw [← hhead]
        simp only [List.append_nil]
        refine ⟨some p, (isSeg_append l1' [p]).mpr ⟨pm2, some p, ?_, ?_⟩⟩
        · refine isSeg_frame_eq ?_ hseg1a
          intro b hb
          exact hframe3 b (fun hc' => hp_not_l1' (hc' ▸ hb))
            (fun hc' => hx_not_l1 (hc' ▸ List.mem_append_left [p] hb))
        · refine ⟨rfl, { sp with next := none }, hg3p, ?_, ?_⟩
          · show sp.previous = pm2
            exact hspp
          · exact ⟨rfl, rfl⟩
      · refine isChain_frame_eq ?_ hc
        intro b hb
        have hbP := hframe_lc b hb
        exact hframe3 b (fun hc' => hbP (hc' ▸ hpP)) (fun hc' => hbP (hc' ▸ hxp))
      · refine isChain_frame_eq ?_ hp
        intro b hb
        have hbP := hframe_lp b hb
        exact hframe3 b (fun hc' => hbP (hc' ▸ hpP)) (fun hc' => hbP (hc' ▸ hxp))
      · intro b s0 hb
        by_cases hbx : b = x
        · subst hbx
          rw [hb] at hsx
          refine ⟨⟨none, none, sxr⟩, hg3x, ?_⟩
          have heq0 := Option.some_inj.mp hsx
          subst heq0
          rfl
        · by_cases hbp : b = p
          · subst hbp
            rw [hb] at hsp
            refine ⟨{ sp with next := none }, hg3p, ?_⟩
            have heq0 := Option.some_inj.mp hsp
            subst heq0
            rfl
          · exact ⟨s0, by rw [hframe3 b hbp hbx]; exact hb, rfl⟩
      · intro b hb
        exact hframe3 b (fun hc' => hb (hc' ▸ hpP)) (fun hc' => hb (hc' ▸ hxp))
      · rw [hdom_hset, hdom_hset]
      · rw [length_hset, length_hset]
    | cons nxt l2' =>
      obtain ⟨hmn, sn, hsn, hsnp, hseg4⟩ := hseg3
      have hsxn : sxn = some nxt := hmn
      subst hsxn
      have hnxt_ne_x : nxt ≠ x := fun hc' => hx_not_l2 (hc' ▸ List.mem_cons_self nxt l2')
      have hx_ne_nxt : x ≠ nxt := fun hc' => hnxt_ne_x hc'.symm
      have hp_not_l2 : p ∉ nxt :: l2' := hl1_l2_disj p hpmem
      have hp_ne_nxt : p ≠ nxt := fun hc' => hp_not_l2 (hc' ▸ List.mem_cons_self nxt l2')
      have hnxt_ne_p : nxt ≠ p := fun hc' => hp_ne_nxt hc'.symm
      have hnxt_not_l2' : nxt ∉ l2' := by
        have h2 := hndp1.2.1
        rw [List.nodup_cons, List.nodup_cons] at h2
        exact h2.2.1
      have hg1x : hget (hset st.heap p { sp with next := some nxt }) x =
          some ⟨some p, some nxt, sxr⟩ := by
        rw [hget_hset_ne _ p x _ hx_ne_p]
        exact hsx
      have hg1nxt : hget (hset st.heap p { sp with next := some nxt }) nxt = some sn := by
        rw [hget_hset_ne _ p nxt _ hnxt_ne_p]
        exact hsn
      have hg2x : hget (hset (hset st.heap p { sp with next := some nxt }) nxt
          { sn with previous := some p }) x = some ⟨some p, some nxt, sxr⟩ := by
        rw [hget_hset_ne _ nxt x _ hx_ne_nxt]
        exact hg1x
      have hg3p : hget (hset (hset (hset st.heap p { sp with next := some nxt }) nxt
          { sn with previous := some p }) x ⟨none, none, sxr⟩) p =
          some { sp with next := some nxt } := by
        rw [hget_hset_ne _ x p _ hp_ne_x, hget_hset_ne _ nxt p _ hp_ne_nxt]
        exact hget_hset_self st.heap p _ (hget_mem_dom hsp)
      have hg3nxt : hget (hset (hset (hset st.heap p { sp with next := some nxt }) nxt
          { sn with previous := some p }) x ⟨none, none, sxr⟩) nxt =
          some { sn with previous := some p } := by
        rw [hget_hset_ne _ x nxt _ hnxt_ne_x]
        exact hget_hset_self _ nxt _ (hget_mem_dom hg1nxt)
      have hg3x : hget (hset (hset (hset st.heap p { sp with next := some nxt }) nxt
          { sn with previous := some p }) x ⟨none, none, sxr⟩) x =
          some ⟨none, none, sxr⟩ := hget_hset_self _ x _ (hget_mem_dom hg2x)
      have hframe3 : ∀ b, b ≠ p → b ≠ x → b ≠ nxt →
          hget (hset (hset (hset st.heap p { sp with next := some nxt }) nxt
            { sn with previous := some p }) x ⟨none, none, sxr⟩) b = hget st.heap b := by
        intro b hbp hbx hbn
        rw [hget_hset_ne _ x b _ hbx, hget_hset_ne _ nxt b _ hbn, hget_hset_ne _ p b _ hbp]
      have hpP : p ∈ (l1' ++ [p]) ++ x :: nxt :: l2' := List.mem_append_left _ hpmem
      have hnxtP : nxt ∈ (l1' ++ [p]) ++ x :: nxt :: l2' :=
        List.mem_append_right _ (List.mem_cons_of_mem x (List.mem_cons_self nxt l2'))
      refine ⟨hset (hset (hset st.heap p { sp with next := some nxt }) nxt
        { sn with previous := some p }) x ⟨none, none, sxr⟩,
        ?_, ?_, ?_, ?_, hg3x, ?_, ?_, ?_, ?_⟩
      · rw [hcc]
        unfold remove_from_empty_list
        rw [hsx]
        simp only [Option.bind_eq_bind', Option.some_bind']
        rw [hwrite_eq _ hsp]
        simp only [Option.pure_def, Option.bind_eq_bind', Option.some_bind']
        rw [hg1x]
        simp only [Option.some_bind']
        rw [hwrite_eq _ hg1nxt]
        simp only [Option.some_bind']
        rw [hwrite_eq _ hg2x]
        simp only [Option.some_bind']
      · rw [← hhead]
        refine ⟨pO, (isSeg_append (l1' ++ [p]) (nxt :: l2')).mpr ⟨some p, some nxt, ?_, ?_⟩⟩
        · refine (isSeg_append l1' [p]).mpr ⟨pm2, some p, ?_, ?_⟩
          · refine isSeg_frame_eq ?_ hseg1a
            intro b hb
            refine hframe3 b (fun hc' => hp_not_l1' (hc' ▸ hb))
              (fun hc' => hx_not_l1 (hc' ▸ List.mem_append_left [p] hb)) ?_
            intro hc'
            refine hl1_l2_disj b (List.mem_append_left [p] hb) ?_
            rw [hc']
            exact List.mem_cons_self nxt l2'
          · refine ⟨rfl, { sp with next := some nxt }, hg3p, ?_, ?_⟩
            · show sp.previous = pm2
              exact hspp
            · exact ⟨rfl, rfl⟩
        · refine ⟨rfl, { sn with previous := some p }, hg3nxt, rfl, ?_⟩
          show isSeg _ (some nxt) sn.next l2' pO none
          refine isSeg_frame_eq ?_ hseg4
          intro b hb
          exact hframe3 b (fun hc' => hp_not_l2 (hc' ▸ List.mem_cons_of_mem nxt hb))
            (fun hc' => hx_not_l2 (hc' ▸ List.mem_cons_of_mem nxt hb))
            (fun hc' => hnxt_not_l2' (hc' ▸ hb))
      · refine isChain_frame_eq ?_ hc
        intro b hb
        have hbP := hframe_lc b hb
        exact hframe3 b (fun hc' => hbP (hc' ▸ hpP)) (fun hc' => hbP (hc' ▸ hxp))
          (fun hc' => hbP (hc' ▸ hnxtP))
      · refine isChain_frame_eq ?_ hp
        intro b hb
        have hbP := hframe_lp b hb
        exact hframe3 b (fun hc' => hbP (hc' ▸ hpP)) (fun hc' => hbP (hc' ▸ hxp))
          (fun hc' => hbP (hc' ▸ hnxtP))
      · intro b s0 hb
        by_cases hbx : b = x
        · subst hbx
          rw [hb] at hsx
          refine ⟨⟨none, none, sxr⟩, hg3x, ?_⟩
          have heq0 := Option.some_inj.mp hsx
          subst heq0
          rfl
        · by_cases hbp : b = p
          · subst hbp
            rw [hb] at hsp
            refine ⟨{ sp with next := some nxt }, hg3p, ?_⟩
            have heq0 := Option.some_inj.mp hsp
            subst heq0
            rfl
          · by_cases hbn : b = nxt
            · subst hbn
              rw [hb] at hsn
              refine ⟨{ sn with previous := some p }, hg3nxt, ?_⟩
              have heq0 := Option.some_inj.mp hsn
              subst heq0
              rfl
            · exact ⟨s0, by rw [hframe3 b hbp hbx hbn]; exact hb, rfl⟩
      · intro b hb
        exact hframe3 b (fun hc' => hb (hc' ▸ hpP)) (fun hc' => hb (hc' ▸ hxp))
          (fun hc' => hb (hc' ▸ hnxtP))
      · rw [hdom_hset, hdom_hset, hdom_hset]
      · rw [length_hset, length_hset, length_hset]

/-! ### Lifting lemmas for the insert wrappers and arithmetic helpers -/

theorem insert_in_complete_list_eq {st : State} {slab : Nat} {heap' : SlabHeap}
    (h : push_front_raw st.heap st.cache.complete_slab slab = some heap') :
    insert_in_complete_list st slab = some
      { st with
        heap := heap'
        cache := { st.cache with complete_slab := some slab } } := by
  unfold insert_in_complete_list
  rw [h]
  rfl

theorem insert_in_partially_list_eq {st : State} {slab : Nat} {heap' : SlabHeap}
    (h : push_front_raw st.heap st.cache.partially_slab slab = some heap') :
    insert_in_partially_list st slab = some
      { st with
        heap := heap'
        cache := { st.cache with partially_slab := some slab } } := by
  unfold insert_in_partially_list
  rw [h]
  rfl

theorem insert_in_empty_list_eq {st : State} {slab : Nat} {heap' : SlabHeap}
    (h : push_front_raw st.heap st.cache.empty_slab slab = some heap') :
    insert_in_empty_list st slab = some
      { st with
        heap := heap'
        cache := { st.cache with empty_slab := some slab } } := by
  unfold insert_in_empty_list
  rw [h]
  rfl

/-- The `uint32_t` decrement `refcnt -= 1` on a value in `[1, 2^32)` is plain
subtraction by one. -/
theorem dec32_eq (r : Nat) (h1 : 1 ≤ r) (h2 : r < 2 ^ 32) :
    (r + (2 ^ 32 - 1)) % 2 ^ 32 = r - 1 := by
  have hsplit : r + (2 ^ 32 - 1) = (r - 1) + 1 * 2 ^ 32 := by omega
  rw [hsplit, Nat.add_mul_mod_self_right]
  exact Nat.mod_eq_of_lt (by omega)

/-- The `uint32_t` increment `refcnt += 1` below the modulus is plain
addition. -/
theorem inc32_eq (r : Nat) (h : r + 1 < 2 ^ 32) :
    (r + 1) % 2 ^ 32 = r + 1 :=
  Nat.mod_eq_of_lt h

/-- Masking with `calculate_slab_start` recovers the base of any valid slot
pointer, for any cache with sane geometry. -/
theorem mask_recovers (c : cache) (base k : Nat)
    (hg : geomOK c) (hb : goodBase c base) (hk : k < c.slab_objects) :
    calculate_slab_start c.slab_order (base + sizeofSlabStruct + c.object_size * k) = base := by
  obtain ⟨hos, hobj1, hobj2, hord, hfit⟩ := hg
  obtain ⟨hb0, halign, hbound⟩ := hb
  have hoff : sizeofSlabStruct + c.object_size * k < 2 ^ (c.slab_order + 12) := by
    have h1 : c.object_size * k + c.object_size ≤ c.object_size * c.slab_objects := by
      have hk1 : k + 1 ≤ c.slab_objects := hk
      calc c.object_size * k + c.object_size = c.object_size * (k + 1) := by ring
        _ ≤ c.object_size * c.slab_objects := Nat.mul_le_mul_left _ hk1
    omega
  have hx : base + sizeofSlabStruct + c.object_size * k < 2 ^ 64 := by omega
  obtain ⟨q, hq⟩ := Nat.dvd_of_mod_eq_zero halign
  show land64 _ _ = base
  rw [land64_mask (c.slab_order + 12) _ hord hx]
  have hdiv : (base + sizeofSlabStruct + c.object_size * k) / 2 ^ (c.slab_order + 12) = q := by
    rw [hq]
    have hpos : 0 < 2 ^ (c.slab_order + 12) := Nat.pos_pow_of_pos _ (by norm_num)
    rw [Nat.add_assoc, Nat.mul_add_div hpos]
    have h0 : (sizeofSlabStruct + c.object_size * k) / 2 ^ (c.slab_order + 12) = 0 :=
      Nat.div_eq_of_lt hoff
    omega
  rw [hdiv, ← hq]

/-- Reading through a freshly consed heap entry. -/
theorem hget_cons_self (heap : SlabHeap) (b : Nat) (s : slabStruct) :
    hget ((b, s) :: heap) b = some s := by
  simp [hget]

theorem hget_cons_ne (heap : SlabHeap) (a b : Nat) (s : slabStruct) (h : b ≠ a) :
    hget ((a, s) :: heap) b = hget heap b := by
  simp [hget, h]

/-! ### Permutation helpers for list surgery -/

theorem perm_pull_middle (lc l1 l2 le : List Nat) (x : Nat) :
    List.Perm (lc ++ (l1 ++ x :: l2) ++ le) (x :: (lc ++ (l1 ++ l2) ++ le)) := by
  have h1 : List.Perm (l1 ++ x :: l2) (x :: (l1 ++ l2)) := List.perm_middle
  have h2 : List.Perm (lc ++ (l1 ++ x :: l2) ++ le) (lc ++ (x :: (l1 ++ l2)) ++ le) :=
    (h1.append_left lc).append_right le
  refine h2.trans ?_
  have h3 : lc ++ (x :: (l1 ++ l2)) ++ le = lc ++ x :: ((l1 ++ l2) ++ le) := by
    simp [List.append_assoc]
  rw [h3]
  refine List.perm_middle.trans ?_
  have h4 : lc ++ ((l1 ++ l2) ++ le) = lc ++ (l1 ++ l2) ++ le := by
    simp [List.append_assoc]
  rw [h4]

theorem perm_pull_middle_right (lc lp l1 l2 : List Nat) (x : Nat) :
    List.Perm (lc ++ lp ++ (l1 ++ x :: l2)) (x :: (lc ++ lp ++ (l1 ++ l2))) := by
  have h1 : List.Perm (l1 ++ x :: l2) (x :: (l1 ++ l2)) := List.perm_middle
  have h2 : List.Perm (lc ++ lp ++ (l1 ++ x :: l2)) (lc ++ lp ++ (x :: (l1 ++ l2))) :=
    h1.append_left (lc ++ lp)
  refine h2.trans ?_
  have h3 : lc ++ lp ++ (x :: (l1 ++ l2)) = (lc ++ lp) ++ x :: (l1 ++ l2) := rfl
  rw [h3]
  exact List.perm_middle

theorem perm_cons_front (lc lp le : List Nat) (x : Nat) :
    List.Perm (x :: (lc ++ lp ++ le)) ((x :: lc) ++ lp ++ le) := by
  simp [List.cons_append]

/-! ### `cache_free` preserves well-formedness -/

theorem cache_free_preserves_WF (st : State) (lc lp le : List Nat) (base k : Nat)
    (s : slabStruct)
    (hInv : InvWith st lc lp le)
    (hs : hget st.heap base = some s)
    (hr1 : 1 ≤ s.refcnt)
    (hk : k < st.cache.slab_objects) :
    ∃ st', cache_free st (base + sizeofSlabStruct + st.cache.object_size * k) = some st' ∧
      WF st' ∧
      st'.cache.object_size = st.cache.object_size ∧
      st'.cache.slab_order = st.cache.slab_order ∧
      st'.cache.slab_objects = st.cache.slab_objects ∧
      st'.nacq = st.nacq ∧ st'.nrel = st.nrel ∧ st'.heap.length = st.heap.length := by
  obtain ⟨hcC, hcP, hcE, hnd, hperm, ⟨holc, holp, hole⟩, hgood, hgeom, hcnt⟩ := hInv
  have hbase : base ∈ hdom st.heap := hget_mem_dom hs
  have hmask := mask_recovers st.cache base k hgeom (hgood base hbase) hk
  have hmem3 : base ∈ lc ++ lp ++ le := hperm.mem_iff.mp hbase
  have hnotc : base ∉ lc := by
    intro hb
    obtain ⟨s0, hs0, h0⟩ := holc base hb
    rw [hs0] at hs
    have heq0 := Option.some_inj.mp hs
    subst heq0
    omega
  have hmemPE : base ∈ lp ∨ base ∈ le := by
    rcases List.mem_append.mp hmem3 with h | h
    · rcases List.mem_append.mp h with h1 | h1
      · exact absurd h1 hnotc
      · exact Or.inl h1
    · exact Or.inr h
  have hrmax : s.refcnt ≤ st.cache.slab_objects := by
    rcases hmemPE with h | h
    · obtain ⟨s0, hs0, h1, h2⟩ := holp base h
      rw [hs0] at hs
      have heq0 := Option.some_inj.mp hs
      subst heq0
      omega
    · obtain ⟨s0, hs0, h1, h2⟩ := hole base h
      rw [hs0] at hs
      have heq0 := Option.some_inj.mp hs
      subst heq0
      omega
  have hmax32 : st.cache.slab_objects < 2 ^ 32 := hgeom.2.2.1
  have hdec : (s.refcnt + (2 ^ 32 - 1)) % 2 ^ 32 = s.refcnt - 1 :=
    dec32_eq s.refcnt hr1 (by omega)
  have hw : hwrite st.heap base (fun x => { x with refcnt := (x.refcnt + (2 ^ 32 - 1)) % 2 ^ 32 }) =
      some (hset st.heap base { s with refcnt := s.refcnt - 1 }) := by
    rw [hwrite_eq _ hs]
    simp only [hdec]
  have hs1 : hget (hset st.heap base { s with refcnt := s.refcnt - 1 }) base =
      some { s with refcnt := s.refcnt - 1 } :=
    hget_hset_self st.heap base _ hbase
  have hlink1 : ∀ (a : Nat) (s0 : slabStruct), hget st.heap a = some s0 →
      ∃ s2, hget (hset st.heap base { s with refcnt := s.refcnt - 1 }) a = some s2 ∧
        s2.previous = s0.previous ∧ s2.next = s0.next := by
    intro a s0 h0
    by_cases hab : a = base
    · subst hab
      rw [h0] at hs
      have heq0 := Option.some_inj.mp hs
      subst heq0
      exact ⟨{ s0 with refcnt := s0.refcnt - 1 }, hget_hset_self st.heap a _ (hget_mem_dom h0),
        rfl, rfl⟩
    · refine ⟨s0, ?_, rfl, rfl⟩
      rw [hget_hset_ne _ base a _ hab]
      exact h0
  have hcC1 : isChain (hset st.heap base { s with refcnt := s.refcnt - 1 }) none
      st.cache.complete_slab lc := isChain_frame (fun a _ => hlink1 a) hcC
  have hcP1 : isChain (hset st.heap base { s with refcnt := s.refcnt - 1 }) none
      st.cache.partially_slab lp := isChain_frame (fun a _ => hlink1 a) hcP
  have hcE1 : isChain (hset st.heap base { s with refcnt := s.refcnt - 1 }) none
      st.cache.empty_slab le := isChain_frame (fun a _ => hlink1 a) hcE
  by_cases h0 : s.refcnt - 1 = 0
  · -- the count reaches zero: unlink the slab and push it onto the complete list
    rcases hmemPE with hmemP | hmemE
    · -- the slab sits on the partial list
      obtain ⟨l1, l2, hlp⟩ := List.append_of_mem hmemP
      subst hlp
      have hndlp := List.nodup_append.mp (List.nodup_append.mp hnd).1
      have hndplist : (l1 ++ base :: l2).Nodup := hndlp.2.1
      have hbase_not_l1 : base ∉ l1 := by
        have h2 := List.nodup_append.mp hndplist
        exact fun hc' => h2.2.2 hc' (List.mem_cons_self base l2)
      have hbase_not_l2 : base ∉ l2 := by
        have h2 := List.nodup_append.mp hndplist
        have h3 := h2.2.1
        rw [List.nodup_cons] at h3
        exact h3.1
      obtain ⟨heap2, heq2, hchP2, hchC2, hchE2, hgx2, hpres2, hframe2, hdom2, hlen2⟩ :=
        remove_spec_partial { st with heap := hset st.heap base { s with refcnt := s.refcnt - 1 } }
          lc l1 l2 le base { s with refcnt := s.refcnt - 1 } hs1 hcC1 hcP1 hcE1 hnd
      have hgx2' : hget heap2 base = some ⟨none, none, s.refcnt - 1⟩ := hgx2
      obtain ⟨heap3, heqp, hchC3, hget3b, hframe3, hpres3, hdom3, hlen3⟩ :=
        push_front_raw_spec heap2 st.cache.complete_slab base ⟨none, none, s.refcnt - 1⟩ lc
          hgx2' hchC2 hnotc hndlp.1
      have hpermlist : List.Perm (lc ++ (l1 ++ base :: l2) ++ le)
          ((base :: lc) ++ (l1 ++ l2) ++ le) :=
        (perm_pull_middle lc l1 l2 le base).trans (perm_cons_front lc (l1 ++ l2) le base)
      refine ⟨{ cache := { st.cache with partially_slab := (l1 ++ l2).head?, complete_slab := some base }
                heap := heap3
                nacq := st.nacq
                nrel := st.nrel }, ?_, ?_, rfl, rfl, rfl, rfl, rfl, ?_⟩
      · unfold cache_free
        rw [hmask]
        simp only [Option.bind_eq_bind']
        rw [hw]
        simp only [Option.some_bind']
        rw [hs1]
        simp only [Option.some_bind']
        rw [if_pos (by simpa using h0)]
        rw [heq2]
        simp only [Option.some_bind']
        unfold insert_in_complete_list
        rw [show push_front_raw heap2 st.cache.complete_slab base = some heap3 from heqp]
        simp only [Option.bind_eq_bind', Option.some_bind']
        rfl
      · have hchase : ∀ (b : Nat) (s0 : slabStruct), b ≠ base → hget st.heap b = some s0 →
            ∃ s1', hget heap3 b = some s1' ∧ s1'.refcnt = s0.refcnt := by
          intro b s0 hbne h0get
          have h1 : hget (hset st.heap base { s with refcnt := s.refcnt - 1 }) b = some s0 := by
            rw [hget_hset_ne _ base b _ hbne]
            exact h0get
          obtain ⟨s2', h2', hr2'⟩ := hpres2 b s0 h1
          obtain ⟨s3', h3', hr3'⟩ := hpres3 b s2' h2'
          refine ⟨s3', h3', ?_⟩
          rw [hr3', hr2']
        have hdisj_le := (List.nodup_append.mp hnd).2.2
        have hdisj_clp := hndlp.2.2
        refine ⟨base :: lc, l1 ++ l2, le, ?_, ?_, ?_, ?_, ?_, ⟨?_, ?_, ?_⟩, ?_, hgeom, ?_⟩
        · show isChain heap3 none (some base) (base :: lc)
          exact hchC3
        · show isChain heap3 none ((l1 ++ l2).head?) (l1 ++ l2)
          refine isChain_frame_eq ?_ hchP2
          intro b hb
          have hbP : b ∈ l1 ++ base :: l2 := by
            rcases List.mem_append.mp hb with h | h
            · exact List.mem_append_left _ h
            · exact List.mem_append_right _ (List.mem_cons_of_mem base h)
          have hb1 : b ≠ base := by
            rcases List.mem_append.mp hb with h | h
            · exact fun hc' => hbase_not_l1 (hc' ▸ h)
            · exact fun hc' => hbase_not_l2 (hc' ▸ h)
          have hb2 : b ∉ lc := fun hbc => hdisj_clp hbc hbP
          exact hframe3 b hb1 hb2
        · show isChain heap3 none st.cache.empty_slab le
          refine isChain_frame_eq ?_ hchE2
          intro b hb
          have hbaseP : base ∈ lc ++ (l1 ++ base :: l2) :=
            List.mem_append_right lc (List.mem_append_right l1 (List.mem_cons_self base l2))
          have hb1 : b ≠ base := fun hc' => (hdisj_le hbaseP) (hc' ▸ hb)
          have hb2 : b ∉ lc := fun hbc => (hdisj_le (List.mem_append_left _ hbc)) hb
          exact hframe3 b hb1 hb2
        · exact hpermlist.nodup hnd
        · show (hdom heap3).Perm _
          have hd2 : hdom heap2 = hdom (hset st.heap base { s with refcnt := s.refcnt - 1 }) :=
            hdom2
          rw [hdom3, hd2, hdom_hset]
          exact hperm.trans hpermlist
        · intro b hb
          rcases List.mem_cons.mp hb with hb1 | hb1
          · subst hb1
            refine ⟨_, hget3b, ?_⟩
            show s.refcnt - 1 = 0
            exact h0
          · obtain ⟨s0, hs0, hr0⟩ := holc b hb1
            have hbne : b ≠ base := fun hc' => hnotc (hc' ▸ hb1)
            obtain ⟨s1', h1', hr1'⟩ := hchase b s0 hbne hs0
            refine ⟨s1', h1', ?_⟩
            rw [hr1', hr0]
        · intro b hb
          have hbP : b ∈ l1 ++ base :: l2 := by
            rcases List.mem_append.mp hb with h | h
            · exact List.mem_append_left _ h
            · exact List.mem_append_right _ (List.mem_cons_of_mem base h)
          have hb1 : b ≠ base := by
            rcases List.mem_append.mp hb with h | h
            · exact fun hc' => hbase_not_l1 (hc' ▸ h)
            · exact fun hc' => hbase_not_l2 (hc' ▸ h)
          obtain ⟨s0, hs0, hx1, hx2⟩ := holp b hbP
          obtain ⟨s1', h1', hr1'⟩ := hchase b s0 hb1 hs0
          refine ⟨s1', h1', ?_, ?_⟩
          · rw [hr1']
            exact hx1
          · rw [hr1']
            exact hx2
        · intro b hb
          have hbaseP : base ∈ lc ++ (l1 ++ base :: l2) :=
            List.mem_append_right lc (List.mem_append_right l1 (List.mem_cons_self base l2))
          have hb1 : b ≠ base := fun hc' => (hdisj_le hbaseP) (hc' ▸ hb)
          obtain ⟨s0, hs0, hx1, hx2⟩ := hole b hb
          obtain ⟨s1', h1', hr1'⟩ := hchase b s0 hb1 hs0
          refine ⟨s1', h1', ?_, ?_⟩
          · rw [hr1']
            exact hx1
          · rw [hr1']
            exact hx2
        · intro b hb
          have hd2 : hdom heap2 = hdom (hset st.heap base { s with refcnt := s.refcnt - 1 }) :=
            hdom2
          rw [hdom3, hd2, hdom_hset] at hb
          exact hgood b hb
        · show st.nacq = st.nrel + heap3.length
          have hl2 : heap2.length = (hset st.heap base { s with refcnt := s.refcnt - 1 }).length :=
            hlen2
          rw [hlen3, hl2, length_hset]
          exact hcnt
      · show heap3.length = st.heap.length
        have hl2 : heap2.length = (hset st.heap base { s with refcnt := s.refcnt - 1 }).length :=
          hlen2
        rw [hlen3, hl2, length_hset]
    · -- the slab sits on the full list
      obtain ⟨l1, l2, hle⟩ := List.append_of_mem hmemE
      subst hle
      have hndc2 : lc.Nodup := (List.nodup_append.mp (List.nodup_append.mp hnd).1).1
      have hndplist : (l1 ++ base :: l2).Nodup := (List.nodup_append.mp hnd).2.1
      have hbase_not_l1 : base ∉ l1 := by
        have h2 := List.nodup_append.mp hndplist
        exact fun hc' => h2.2.2 hc' (List.mem_cons_self base l2)
      have hbase_not_l2 : base ∉ l2 := by
        have h2 := List.nodup_append.mp hndplist
        have h3 := h2.2.1
        rw [List.nodup_cons] at h3
        exact h3.1
      obtain ⟨heap2, heq2, hchE2, hchC2, hchP2, hgx2, hpres2, hframe2, hdom2, hlen2⟩ :=
        remove_spec_full { st with heap := hset st.heap base { s with refcnt := s.refcnt - 1 } }
          lc lp l1 l2 base { s with refcnt := s.refcnt - 1 } hs1 hcC1 hcP1 hcE1 hnd
      have hgx2' : hget heap2 base = some ⟨none, none, s.refcnt - 1⟩ := hgx2
      obtain ⟨heap3, heqp, hchC3, hget3b, hframe3, hpres3, hdom3, hlen3⟩ :=
        push_front_raw_spec heap2 st.cache.complete_slab base ⟨none, none, s.refcnt - 1⟩ lc
          hgx2' hchC2 hnotc hndc2
      have hpermlist : List.Perm (lc ++ lp ++ (l1 ++ base :: l2))
          ((base :: lc) ++ lp ++ (l1 ++ l2)) :=
        (perm_pull_middle_right lc lp l1 l2 base).trans (perm_cons_front lc lp (l1 ++ l2) base)
      have hdisj_E := (List.nodup_append.mp hnd).2.2
      have hdisj_clp := (List.nodup_append.mp (List.nodup_append.mp hnd).1).2.2
      have hbaseE : base ∈ l1 ++ base :: l2 :=
        List.mem_append_right l1 (List.mem_cons_self base l2)
      refine ⟨{ cache := { st.cache with empty_slab := (l1 ++ l2).head?, complete_slab := some base }
                heap := heap3
                nacq := st.nacq
                nrel := st.nrel }, ?_, ?_, rfl, rfl, rfl, rfl, rfl, ?_⟩
      · unfold cache_free
        rw [hmask]
        simp only [Option.bind_eq_bind']
        rw [hw]
        simp only [Option.some_bind']
        rw [hs1]
        simp only [Option.some_bind']
        rw [if_pos (by simpa using h0)]
        rw [heq2]
        simp only [Option.some_bind']
        unfold insert_in_complete_list
        rw [show push_front_raw heap2 st.cache.complete_slab base = some heap3 from heqp]
        simp only [Option.bind_eq_bind', Option.some_bind']
        rfl
      · have hchase : ∀ (b : Nat) (s0 : slabStruct), b ≠ base → hget st.heap b = some s0 →
            ∃ s1', hget heap3 b = some s1' ∧ s1'.refcnt = s0.refcnt := by
          intro b s0 hbne h0get
          have h1 : hget (hset st.heap base { s with refcnt := s.refcnt - 1 }) b = some s0 := by
            rw [hget_hset_ne _ base b _ hbne]
            exact h0get
          obtain ⟨s2', h2', hr2'⟩ := hpres2 b s0 h1
          obtain ⟨s3', h3', hr3'⟩ := hpres3 b s2' h2'
          refine ⟨s3', h3', ?_⟩
          rw [hr3', hr2']
        refine ⟨base :: lc, lp, l1 ++ l2, ?_, ?_, ?_, ?_, ?_, ⟨?_, ?_, ?_⟩, ?_, hgeom, ?_⟩
        · show isChain heap3 none (some base) (base :: lc)
          exact hchC3
        · show isChain heap3 none st.cache.partially_slab lp
          refine isChain_frame_eq ?_ hchP2
          intro b hb
          have hb1 : b ≠ base := fun hc' =>
            (hdisj_E (List.mem_append_right lc hb)) (hc' ▸ hbaseE)
          have hb2 : b ∉ lc := fun hbc => hdisj_clp hbc hb
          exact hframe3 b hb1 hb2
        · show isChain heap3 none ((l1 ++ l2).head?) (l1 ++ l2)
          refine isChain_frame_eq ?_ hchE2
          intro b hb
          have hbP : b ∈ l1 ++ base :: l2 := by
            rcases List.mem_append.mp hb with h | h
            · exact List.mem_append_left _ h
            · exact List.mem_append_right _ (List.mem_cons_of_mem base h)
          have hb1 : b ≠ base := by
            rcases List.mem_append.mp hb with h | h
            · exact fun hc' => hbase_not_l1 (hc' ▸ h)
            · exact fun hc' => hbase_not_l2 (hc' ▸ h)
          have hb2 : b ∉ lc := fun hbc => (hdisj_E (List.mem_append_left lp hbc)) hbP
          exact hframe3 b hb1 hb2
        · exact hpermlist.nodup hnd
        · show (hdom heap3).Perm _
          have hd2 : hdom heap2 = hdom (hset st.heap base { s with refcnt := s.refcnt - 1 }) :=
            hdom2
          rw [hdom3, hd2, hdom_hset]
          exact hperm.trans hpermlist
        · intro b hb
          rcases List.mem_cons.mp hb with hb1 | hb1
          · subst hb1
            refine ⟨_, hget3b, ?_⟩
            show s.refcnt - 1 = 0
            exact h0
          · obtain ⟨s0, hs0, hr0⟩ := holc b hb1
            have hbne : b ≠ base := fun hc' => hnotc (hc' ▸ hb1)
            obtain ⟨s1', h1', hr1'⟩ := hchase b s0 hbne hs0
            refine ⟨s1', h1', ?_⟩
            rw [hr1', hr0]
        · intro b hb
          have hb1 : b ≠ base := fun hc' =>
            (hdisj_E (List.mem_append_right lc hb)) (hc' ▸ hbaseE)
          obtain ⟨s0, hs0, hx1, hx2⟩ := holp b hb
          obtain ⟨s1', h1', hr1'⟩ := hchase b s0 hb1 hs0
          refine ⟨s1', h1', ?_, ?_⟩
          · rw [hr1']
            exact hx1
          · rw [hr1']
            exact hx2
        · intro b hb
          have hbP : b ∈ l1 ++ base :: l2 := by
            rcases List.mem_append.mp hb with h | h
            · exact List.mem_append_left _ h
            · exact List.mem_append_right _ (List.mem_cons_of_mem base h)
          have hb1 : b ≠ base := by
            rcases List.mem_append.mp hb with h | h
            · exact fun hc' => hbase_not_l1 (hc' ▸ h)
            · exact fun hc' => hbase_not_l2 (hc' ▸ h)
          obtain ⟨s0, hs0, hx1, hx2⟩ := hole b hbP
          obtain ⟨s1', h1', hr1'⟩ := hchase b s0 hb1 hs0
          refine ⟨s1', h1', ?_, ?_⟩
          · rw [hr1']
            exact hx1
          · rw [hr1']
            exact hx2
        · intro b hb
          have hd2 : hdom heap2 = hdom (hset st.heap base { s with refcnt := s.refcnt - 1 }) :=
            hdom2
          rw [hdom3, hd2, hdom_hset] at hb
          exact hgood b hb
        · show st.nacq = st.nrel + heap3.length
          have hl2 : heap2.length = (hset st.heap base { s with refcnt := s.refcnt - 1 }).length :=
            hlen2
          rw [hlen3, hl2, length_hset]
          exact hcnt
      · show heap3.length = st.heap.length
        have hl2 : heap2.length = (hset st.heap base { s with refcnt := s.refcnt - 1 }).length :=
          hlen2
        rw [hlen3, hl2, length_hset]
  · -- the slab keeps a nonzero count: no migration
    refine ⟨{ st with heap := hset st.heap base { s with refcnt := s.refcnt - 1 } }, ?_, ?_,
      rfl, rfl, rfl, rfl, rfl, length_hset st.heap base _⟩
    · unfold cache_free
      rw [hmask]
      simp only [Option.bind_eq_bind']
      rw [hw]
      simp only [Option.some_bind']
      rw [hs1]
      simp only [Option.some_bind']
      rw [if_neg (by simpa using h0)]
      rfl
    · refine ⟨lc, lp, le, hcC1, hcP1, hcE1, hnd, ?_, ⟨?_, ?_, ?_⟩, ?_, hgeom, ?_⟩
      · rw [hdom_hset]
        exact hperm
      · intro b hb
        obtain ⟨s0, hs0, hrc0⟩ := holc b hb
        have hbne : b ≠ base := fun hc' => hnotc (hc' ▸ hb)
        refine ⟨s0, ?_, hrc0⟩
        rw [hget_hset_ne _ base b _ hbne]
        exact hs0
      · intro b hb
        by_cases hbb : b = base
        · subst hbb
          obtain ⟨s0, hs0, hh1, hh2⟩ := holp b hb
          rw [hs0] at hs
          have heq0 := Option.some_inj.mp hs
          rw [heq0] at hh1 hh2
          refine ⟨{ s with refcnt := s.refcnt - 1 }, hs1, ?_, ?_⟩
          · show 1 ≤ s.refcnt - 1
            omega
          · show s.refcnt - 1 < st.cache.slab_objects
            omega
        · obtain ⟨s0, hs0, hh1, hh2⟩ := holp b hb
          refine ⟨s0, ?_, hh1, hh2⟩
          rw [hget_hset_ne _ base b _ hbb]
          exact hs0
      · intro b hb
        by_cases hbb : b = base
        · subst hbb
          obtain ⟨s0, hs0, hh1, hh2⟩ := hole b hb
          rw [hs0] at hs
          have heq0 := Option.some_inj.mp hs
          rw [heq0] at hh1 hh2
          refine ⟨{ s with refcnt := s.refcnt - 1 }, hs1, ?_, ?_⟩
          · show 1 ≤ s.refcnt - 1
            omega
          · show s.refcnt - 1 ≤ st.cache.slab_objects
            omega
        · obtain ⟨s0, hs0, hh1, hh2⟩ := hole b hb
          refine ⟨s0, ?_, hh1, hh2⟩
          rw [hget_hset_ne _ base b _ hbb]
          exact hs0
      · intro b hb
        rw [hdom_hset] at hb
        exact hgood b hb
      · rw [length_hset]
        exact hcnt

/-! ### `cache_alloc` preserves well-formedness -/

theorem cache_alloc_preserves_WF (st : State) (page : Option Nat) (lc lp le : List Nat)
    (hInv : InvWith st lc lp le)
    (hpage : ∀ b, page = some b → b ∉ hdom st.heap ∧ goodBase st.cache b) :
    ∀ r st', cache_alloc st page = some (r, st') → WF st' := by
  obtain ⟨hcC, hcP, hcE, hnd, hperm, ⟨holc, holp, hole⟩, hgood, hgeom, hcnt⟩ := hInv
  cases lp with
  | cons cur lp' =>
    -- branch 1: allocate from the head of the partial list
    have hcPfull := hcP
    rw [isChain_cons_iff] at hcP
    obtain ⟨hheadP, scur, hscur, hscurp, hcP'⟩ := hcP
    obtain ⟨s0, hs0, hr1, hrmax⟩ := holp cur (List.mem_cons_self cur lp')
    rw [hs0] at hscur
    have heq0 := Option.some_inj.mp hscur
    subst heq0
    obtain ⟨s0p, s0n, s0r⟩ := s0
    simp only at hr1 hrmax hscurp
    subst hscurp
    have hmax32 : st.cache.slab_objects < 2 ^ 32 := hgeom.2.2.1
    have hinc : (s0r + 1) % 2 ^ 32 = s0r + 1 := inc32_eq _ (by omega)
    have hw1 : hwrite st.heap cur (fun x => { x with refcnt := (x.refcnt + 1) % 2 ^ 32 }) =
        some (hset st.heap cur ⟨none, s0n, s0r + 1⟩) := by
      rw [hwrite_eq _ hs0]
      simp only [hinc]
    have hs1 : hget (hset st.heap cur ⟨none, s0n, s0r + 1⟩) cur =
        some ⟨none, s0n, s0r + 1⟩ :=
      hget_hset_self st.heap cur _ (hget_mem_dom hs0)
    have hlink1 : ∀ (a : Nat) (sa : slabStruct), hget st.heap a = some sa →
        ∃ s2, hget (hset st.heap cur ⟨none, s0n, s0r + 1⟩) a = some s2 ∧
          s2.previous = sa.previous ∧ s2.next = sa.next := by
      intro a sa h0
      by_cases hab : a = cur
      · subst hab
        rw [h0] at hs0
        have heq1 := Option.some_inj.mp hs0
        subst heq1
        exact ⟨⟨none, s0n, s0r + 1⟩, hget_hset_self st.heap a _ (hget_mem_dom h0),
          rfl, rfl⟩
      · refine ⟨sa, ?_, rfl, rfl⟩
        rw [hget_hset_ne _ cur a _ hab]
        exact h0
    have hcC1 := isChain_frame (fun a _ => hlink1 a) hcC
    have hcP1 := isChain_frame (fun a _ => hlink1 a) hcPfull
    have hcE1 := isChain_frame (fun a _ => hlink1 a) hcE
    by_cases hfull : s0r + 1 = st.cache.slab_objects
    · -- the slab becomes full: move it from the partial to the full list
      have hndlc : lc.Nodup := (List.nodup_append.mp (List.nodup_append.mp hnd).1).1
      have hndlp : (cur :: lp').Nodup := (List.nodup_append.mp (List.nodup_append.mp hnd).1).2.1
      have hnde : le.Nodup := (List.nodup_append.mp hnd).2.1
      have hdisj_cp := (List.nodup_append.mp (List.nodup_append.mp hnd).1).2.2
      have hdisj_e := (List.nodup_append.mp hnd).2.2
      have hcur_not_le : cur ∉ le :=
        fun hc' => hdisj_e (List.mem_append_right lc (List.mem_cons_self cur lp')) hc'
      have hcur_not_lc : cur ∉ lc :=
        fun hc' => hdisj_cp hc' (List.mem_cons_self cur lp')
      cases lp' with
      | nil =>
        rw [isChain_nil_iff] at hcP'
        simp only at hcP'
        subst hcP'
        obtain ⟨heap4, heqp, hchE4, hget4cur, hframe4, hpres4, hdom4, hlen4⟩ :=
          push_front_raw_spec (hset st.heap cur ⟨none, none, s0r + 1⟩)
            st.cache.empty_slab cur ⟨none, none, s0r + 1⟩ le hs1 hcE1
            hcur_not_le hnde
        have hrun : cache_alloc st page = some
            ((cur + sizeofSlabStruct + st.cache.object_size * s0r) % 2 ^ 64,
              { cache := { st.cache with partially_slab := none, empty_slab := some cur }
                heap := heap4
                nacq := st.nacq
                nrel := st.nrel }) := by
          unfold cache_alloc
          rw [hheadP]
          simp only [Option.bind_eq_bind', Option.some_bind']
          rw [hs0]
          simp only [Option.some_bind']
          rw [hw1]
          simp only [Option.some_bind']
          rw [hs1]
          simp only [Option.some_bind']
          rw [if_pos (by simpa using hfull)]
          unfold insert_in_empty_list
          simp only [Option.pure_def, Option.bind_eq_bind', Option.some_bind']
          rw [show push_front_raw (hset st.heap cur ⟨none, none, s0r + 1⟩)
            st.cache.empty_slab cur = some heap4 from heqp]
          rfl
        intro r st' heq
        rw [hrun] at heq
        have h2 := Option.some_inj.mp heq
        have h3 : st' =
            { cache := { st.cache with partially_slab := none, empty_slab := some cur }
              heap := heap4
              nacq := st.nacq
              nrel := st.nrel } := (congrArg Prod.snd h2).symm
        rw [h3]
        have hlisteq : lc ++ [cur] ++ le = lc ++ [] ++ (cur :: le) := by simp
        refine ⟨lc, [], cur :: le, ?_, ?_, ?_, ?_, ?_, ⟨?_, ?_, ?_⟩, ?_, hgeom, ?_⟩
        · show isChain heap4 none st.cache.complete_slab lc
          refine isChain_frame_eq ?_ hcC1
          intro b hb
          exact hframe4 b (fun hc' => hcur_not_lc (hc' ▸ hb))
            (fun hc' => hdisj_e (List.mem_append_left _ hb) hc')
        · exact isChain_nil_iff.mpr rfl
        · show isChain heap4 none (some cur) (cur :: le)
          exact hchE4
        · rw [← hlisteq]
          exact hnd
        · show (hdom heap4).Perm _
          rw [hdom4, hdom_hset]
          rw [← hlisteq]
          exact hperm
        · intro b hb
          obtain ⟨sb, hsb, hrb⟩ := holc b hb
          have hb1 : b ≠ cur := fun hc' => hcur_not_lc (hc' ▸ hb)
          have hb2 : b ∉ le := fun hc' => hdisj_e (List.mem_append_left _ hb) hc'
          refine ⟨sb, ?_, hrb⟩
          rw [hframe4 b hb1 hb2, hget_hset_ne _ cur b _ hb1]
          exact hsb
        · intro b hb
          exact absurd hb (List.not_mem_nil b)
        · intro b hb
          rcases List.mem_cons.mp hb with hb1 | hb1
          · subst hb1
            refine ⟨_, hget4cur, ?_, ?_⟩
            · show 1 ≤ s0r + 1
              omega
            · show s0r + 1 ≤ st.cache.slab_objects
              omega
          · obtain ⟨sb, hsb, hx1, hx2⟩ := hole b hb1
            have hb1' : b ≠ cur := fun hc' => hcur_not_le (hc' ▸ hb1)
            have hsb1 : hget (hset st.heap cur ⟨none, none, s0r + 1⟩) b =
                some sb := by
              rw [hget_hset_ne _ cur b _ hb1']
              exact hsb
            obtain ⟨sb', hsb', hr'⟩ := hpres4 b sb hsb1
            refine ⟨sb', hsb', ?_, ?_⟩
            · rw [hr']
              exact hx1
            · rw [hr']
              exact hx2
        · intro b hb
          rw [hdom4, hdom_hset] at hb
          exact hgood b hb
        · show st.nacq = st.nrel + heap4.length
          rw [hlen4, length_hset]
          exact hcnt
      | cons nxt rest =>
        rw [isChain_cons_iff] at hcP'
        obtain ⟨hs0next, sn, hsn, hsnp, hcPrest⟩ := hcP'
        simp only at hs0next
        subst hs0next
        have hnxt_mem : nxt ∈ cur :: nxt :: rest := List.mem_cons_of_mem cur (List.mem_cons_self nxt rest)
        have hnxt_ne_cur : nxt ≠ cur := by
          rw [List.nodup_cons] at hndlp
          exact fun hc' => hndlp.1 (hc' ▸ List.mem_cons_self nxt rest)
        have hcur_ne_nxt : cur ≠ nxt := fun hc' => hnxt_ne_cur hc'.symm
        have hnxt_not_le : nxt ∉ le :=
          fun hc' => hdisj_e (List.mem_append_right lc hnxt_mem) hc'
        have hnxt_not_rest : nxt ∉ rest := by
          rw [List.nodup_cons, List.nodup_cons] at hndlp
          exact hndlp.2.1
        have hg1nxt : hget (hset st.heap cur ⟨none, some nxt, s0r + 1⟩) nxt =
            some sn := by
          rw [hget_hset_ne _ cur nxt _ hnxt_ne_cur]
          exact hsn
        have hw2 : hwrite (hset st.heap cur ⟨none, some nxt, s0r + 1⟩) nxt
            (fun x => { x with previous := none }) = some
            (hset (hset st.heap cur ⟨none, some nxt, s0r + 1⟩) nxt
              { sn with previous := none }) := hwrite_eq _ hg1nxt
        have hg2cur : hget (hset (hset st.heap cur ⟨none, some nxt, s0r + 1⟩) nxt
            { sn with previous := none }) cur = some ⟨none, some nxt, s0r + 1⟩ := by
          rw [hget_hset_ne _ nxt cur _ hcur_ne_nxt]
          exact hs1
        have hcE2 : isChain (hset (hset st.heap cur ⟨none, some nxt, s0r + 1⟩) nxt
            { sn with previous := none }) none st.cache.empty_slab le := by
          refine isChain_frame_eq ?_ hcE1
          intro b hb
          exact hget_hset_ne _ nxt b _ (fun hc' => hnxt_not_le (hc' ▸ hb))
        obtain ⟨heap4, heqp, hchE4, hget4cur, hframe4, hpres4, hdom4, hlen4⟩ :=
          push_front_raw_spec (hset (hset st.heap cur ⟨none, some nxt, s0r + 1⟩) nxt
              { sn with previous := none })
            st.cache.empty_slab cur ⟨none, some nxt, s0r + 1⟩ le hg2cur hcE2
            hcur_not_le hnde
        have hrun : cache_alloc st page = some
            ((cur + sizeofSlabStruct + st.cache.object_size * s0r) % 2 ^ 64,
              { cache := { st.cache with partially_slab := some nxt, empty_slab := some cur }
                heap := heap4
                nacq := st.nacq
                nrel := st.nrel }) := by
          unfold cache_alloc
          rw [hheadP]
          simp only [Option.bind_eq_bind', Option.some_bind']
          rw [hs0]
          simp only [Option.some_bind']
          rw [hw1]
          simp only [Option.some_bind']
          rw [hs1]
          simp only [Option.some_bind']
          rw [if_pos (by simpa using hfull)]
          simp only [Option.pure_def, Option.bind_eq_bind', Option.some_bind']
          rw [hw2]
          simp only [Option.some_bind']
          unfold insert_in_empty_list
          simp only [Option.pure_def, Option.bind_eq_bind', Option.some_bind']
          rw [show push_front_raw (hset (hset st.heap cur ⟨none, some nxt, s0r + 1⟩)
              nxt { sn with previous := none }) st.cache.empty_slab cur = some heap4 from heqp]
          rfl
        intro r st' heq
        rw [hrun] at heq
        have h2 := Option.some_inj.mp heq
        have h3 : st' =
            { cache := { st.cache with partially_slab := some nxt, empty_slab := some cur }
              heap := heap4
              nacq := st.nacq
              nrel := st.nrel } := (congrArg Prod.snd h2).symm
        rw [h3]
        have hpermlist : List.Perm (lc ++ (cur :: nxt :: rest) ++ le)
            (lc ++ (nxt :: rest) ++ (cur :: le)) := by
          have h1 := perm_pull_middle lc [] (nxt :: rest) le cur
          simp only [List.nil_append] at h1
          have h2' := perm_pull_middle_right lc (nxt :: rest) [] le cur
          simp only [List.nil_append] at h2'
          exact h1.trans h2'.symm
        have hframe_all : ∀ b, b ≠ cur → b ≠ nxt → b ∉ le → hget heap4 b = hget st.heap b := by
          intro b hb1 hb2 hb3
          rw [hframe4 b hb1 hb3, hget_hset_ne _ nxt b _ hb2, hget_hset_ne _ cur b _ hb1]
        refine ⟨lc, nxt :: rest, cur :: le, ?_, ?_, ?_, ?_, ?_, ⟨?_, ?_, ?_⟩, ?_, hgeom, ?_⟩
        · show isChain heap4 none st.cache.complete_slab lc
          refine isChain_frame_eq ?_ hcC
          intro b hb
          have hb1 : b ≠ cur := fun hc' => hcur_not_lc (hc' ▸ hb)
          have hb2 : b ≠ nxt := fun hc' => hdisj_cp (hc' ▸ hb) hnxt_mem
          have hb3 : b ∉ le := fun hc' => hdisj_e (List.mem_append_left _ hb) hc'
          exact hframe_all b hb1 hb2 hb3
        · show isChain heap4 none (some nxt) (nxt :: rest)
          rw [isChain_cons_iff]
          have hg4nxt : hget heap4 nxt = some { sn with previous := none } := by
            rw [hframe4 nxt hnxt_ne_cur hnxt_not_le]
            exact hget_hset_self _ nxt _ (hget_mem_dom hg1nxt)
          refine ⟨rfl, { sn with previous := none }, hg4nxt, rfl, ?_⟩
          show isChain heap4 (some nxt) sn.next rest
          refine isChain_frame_eq ?_ hcPrest
          intro b hb
          have hb1 : b ≠ cur := by
            rw [List.nodup_cons] at hndlp
            exact fun hc' => hndlp.1 (hc' ▸ List.mem_cons_of_mem nxt hb)
          have hb2 : b ≠ nxt := fun hc' => hnxt_not_rest (hc' ▸ hb)
          have hb3 : b ∉ le := fun hc' =>
            hdisj_e (List.mem_append_right lc (List.mem_cons_of_mem cur (List.mem_cons_of_mem nxt hb))) hc'
          exact hframe_all b hb1 hb2 hb3
        · show isChain heap4 none (some cur) (cur :: le)
          exact hchE4
        · exact hpermlist.nodup hnd
        · show (hdom heap4).Perm _
          rw [hdom4, hdom_hset, hdom_hset]
          exact hperm.trans hpermlist
        · intro b hb
          obtain ⟨sb, hsb, hrb⟩ := holc b hb
          have hb1 : b ≠ cur := fun hc' => hcur_not_lc (hc' ▸ hb)
          have hb2 : b ≠ nxt := fun hc' => hdisj_cp (hc' ▸ hb) hnxt_mem
          have hb3 : b ∉ le := fun hc' => hdisj_e (List.mem_append_left _ hb) hc'
          refine ⟨sb, ?_, hrb⟩
          rw [hframe_all b hb1 hb2 hb3]
          exact hsb
        · intro b hb
          rcases List.mem_cons.mp hb with hb1 | hb1
          · subst hb1
            have hg4nxt : hget heap4 b = some { sn with previous := none } := by
              rw [hframe4 b hnxt_ne_cur hnxt_not_le]
              exact hget_hset_self _ b _ (hget_mem_dom hg1nxt)
            obtain ⟨sb, hsb, hx1, hx2⟩ := holp b hnxt_mem
            rw [hsb] at hsn
            have heqn := Option.some_inj.mp hsn
            rw [heqn] at hx1 hx2
            refine ⟨{ sn with previous := none }, hg4nxt, ?_, ?_⟩
            · show 1 ≤ sn.refcnt
              exact hx1
            · show sn.refcnt < st.cache.slab_objects
              exact hx2
          · obtain ⟨sb, hsb, hx1, hx2⟩ := holp b (List.mem_cons_of_mem cur (List.mem_cons_of_mem nxt hb1))
            have hb1' : b ≠ cur := by
              rw [List.nodup_cons] at hndlp
              exact fun hc' => hndlp.1 (hc' ▸ List.mem_cons_of_mem nxt hb1)
            have hb2' : b ≠ nxt := fun hc' => hnxt_not_rest (hc' ▸ hb1)
            have hb3' : b ∉ le := fun hc' =>
              hdisj_e (List.mem_append_right lc (List.mem_cons_of_mem cur (List.mem_cons_of_mem nxt hb1))) hc'
            refine ⟨sb, ?_, hx1, hx2⟩
            rw [hframe_all b hb1' hb2' hb3']
            exact hsb
        · intro b hb
          rcases List.mem_cons.mp hb with hb1 | hb1
          · subst hb1
            refine ⟨_, hget4cur, ?_, ?_⟩
            · show 1 ≤ s0r + 1
              omega
            · show s0r + 1 ≤ st.cache.slab_objects
              omega
          · obtain ⟨sb, hsb, hx1, hx2⟩ := hole b hb1
            have hb1' : b ≠ cur := fun hc' => hcur_not_le (hc' ▸ hb1)
            have hb2' : b ≠ nxt := fun hc' => hnxt_not_le (hc' ▸ hb1)
            have hsb2 : hget (hset (hset st.heap cur ⟨none, some nxt, s0r + 1⟩) nxt
                { sn with previous := none }) b = some sb := by
              rw [hget_hset_ne _ nxt b _ hb2', hget_hset_ne _ cur b _ hb1']
              exact hsb
            obtain ⟨sb', hsb', hr'⟩ := hpres4 b sb hsb2
            refine ⟨sb', hsb', ?_, ?_⟩
            · rw [hr']
              exact hx1
            · rw [hr']
              exact hx2
        · intro b hb
          rw [hdom4, hdom_hset, hdom_hset] at hb
          exact hgood b hb
        · show st.nacq = st.nrel + heap4.length
          rw [hlen4, length_hset, length_hset]
          exact hcnt
    · -- the slab is not yet full: no migration
      have hrun : cache_alloc st page = some
          ((cur + sizeofSlabStruct + st.cache.object_size * s0r) % 2 ^ 64,
            { st with heap := hset st.heap cur ⟨none, s0n, s0r + 1⟩ }) := by
        unfold cache_alloc
        rw [hheadP]
        simp only [Option.bind_eq_bind', Option.some_bind']
        rw [hs0]
        simp only [Option.some_bind']
        rw [hw1]
        simp only [Option.some_bind']
        rw [hs1]
        simp only [Option.some_bind']
        rw [if_neg (by simpa using hfull)]
        rfl
      intro r st' heq
      rw [hrun] at heq
      have h2 := Option.some_inj.mp heq
      have h3 : st' = { st with heap := hset st.heap cur ⟨none, s0n, s0r + 1⟩ } :=
        (congrArg Prod.snd h2).symm
      rw [h3]
      refine ⟨lc, cur :: lp', le, hcC1, hcP1, hcE1, hnd, ?_, ⟨?_, ?_, ?_⟩, ?_, hgeom, ?_⟩
      · rw [hdom_hset]
        exact hperm
      · intro b hb
        obtain ⟨sb, hsb, hrb⟩ := holc b hb
        have hbne : b ≠ cur := by
          intro hc'
          have hdisj := (List.nodup_append.mp (List.nodup_append.mp hnd).1).2.2
          exact hdisj hb (hc' ▸ List.mem_cons_self cur lp')
        refine ⟨sb, ?_, hrb⟩
        rw [hget_hset_ne _ cur b _ hbne]
        exact hsb
      · intro b hb
        by_cases hbc : b = cur
        · subst hbc
          refine ⟨⟨none, s0n, s0r + 1⟩, hs1, ?_, ?_⟩
          · show 1 ≤ s0r + 1
            omega
          · show s0r + 1 < st.cache.slab_objects
            omega
        · obtain ⟨sb, hsb, hx1, hx2⟩ := holp b hb
          refine ⟨sb, ?_, hx1, hx2⟩
          rw [hget_hset_ne _ cur b _ hbc]
          exact hsb
      · intro b hb
        obtain ⟨sb, hsb, hx1, hx2⟩ := hole b hb
        have hbne : b ≠ cur := by
          intro hc'
          have hdisj := (List.nodup_append.mp hnd).2.2
          exact hdisj (List.mem_append_right lc (hc' ▸ List.mem_cons_self cur lp')) hb
        refine ⟨sb, ?_, hx1, hx2⟩
        rw [hget_hset_ne _ cur b _ hbne]
        exact hsb
      · intro b hb
        rw [hdom_hset] at hb
        exact hgood b hb
      · rw [length_hset]
        exact hcnt
  | nil =>
    -- the partial list is empty
    have hheadP : st.cache.partially_slab = none := isChain_nil_iff.mp hcP
    cases lc with
    | cons cur lc' =>
      -- branch 2: allocate from the head of the complete list
      rw [isChain_cons_iff] at hcC
      obtain ⟨hheadC, scur, hscur, hscurp, hcC'⟩ := hcC
      obtain ⟨s0, hs0, hr0⟩ := holc cur (List.mem_cons_self cur lc')
      rw [hs0] at hscur
      have heq0 := Option.some_inj.mp hscur
      subst heq0
      obtain ⟨s0p, s0n, s0r⟩ := s0
      simp only at hr0 hscurp
      subst hr0
      subst hscurp
      have hinc : ((0 : Nat) + 1) % 2 ^ 32 = 1 := by norm_num
      have hw1 : hwrite st.heap cur (fun x => { x with refcnt := (x.refcnt + 1) % 2 ^ 32 }) =
          some (hset st.heap cur ⟨none, s0n, 1⟩) := by
        rw [hwrite_eq _ hs0]
        simp only [hinc]
      have hs1 : hget (hset st.heap cur ⟨none, s0n, 1⟩) cur = some ⟨none, s0n, 1⟩ :=
        hget_hset_self st.heap cur _ (hget_mem_dom hs0)
      have hlink1 : ∀ (a : Nat) (sa : slabStruct), hget st.heap a = some sa →
          ∃ s2, hget (hset st.heap cur ⟨none, s0n, 1⟩) a = some s2 ∧
            s2.previous = sa.previous ∧ s2.next = sa.next := by
        intro a sa h0
        by_cases hab : a = cur
        · subst hab
          rw [h0] at hs0
          have heq1 := Option.some_inj.mp hs0
          subst heq1
          exact ⟨⟨none, s0n, 1⟩, hget_hset_self st.heap a _ (hget_mem_dom h0), rfl, rfl⟩
        · refine ⟨sa, ?_, rfl, rfl⟩
          rw [hget_hset_ne _ cur a _ hab]
          exact h0
      have hcE1 := isChain_frame (fun a _ => hlink1 a) hcE
      have hndlc : (cur :: lc').Nodup := (List.nodup_append.mp (List.nodup_append.mp hnd).1).1
      have hnde : le.Nodup := (List.nodup_append.mp hnd).2.1
      have hdisj_e := (List.nodup_append.mp hnd).2.2
      have hcur_not_le : cur ∉ le :=
        fun hc' => hdisj_e (List.mem_append_left _ (List.mem_cons_self cur lc')) hc'
      have hobj1 : 1 ≤ st.cache.slab_objects := hgeom.2.1
      cases lc' with
      | nil =>
        rw [isChain_nil_iff] at hcC'
        simp only at hcC'
        subst hcC'
        by_cases hone : (1 : Nat) = st.cache.slab_objects
        · -- one object per slab: the reused slab goes straight to the full list
          obtain ⟨heap4, heqp, hchE4, hget4cur, hframe4, hpres4, hdom4, hlen4⟩ :=
            push_front_raw_spec (hset st.heap cur ⟨none, none, 1⟩)
              st.cache.empty_slab cur ⟨none, none, 1⟩ le hs1 hcE1 hcur_not_le hnde
          have hrun : cache_alloc st page = some
              ((cur + sizeofSlabStruct) % 2 ^ 64,
                { cache := { st.cache with complete_slab := none, empty_slab := some cur }
                  heap := heap4
                  nacq := st.nacq
                  nrel := st.nrel }) := by
            unfold cache_alloc
            rw [hheadP]
            simp only [Option.bind_eq_bind', Option.some_bind']
            rw [hheadC]
            simp only [Option.bind_eq_bind', Option.some_bind']
            rw [hw1]
            simp only [Option.some_bind']
            rw [hs1]
            simp only [Option.pure_def, Option.bind_eq_bind', Option.some_bind']
            rw [if_pos (by simpa using hone)]
            unfold insert_in_empty_list
            simp only [Option.pure_def, Option.bind_eq_bind', Option.some_bind']
            rw [show push_front_raw (hset st.heap cur ⟨none, none, 1⟩)
              st.cache.empty_slab cur = some heap4 from heqp]
            rfl
          intro r st' heq
          rw [hrun] at heq
          have h2 := Option.some_inj.mp heq
          have h3 : st' =
              { cache := { st.cache with complete_slab := none, empty_slab := some cur }
                heap := heap4
                nacq := st.nacq
                nrel := st.nrel } := (congrArg Prod.snd h2).symm
          rw [h3]
          refine ⟨[], [], cur :: le, ?_, ?_, ?_, ?_, ?_, ⟨?_, ?_, ?_⟩, ?_, hgeom, ?_⟩
          · exact isChain_nil_iff.mpr rfl
          · exact isChain_nil_iff.mpr hheadP
          · exact hchE4
          · simp only [List.nil_append, List.nodup_cons]
            exact ⟨hcur_not_le, hnde⟩
          · show (hdom heap4).Perm _
            rw [hdom4, hdom_hset]
            refine hperm.trans ?_
            simp
          · intro b hb
            exact absurd hb (List.not_mem_nil b)
          · intro b hb
            exact absurd hb (List.not_mem_nil b)
          · intro b hb
            rcases List.mem_cons.mp hb with hb1 | hb1
            · subst hb1
              refine ⟨_, hget4cur, ?_, ?_⟩
              · show (1 : Nat) ≤ 1
                omega
              · show (1 : Nat) ≤ st.cache.slab_objects
                omega
            · obtain ⟨sb, hsb, hx1, hx2⟩ := hole b hb1
              have hb1' : b ≠ cur := fun hc' => hcur_not_le (hc' ▸ hb1)
              have hsb1 : hget (hset st.heap cur ⟨none, none, 1⟩) b = some sb := by
                rw [hget_hset_ne _ cur b _ hb1']
                exact hsb
              obtain ⟨sb', hsb', hr'⟩ := hpres4 b sb hsb1
              refine ⟨sb', hsb', ?_, ?_⟩
              · rw [hr']
                exact hx1
              · rw [hr']
                exact hx2
          · intro b hb
            rw [hdom4, hdom_hset] at hb
            exact hgood b hb
          · show st.nacq = st.nrel + heap4.length
            rw [hlen4, length_hset]
            exact hcnt
        · -- several objects per slab: the reused slab goes to the partial list
          obtain ⟨heap4, heqp, hchP4, hget4cur, hframe4, hpres4, hdom4, hlen4⟩ :=
            push_front_raw_spec (hset st.heap cur ⟨none, none, 1⟩)
              none cur ⟨none, none, 1⟩ [] hs1 (isChain_nil_iff.mpr rfl)
              (List.not_mem_nil cur) List.nodup_nil
          have hrun : cache_alloc st page = some
              ((cur + sizeofSlabStruct) % 2 ^ 64,
                { cache := { st.cache with complete_slab := none, partially_slab := some cur }
                  heap := heap4
                  nacq := st.nacq
                  nrel := st.nrel }) := by
            unfold cache_alloc
            rw [hheadP]
            simp only [Option.bind_eq_bind', Option.some_bind']
            rw [hheadC]
            simp only [Option.bind_eq_bind', Option.some_bind']
            rw [hw1]
            simp only [Option.some_bind']
            rw [hs1]
            simp only [Option.pure_def, Option.bind_eq_bind', Option.some_bind']
            rw [if_neg (by simpa using hone)]
            unfold insert_in_partially_list
            simp only [Option.pure_def, Option.bind_eq_bind', Option.some_bind']
            rw [hheadP]
            rw [show push_front_raw (hset st.heap cur ⟨none, none, 1⟩)
              none cur = some heap4 from heqp]
            rfl
          intro r st' heq
          rw [hrun] at heq
          have h2 := Option.some_inj.mp heq
          have h3 : st' =
              { cache := { st.cache with complete_slab := none, partially_slab := some cur }
                heap := heap4
                nacq := st.nacq
                nrel := st.nrel } := (congrArg Prod.snd h2).symm
          rw [h3]
          refine ⟨[], [cur], le, ?_, ?_, ?_, ?_, ?_, ⟨?_, ?_, ?_⟩, ?_, hgeom, ?_⟩
          · exact isChain_nil_iff.mpr rfl
          · exact hchP4
          · refine isChain_frame_eq ?_ hcE1
            intro b hb
            exact hframe4 b (fun hc' => hcur_not_le (hc' ▸ hb)) (List.not_mem_nil b)
          · simp only [List.nil_append, List.cons_append, List.nodup_cons]
            exact ⟨hcur_not_le, hnde⟩
          · show (hdom heap4).Perm _
            rw [hdom4, hdom_hset]
            refine hperm.trans ?_
            simp
          · intro b hb
            exact absurd hb (List.not_mem_nil b)
          · intro b hb
            rcases List.mem_cons.mp hb with hb1 | hb1
            · subst hb1
              refine ⟨_, hget4cur, ?_, ?_⟩
              · show (1 : Nat) ≤ 1
                omega
              · show (1 : Nat) < st.cache.slab_objects
                omega
            · exact absurd hb1 (List.not_mem_nil b)
          · intro b hb
            obtain ⟨sb, hsb, hx1, hx2⟩ := hole b hb
            have hb1' : b ≠ cur := fun hc' => hcur_not_le (hc' ▸ hb)
            have hsb1 : hget (hset st.heap cur ⟨none, none, 1⟩) b = some sb := by
              rw [hget_hset_ne _ cur b _ hb1']
              exact hsb
            obtain ⟨sb', hsb', hr'⟩ := hpres4 b sb hsb1
            refine ⟨sb', hsb', ?_, ?_⟩
            · rw [hr']
              exact hx1
            · rw [hr']
              exact hx2
          · intro b hb
            rw [hdom4, hdom_hset] at hb
            exact hgood b hb
          · show st.nacq = st.nrel + heap4.length
            rw [hlen4, length_hset]
            exact hcnt
      | cons nxt rest =>
        rw [isChain_cons_iff] at hcC'
        obtain ⟨hs0next, sn, hsn, hsnp, hcCrest⟩ := hcC'
        simp only at hs0next
        subst hs0next
        have hnxt_mem : nxt ∈ cur :: nxt :: rest := List.mem_cons_of_mem cur (List.mem_cons_self nxt rest)
        have hnxt_ne_cur : nxt ≠ cur := by
          rw [List.nodup_cons] at hndlc
          exact fun hc' => hndlc.1 (hc' ▸ List.mem_cons_self nxt rest)
        have hcur_ne_nxt : cur ≠ nxt := fun hc' => hnxt_ne_cur hc'.symm
        have hnxt_not_le : nxt ∉ le :=
          fun hc' => hdisj_e (List.mem_append_left _ hnxt_mem) hc'
        have hnxt_not_rest : nxt ∉ rest := by
          rw [List.nodup_cons, List.nodup_cons] at hndlc
          exact hndlc.2.1
        have hg1nxt : hget (hset st.heap cur ⟨none, some nxt, 1⟩) nxt = some sn := by
          rw [hget_hset_ne _ cur nxt _ hnxt_ne_cur]
          exact hsn
        have hw2 : hwrite (hset st.heap cur ⟨none, some nxt, 1⟩) nxt
            (fun x => { x with previous := none }) = some
            (hset (hset st.heap cur ⟨none, some nxt, 1⟩) nxt
              { sn with previous := none }) := hwrite_eq _ hg1nxt
        have hg2cur : hget (hset (hset st.heap cur ⟨none, some nxt, 1⟩) nxt
            { sn with previous := none }) cur = some ⟨none, some nxt, 1⟩ := by
          rw [hget_hset_ne _ nxt cur _ hcur_ne_nxt]
          exact hs1
        have hcE2 : isChain (hset (hset st.heap cur ⟨none, some nxt, 1⟩) nxt
            { sn with previous := none }) none st.cache.empty_slab le := by
          refine isChain_frame_eq ?_ hcE1
          intro b hb
          exact hget_hset_ne _ nxt b _ (fun hc' => hnxt_not_le (hc' ▸ hb))
        by_cases hone : (1 : Nat) = st.cache.slab_objects
        · -- one object per slab: the reused slab goes straight to the full list
          obtain ⟨heap4, heqp, hchE4, hget4cur, hframe4, hpres4, hdom4, hlen4⟩ :=
            push_front_raw_spec (hset (hset st.heap cur ⟨none, some nxt, 1⟩) nxt
                { sn with previous := none })
              st.cache.empty_slab cur ⟨none, some nxt, 1⟩ le hg2cur hcE2
              hcur_not_le hnde
          have hframe_all : ∀ b, b ≠ cur → b ≠ nxt → b ∉ le → hget heap4 b = hget st.heap b := by
            intro b hb1 hb2 hb3
            rw [hframe4 b hb1 hb3, hget_hset_ne _ nxt b _ hb2, hget_hset_ne _ cur b _ hb1]
          have hrun : cache_alloc st page = some
              ((cur + sizeofSlabStruct) % 2 ^ 64,
                { cache := { st.cache with complete_slab := some nxt, empty_slab := some cur }
                  heap := heap4
                  nacq := st.nacq
                  nrel := st.nrel }) := by
            unfold cache_alloc
            rw [hheadP]
            simp only [Option.bind_eq_bind', Option.some_bind']
            rw [hheadC]
            simp only [Option.bind_eq_bind', Option.some_bind']
            rw [hw1]
            simp only [Option.some_bind']
            rw [hs1]
            simp only [Option.pure_def, Option.bind_eq_bind', Option.some_bind']
            rw [hw2]
            simp only [Option.some_bind']
            rw [if_pos (by simpa using hone)]
            unfold insert_in_empty_list
            simp only [Option.pure_def, Option.bind_eq_bind', Option.some_bind']
            rw [show push_front_raw (hset (hset st.heap cur ⟨none, some nxt, 1⟩)
                nxt { sn with previous := none }) st.cache.empty_slab cur = some heap4 from heqp]
            rfl
          intro r st' heq
          rw [hrun] at heq
          have h2 := Option.some_inj.mp heq
          have h3 : st' =
              { cache := { st.cache with complete_slab := some nxt, empty_slab := some cur }
                heap := heap4
                nacq := st.nacq
                nrel := st.nrel } := (congrArg Prod.snd h2).symm
          rw [h3]
          have hpermlist : List.Perm ((cur :: nxt :: rest) ++ [] ++ le)
              ((nxt :: rest) ++ [] ++ (cur :: le)) :=
            (perm_pull_middle_right (nxt :: rest) [] [] le cur).symm
          refine ⟨nxt :: rest, [], cur :: le, ?_, ?_, ?_, ?_, ?_, ⟨?_, ?_, ?_⟩, ?_, hgeom, ?_⟩
          · show isChain heap4 none (some nxt) (nxt :: rest)
            rw [isChain_cons_iff]
            have hg4nxt : hget heap4 nxt = some { sn with previous := none } := by
              rw [hframe4 nxt hnxt_ne_cur hnxt_not_le]
              exact hget_hset_self _ nxt _ (hget_mem_dom hg1nxt)
            refine ⟨rfl, { sn with previous := none }, hg4nxt, rfl, ?_⟩
            show isChain heap4 (some nxt) sn.next rest
            refine isChain_frame_eq ?_ hcCrest
            intro b hb
            have hb1 : b ≠ cur := by
              rw [List.nodup_cons] at hndlc
              exact fun hc' => hndlc.1 (hc' ▸ List.mem_cons_of_mem nxt hb)
            have hb2 : b ≠ nxt := fun hc' => hnxt_not_rest (hc' ▸ hb)
            have hb3 : b ∉ le := fun hc' =>
              hdisj_e (List.mem_append_left _
                (List.mem_cons_of_mem cur (List.mem_cons_of_mem nxt hb))) hc'
            exact hframe_all b hb1 hb2 hb3
          · exact isChain_nil_iff.mpr hheadP
          · exact hchE4
          · exact hpermlist.nodup hnd
          · show (hdom heap4).Perm _
            rw [hdom4, hdom_hset, hdom_hset]
            exact hperm.trans hpermlist
          · intro b hb
            rcases List.mem_cons.mp hb with hb1 | hb1
            · subst hb1
              have hg4nxt : hget heap4 b = some { sn with previous := none } := by
                rw [hframe4 b hnxt_ne_cur hnxt_not_le]
                exact hget_hset_self _ b _ (hget_mem_dom hg1nxt)
              obtain ⟨sb, hsb, hrb⟩ := holc b hnxt_mem
              rw [hsb] at hsn
              have heqn := Option.some_inj.mp hsn
              rw [heqn] at hrb
              refine ⟨{ sn with previous := none }, hg4nxt, ?_⟩
              show sn.refcnt = 0
              exact hrb
            · obtain ⟨sb, hsb, hrb⟩ := holc b
                (List.mem_cons_of_mem cur (List.mem_cons_of_mem nxt hb1))
              have hb1' : b ≠ cur := by
                rw [List.nodup_cons] at hndlc
                exact fun hc' => hndlc.1 (hc' ▸ List.mem_cons_of_mem nxt hb1)
              have hb2' : b ≠ nxt := fun hc' => hnxt_not_rest (hc' ▸ hb1)
              have hb3' : b ∉ le := fun hc' =>
                hdisj_e (List.mem_append_left _
                  (List.mem_cons_of_mem cur (List.mem_cons_of_mem nxt hb1))) hc'
              refine ⟨sb, ?_, hrb⟩
              rw [hframe_all b hb1' hb2' hb3']
              exact hsb
          · intro b hb
            exact absurd hb (List.not_mem_nil b)
          · intro b hb
            rcases List.mem_cons.mp hb with hb1 | hb1
            · subst hb1
              refine ⟨_, hget4cur, ?_, ?_⟩
              · show (1 : Nat) ≤ 1
                omega
              · show (1 : Nat) ≤ st.cache.slab_objects
                omega
            · obtain ⟨sb, hsb, hx1, hx2⟩ := hole b hb1
              have hb1' : b ≠ cur := fun hc' => hcur_not_le (hc' ▸ hb1)
              have hb2' : b ≠ nxt := fun hc' => hnxt_not_le (hc' ▸ hb1)
              have hsb2 : hget (hset (hset st.heap cur ⟨none, some nxt, 1⟩) nxt
                  { sn with previous := none }) b = some sb := by
                rw [hget_hset_ne _ nxt b _ hb2', hget_hset_ne _ cur b _ hb1']
                exact hsb
              obtain ⟨sb', hsb', hr'⟩ := hpres4 b sb hsb2
              refine ⟨sb', hsb', ?_, ?_⟩
              · rw [hr']
                exact hx1
              · rw [hr']
                exact hx2
          · intro b hb
            rw [hdom4, hdom_hset, hdom_hset] at hb
            exact hgood b hb
          · show st.nacq = st.nrel + heap4.length
            rw [hlen4, length_hset, length_hset]
            exact hcnt
        · -- several objects per slab: the reused slab goes to the partial list
          obtain ⟨heap4, heqp, hchP4, hget4cur, hframe4, hpres4, hdom4, hlen4⟩ :=
            push_front_raw_spec (hset (hset st.heap cur ⟨none, some nxt, 1⟩) nxt
                { sn with previous := none })
              none cur ⟨none, some nxt, 1⟩ [] hg2cur (isChain_nil_iff.mpr rfl)
              (List.not_mem_nil cur) List.nodup_nil
          have hframe_all : ∀ b, b ≠ cur → b ≠ nxt → hget heap4 b = hget st.heap b := by
            intro b hb1 hb2
            rw [hframe4 b hb1 (List.not_mem_nil b), hget_hset_ne _ nxt b _ hb2,
              hget_hset_ne _ cur b _ hb1]
          have hrun : cache_alloc st page = some
              ((cur + sizeofSlabStruct) % 2 ^ 64,
                { cache := { st.cache with complete_slab := some nxt, partially_slab := some cur }
                  heap := heap4
                  nacq := st.nacq
                  nrel := st.nrel }) := by
            unfold cache_alloc
            rw [hheadP]
            simp only [Option.bind_eq_bind', Option.some_bind']
            rw [hheadC]
            simp only [Option.bind_eq_bind', Option.some_bind']
            rw [hw1]
            simp only [Option.some_bind']
            rw [hs1]
            simp only [Option.pure_def, Option.bind_eq_bind', Option.some_bind']
            rw [hw2]
            simp only [Option.some_bind']
            rw [if_neg (by simpa using hone)]
            unfold insert_in_partially_list
            simp only [Option.pure_def, Option.bind_eq_bind', Option.some_bind']
            rw [hheadP]
            rw [show push_front_raw (hset (hset st.heap cur ⟨none, some nxt, 1⟩)
                nxt { sn with previous := none }) none cur = some heap4 from heqp]
            rfl
          intro r st' heq
          rw [hrun] at heq
          have h2 := Option.some_inj.mp heq
          have h3 : st' =
              { cache := { st.cache with complete_slab := some nxt, partially_slab := some cur }
                heap := heap4
                nacq := st.nacq
                nrel := st.nrel } := (congrArg Prod.snd h2).symm
          rw [h3]
          have hpermlist : List.Perm ((cur :: nxt :: rest) ++ [] ++ le)
              ((nxt :: rest) ++ [cur] ++ le) :=
            (perm_pull_middle (nxt :: rest) [] [] le cur).symm
          refine ⟨nxt :: rest, [cur], le, ?_, ?_, ?_, ?_, ?_, ⟨?_, ?_, ?_⟩, ?_, hgeom, ?_⟩
          · show isChain heap4 none (some nxt) (nxt :: rest)
            rw [isChain_cons_iff]
            have hg4nxt : hget heap4 nxt = some { sn with previous := none } := by
              rw [hframe4 nxt hnxt_ne_cur (List.not_mem_nil nxt)]
              exact hget_hset_self _ nxt _ (hget_mem_dom hg1nxt)
            refine ⟨rfl, { sn with previous := none }, hg4nxt, rfl, ?_⟩
            show isChain heap4 (some nxt) sn.next rest
            refine isChain_frame_eq ?_ hcCrest
            intro b hb
            have hb1 : b ≠ cur := by
              rw [List.nodup_cons] at hndlc
              exact fun hc' => hndlc.1 (hc' ▸ List.mem_cons_of_mem nxt hb)
            have hb2 : b ≠ nxt := fun hc' => hnxt_not_rest (hc' ▸ hb)
            exact hframe_all b hb1 hb2
          · exact hchP4
          · refine isChain_frame_eq ?_ hcE2
            intro b hb
            exact hframe4 b (fun hc' => hcur_not_le (hc' ▸ hb)) (List.not_mem_nil b)
          · exact hpermlist.nodup hnd
          · show (hdom heap4).Perm _
            rw [hdom4, hdom_hset, hdom_hset]
            exact hperm.trans hpermlist
          · intro b hb
            rcases List.mem_cons.mp hb with hb1 | hb1
            · subst hb1
              have hg4nxt : hget heap4 b = some { sn with previous := none } := by
                rw [hframe4 b hnxt_ne_cur (List.not_mem_nil b)]
                exact hget_hset_self _ b _ (hget_mem_dom hg1nxt)
              obtain ⟨sb, hsb, hrb⟩ := holc b hnxt_mem
              rw [hsb] at hsn
              have heqn := Option.some_inj.mp hsn
              rw [heqn] at hrb
              refine ⟨{ sn with previous := none }, hg4nxt, ?_⟩
              show sn.refcnt = 0
              exact hrb
            · obtain ⟨sb, hsb, hrb⟩ := holc b
                (List.mem_cons_of_mem cur (List.mem_cons_of_mem nxt hb1))
              have hb1' : b ≠ cur := by
                rw [List.nodup_cons] at hndlc
                exact fun hc' => hndlc.1 (hc' ▸ List.mem_cons_of_mem nxt hb1)
              have hb2' : b ≠ nxt := fun hc' => hnxt_not_rest (hc' ▸ hb1)
              refine ⟨sb, ?_, hrb⟩
              rw [hframe_all b hb1' hb2']
              exact hsb
          · intro b hb
            rcases List.mem_cons.mp hb with hb1 | hb1
            · subst hb1
              refine ⟨_, hget4cur, ?_, ?_⟩
              · show (1 : Nat) ≤ 1
                omega
              · show (1 : Nat) < st.cache.slab_objects
                omega
            · exact absurd hb1 (List.not_mem_nil b)
          · intro b hb
            obtain ⟨sb, hsb, hx1, hx2⟩ := hole b hb
            have hb1' : b ≠ cur := fun hc' => hcur_not_le (hc' ▸ hb)
            have hb2' : b ≠ nxt := fun hc' => hnxt_not_le (hc' ▸ hb)
            refine ⟨sb, ?_, hx1, hx2⟩
            rw [hframe_all b hb1' hb2']
            exact hsb
          · intro b hb
            rw [hdom4, hdom_hset, hdom_hset] at hb
            exact hgood b hb
          · show st.nacq = st.nrel + heap4.length
            rw [hlen4, length_hset, length_hset]
            exact hcnt
    | nil =>
      -- branch 3: both reuse lists are empty; a fresh page backs the slab
      have hheadC : st.cache.complete_slab = none := isChain_nil_iff.mp hcC
      cases page with
      | none =>
        have hnone : cache_alloc st none = none := by
          unfold cache_alloc
          rw [hheadP, hheadC]
        intro r st' heq
        rw [hnone] at heq
        exact absurd heq (by simp)
      | some b =>
        obtain ⟨hbfresh, hbgood⟩ := hpage b rfl
        have hble : b ∉ le := fun hb' => hbfresh (hperm.mem_iff.mpr (by simpa using hb'))
        have hgb1 : hget ((b, (⟨none, none, 1⟩ : slabStruct)) :: st.heap) b =
            some ⟨none, none, 1⟩ := hget_cons_self st.heap b _
        have hcE1 : isChain ((b, (⟨none, none, 1⟩ : slabStruct)) :: st.heap) none
            st.cache.empty_slab le := by
          refine isChain_frame_eq ?_ hcE
          intro a ha
          exact hget_cons_ne st.heap b a _ (fun hc' => hble (hc' ▸ ha))
        have hnde : le.Nodup := (List.nodup_append.mp hnd).2.1
        have hpermle : (hdom st.heap).Perm le := by simpa using hperm
        have hdomcons : hdom ((b, (⟨none, none, 1⟩ : slabStruct)) :: st.heap) =
            b :: hdom st.heap := rfl
        by_cases hone : (1 : Nat) = st.cache.slab_objects
        · -- the fresh one-object slab is immediately full
          obtain ⟨heap4, heqp, hchE4, hget4b, hframe4, hpres4, hdom4, hlen4⟩ :=
            push_front_raw_spec ((b, (⟨none, none, 1⟩ : slabStruct)) :: st.heap)
              st.cache.empty_slab b ⟨none, none, 1⟩ le hgb1 hcE1 hble hnde
          have hrun : cache_alloc st (some b) = some
              ((b + sizeofSlabStruct) % 2 ^ 64,
                { cache := { st.cache with empty_slab := some b }
                  heap := heap4
                  nacq := st.nacq + 1
                  nrel := st.nrel }) := by
            unfold cache_alloc
            rw [hheadP]
            simp only [Option.bind_eq_bind', Option.some_bind']
            rw [hheadC]
            simp only [Option.bind_eq_bind', Option.some_bind']
            rw [if_pos hone]
            unfold insert_in_empty_list
            simp only [Option.pure_def, Option.bind_eq_bind', Option.some_bind']
            rw [show push_front_raw ((b, (⟨none, none, 1⟩ : slabStruct)) :: st.heap)
              st.cache.empty_slab b = some heap4 from heqp]
            simp only [hheadC]
            rfl
          intro r st' heq
          rw [hrun] at heq
          have h2 := Option.some_inj.mp heq
          have h3 : st' =
              { cache := { st.cache with empty_slab := some b }
                heap := heap4
                nacq := st.nacq + 1
                nrel := st.nrel } := (congrArg Prod.snd h2).symm
          rw [h3]
          refine ⟨[], [], b :: le, ?_, ?_, ?_, ?_, ?_, ⟨?_, ?_, ?_⟩, ?_, hgeom, ?_⟩
          · exact isChain_nil_iff.mpr hheadC
          · exact isChain_nil_iff.mpr hheadP
          · exact hchE4
          · simp only [List.nil_append, List.nodup_cons]
            refine ⟨?_, hnde⟩
            exact fun hb' => hbfresh (hperm.mem_iff.mpr (by simpa using hb'))
          · show (hdom heap4).Perm _
            rw [hdom4, hdomcons]
            simp only [List.nil_append]
            exact hpermle.cons b
          · intro a ha
            exact absurd ha (List.not_mem_nil a)
          · intro a ha
            exact absurd ha (List.not_mem_nil a)
          · intro a ha
            rcases List.mem_cons.mp ha with ha1 | ha1
            · subst ha1
              refine ⟨_, hget4b, ?_, ?_⟩
              · show (1 : Nat) ≤ 1
                omega
              · show (1 : Nat) ≤ st.cache.slab_objects
                omega
            · obtain ⟨sa, hsa, hx1, hx2⟩ := hole a ha1
              have ha1' : a ≠ b := fun hc' => hble (hc' ▸ ha1)
              have hsa1 : hget ((b, (⟨none, none, 1⟩ : slabStruct)) :: st.heap) a =
                  some sa := by
                rw [hget_cons_ne st.heap b a _ ha1']
                exact hsa
              obtain ⟨sa', hsa', hr'⟩ := hpres4 a sa hsa1
              refine ⟨sa', hsa', ?_, ?_⟩
              · rw [hr']
                exact hx1
              · rw [hr']
                exact hx2
          · intro a ha
            rw [hdom4, hdomcons] at ha
            rcases List.mem_cons.mp ha with ha1 | ha1
            · subst ha1
              exact hbgood
            · exact hgood a ha1
          · show st.nacq + 1 = st.nrel + heap4.length
            rw [hlen4]
            show st.nacq + 1 = st.nrel + (st.heap.length + 1)
            omega
        · -- the fresh slab holds several objects: it goes to the partial list
          obtain ⟨heap4, heqp, hchP4, hget4b, hframe4, hpres4, hdom4, hlen4⟩ :=
            push_front_raw_spec ((b, (⟨none, none, 1⟩ : slabStruct)) :: st.heap)
              none b ⟨none, none, 1⟩ [] hgb1 (isChain_nil_iff.mpr rfl)
              (List.not_mem_nil b) List.nodup_nil
          have hrun : cache_alloc st (some b) = some
              ((b + sizeofSlabStruct) % 2 ^ 64,
                { cache := { st.cache with partially_slab := some b }
                  heap := heap4
                  nacq := st.nacq + 1
                  nrel := st.nrel }) := by
            unfold cache_alloc
            rw [hheadP]
            simp only [Option.bind_eq_bind', Option.some_bind']
            rw [hheadC]
            simp only [Option.bind_eq_bind', Option.some_bind']
            rw [if_neg hone]
            unfold insert_in_partially_list
            simp only [Option.pure_def, Option.bind_eq_bind', Option.some_bind']
            rw [hheadP]
            rw [show push_front_raw ((b, (⟨none, none, 1⟩ : slabStruct)) :: st.heap)
              none b = some heap4 from heqp]
            simp only [hheadC]
            rfl
          intro r st' heq
          rw [hrun] at heq
          have h2 := Option.some_inj.mp heq
          have h3 : st' =
              { cache := { st.cache with partially_slab := some b }
                heap := heap4
                nacq := st.nacq + 1
                nrel := st.nrel } := (congrArg Prod.snd h2).symm
          rw [h3]
          refine ⟨[], [b], le, ?_, ?_, ?_, ?_, ?_, ⟨?_, ?_, ?_⟩, ?_, hgeom, ?_⟩
          · exact isChain_nil_iff.mpr hheadC
          · exact hchP4
          · refine isChain_frame_eq ?_ hcE1
            intro a ha
            exact hframe4 a (fun hc' => hble (hc' ▸ ha)) (List.not_mem_nil a)
          · simp only [List.nil_append, List.cons_append, List.nodup_cons]
            refine ⟨?_, hnde⟩
            exact fun hb' => hbfresh (hperm.mem_iff.mpr (by simpa using hb'))
          · show (hdom heap4).Perm _
            rw [hdom4, hdomcons]
            simp only [List.nil_append, List.cons_append]
            exact hpermle.cons b
          · intro a ha
            exact absurd ha (List.not_mem_nil a)
          · intro a ha
            rcases List.mem_cons.mp ha with ha1 | ha1
            · subst ha1
              refine ⟨_, hget4b, ?_, ?_⟩
              · show (1 : Nat) ≤ 1
                omega
              · show (1 : Nat) < st.cache.slab_objects
                have hobj1 : 1 ≤ st.cache.slab_objects := hgeom.2.1
                omega
            · exact absurd ha1 (List.not_mem_nil a)
          · intro a ha
            obtain ⟨sa, hsa, hx1, hx2⟩ := hole a ha
            have ha1' : a ≠ b := fun hc' => hble (hc' ▸ ha)
            refine ⟨sa, ?_, hx1, hx2⟩
            rw [hframe4 a ha1' (List.not_mem_nil a), hget_cons_ne st.heap b a _ ha1']
            exact hsa
          · intro a ha
            rw [hdom4, hdomcons] at ha
            rcases List.mem_cons.mp ha with ha1 | ha1
            · subst ha1
              exact hbgood
            · exact hgood a ha1
          · show st.nacq + 1 = st.nrel + heap4.length
            rw [hlen4]
            show st.nacq + 1 = st.nrel + (st.heap.length + 1)
            omega

/-! ### `cache_setup` establishes well-formedness -/

theorem initState_WF (os : Nat) (hos : 0 < os) (hsz : sizeofSlabStruct + os < 2 ^ 64) :
    WF (initState os) := by
  refine ⟨[], [], [], ?_, ?_, ?_, ?_, ?_, ⟨?_, ?_, ?_⟩, ?_, ?_, ?_⟩
  · exact isChain_nil_iff.mpr rfl
  · exact isChain_nil_iff.mpr rfl
  · exact isChain_nil_iff.mpr rfl
  · exact List.nodup_nil
  · exact List.Perm.refl []
  · intro b hb
    exact absurd hb (List.not_mem_nil b)
  · intro b hb
    exact absurd hb (List.not_mem_nil b)
  · intro b hb
    exact absurd hb (List.not_mem_nil b)
  · intro b hb
    exact absurd hb (List.not_mem_nil b)
  · refine ⟨hos, setup_objects_pos os hos hsz, ?_, ?_, ?_⟩
    · show (cache_setup os).slab_objects < 2 ^ 32
      rw [setup_slab_objects]
      by_cases h : (cache_setup os).slab_order > 0
      · rw [if_pos h]
        norm_num
      · rw [if_neg h]
        have hle : (4096 - sizeofSlabStruct) / os ≤ 4096 - sizeofSlabStruct :=
          Nat.div_le_self _ _
        have h24 : sizeofSlabStruct = 24 := rfl
        omega
    · show (cache_setup os).slab_order + 12 ≤ 64
      rw [setup_slab_order, Nat.mod_eq_of_lt hsz]
      have hq : (sizeofSlabStruct + os) / 4096 < 2 ^ 52 := by
        refine (Nat.div_lt_iff_lt_mul (by norm_num : (0:Nat) < 4096)).mpr ?_
        have hp : (2:Nat) ^ 52 * 4096 = 2 ^ 64 := by norm_num
        omega
      have := (smallest_power_of_two_le_iff ((sizeofSlabStruct + os) / 4096) 52).mpr hq
      omega
    · exact setup_objects_fit os hos hsz
  · rfl

/-! ### `cache_release` and `cache_shrink` specifications -/

theorem cache_release_spec (st : State) (lc lp le : List Nat)
    (hInv : InvWith st lc lp le) :
    ∃ st', cache_release st = some st' ∧
      st'.cache.complete_slab = none ∧ st'.cache.partially_slab = none ∧
      st'.cache.empty_slab = none ∧
      st'.heap = [] ∧
      st'.nacq = st.nacq ∧
      st'.nrel = st.nrel + (lc.length + lp.length + le.length) ∧
      st'.nacq = st'.nrel := by
  obtain ⟨hcC, hcP, hcE, hnd, hperm, ⟨holc, holp, hole⟩, hgood, hgeom, hcnt⟩ := hInv
  have hdnd : (hdom st.heap).Nodup := hperm.symm.nodup hnd
  have hndlc : lc.Nodup := (List.nodup_append.mp (List.nodup_append.mp hnd).1).1
  have hndlp : lp.Nodup := (List.nodup_append.mp (List.nodup_append.mp hnd).1).2.1
  have hndle : le.Nodup := (List.nodup_append.mp hnd).2.1
  have hdisj_cp : lc.Disjoint lp := (List.nodup_append.mp (List.nodup_append.mp hnd).1).2.2
  have hdisj_e : (lc ++ lp).Disjoint le := (List.nodup_append.mp hnd).2.2
  have hlensum : st.heap.length = lc.length + lp.length + le.length := by
    have h1 := hperm.length_eq
    simp only [List.length_append] at h1
    have h2 : (hdom st.heap).length = st.heap.length := by simp [hdom]
    omega
  obtain ⟨st1, he1, hc1, ha1, hr1, hf1, hn1, hl1, hd1⟩ :=
    free_list_spec st none st.cache.complete_slab lc hcC hndlc hdnd
  have hch2 : isChain st1.heap none st1.cache.partially_slab lp := by
    rw [hc1]
    refine isChain_frame_eq ?_ hcP
    intro b hb
    exact hf1 b (fun hc' => hdisj_cp hc' hb)
  obtain ⟨st2, he2, hc2, ha2, hr2, hf2, hn2, hl2, hd2⟩ :=
    free_list_spec st1 none st1.cache.partially_slab lp hch2 hndlp hd1
  have hch3 : isChain st2.heap none st2.cache.empty_slab le := by
    rw [hc2, hc1]
    refine isChain_frame_eq ?_ hcE
    intro b hb
    have hb1 : b ∉ lp := fun hc' => hdisj_e (List.mem_append_right lc hc') hb
    have hb2 : b ∉ lc := fun hc' => hdisj_e (List.mem_append_left lp hc') hb
    rw [hf2 b hb1]
    exact hf1 b hb2
  obtain ⟨st3, he3, hc3, ha3, hr3, hf3, hn3, hl3, hd3⟩ :=
    free_list_spec st2 none st2.cache.empty_slab le hch3 hndle hd2
  have hrun : cache_release st = some
      { st3 with
        cache := { st3.cache with
          complete_slab := none
          partially_slab := none
          empty_slab := none } } := by
    unfold cache_release
    rw [he1]
    simp only [Option.bind_eq_bind', Option.some_bind']
    rw [he2]
    simp only [Option.some_bind']
    rw [he3]
    simp only [Option.some_bind']
    rfl
  have hlen0 : st3.heap.length = 0 := by omega
  have hheap0 : st3.heap = [] := List.length_eq_zero.mp hlen0
  refine ⟨_, hrun, rfl, rfl, rfl, hheap0, ?_, ?_, ?_⟩
  · show st3.nacq = st.nacq
    rw [ha3, ha2, ha1]
  · show st3.nrel = st.nrel + (lc.length + lp.length + le.length)
    rw [hr3, hr2, hr1]
    omega
  · show st3.nacq = st3.nrel
    rw [ha3, ha2, ha1, hr3, hr2, hr1]
    omega

theorem cache_shrink_spec (st : State) (lc lp le : List Nat)
    (hInv : InvWith st lc lp le) :
    ∃ st', cache_shrink st = some st' ∧
      InvWith st' [] lp le ∧
      st'.cache.complete_slab = none ∧
      st'.cache.partially_slab = st.cache.partially_slab ∧
      st'.cache.empty_slab = st.cache.empty_slab ∧
      st'.cache.object_size = st.cache.object_size ∧
      st'.cache.slab_order = st.cache.slab_order ∧
      st'.cache.slab_objects = st.cache.slab_objects ∧
      (∀ b ∈ lc, hget st'.heap b = none) ∧
      (∀ b, b ∉ lc → hget st'.heap b = hget st.heap b) ∧
      st'.nacq = st.nacq ∧
      st'.nrel = st.nrel + lc.length := by
  obtain ⟨hcC, hcP, hcE, hnd, hperm, ⟨holc, holp, hole⟩, hgood, hgeom, hcnt⟩ := hInv
  have hdnd : (hdom st.heap).Nodup := hperm.symm.nodup hnd
  have hndlc : lc.Nodup := (List.nodup_append.mp (List.nodup_append.mp hnd).1).1
  have hdisj_cp : lc.Disjoint lp := (List.nodup_append.mp (List.nodup_append.mp hnd).1).2.2
  have hdisj_e : (lc ++ lp).Disjoint le := (List.nodup_append.mp hnd).2.2
  have hndpe : (lp ++ le).Nodup := by
    rw [List.append_assoc] at hnd
    exact (List.sublist_append_right lc (lp ++ le)).nodup hnd
  have hlensum : st.heap.length = lc.length + lp.length + le.length := by
    have h1 := hperm.length_eq
    simp only [List.length_append] at h1
    have h2 : (hdom st.heap).length = st.heap.length := by simp [hdom]
    omega
  obtain ⟨st1, he1, hc1, ha1, hr1, hf1, hn1, hl1, hd1⟩ :=
    free_list_spec st none st.cache.complete_slab lc hcC hndlc hdnd
  have hrun : cache_shrink st = some
      { st1 with cache := { st1.cache with complete_slab := none } } := by
    unfold cache_shrink
    rw [he1]
    simp only [Option.bind_eq_bind', Option.some_bind']
    rfl
  have hnotlc : ∀ b, b ∈ lp ++ le → b ∉ lc := by
    intro b hb
    rcases List.mem_append.mp hb with hb1 | hb1
    · exact fun hc' => hdisj_cp hc' hb1
    · exact fun hc' => hdisj_e (List.mem_append_left lp hc') hb1
  have hpermdom : (hdom st1.heap).Perm (lp ++ le) := by
    have hsubset : (lp ++ le) ⊆ hdom st1.heap := by
      intro b hb
      have hb1 : b ∉ lc := hnotlc b hb
      have hb2 : b ∈ hdom st.heap := hperm.mem_iff.mpr (by
        rcases List.mem_append.mp hb with hb3 | hb3
        · exact List.mem_append_left le (List.mem_append_right lc hb3)
        · exact List.mem_append_right (lc ++ lp) hb3)
      obtain ⟨s, hs⟩ := hget_isSome_of_mem hb2
      refine hget_mem_dom (s := s) ?_
      rw [hf1 b hb1]
      exact hs
    have hsp := List.subperm_of_subset hndpe hsubset
    have hlen1 : (hdom st1.heap).length ≤ (lp ++ le).length := by
      have h2 : (hdom st1.heap).length = st1.heap.length := by simp [hdom]
      simp only [List.length_append]
      omega
    exact (hsp.perm_of_length_le hlen1).symm
  refine ⟨_, hrun, ?_, rfl, ?_, ?_, ?_, ?_, ?_, hn1, hf1, ha1, hr1⟩
  · -- the invariant survives with an emptied complete list
    refine ⟨?_, ?_, ?_, ?_, ?_, ⟨?_, ?_, ?_⟩, ?_, ?_, ?_⟩
    · exact isChain_nil_iff.mpr rfl
    · show isChain st1.heap none st1.cache.partially_slab lp
      rw [hc1]
      refine isChain_frame_eq ?_ hcP
      intro b hb
      exact hf1 b (fun hc' => hdisj_cp hc' hb)
    · show isChain st1.heap none st1.cache.empty_slab le
      rw [hc1]
      refine isChain_frame_eq ?_ hcE
      intro b hb
      exact hf1 b (fun hc' => hdisj_e (List.mem_append_left lp hc') hb)
    · exact hndpe
    · exact hpermdom
    · intro b hb
      exact absurd hb (List.not_mem_nil b)
    · intro b hb
      obtain ⟨s, hs, hx1, hx2⟩ := holp b hb
      refine ⟨s, ?_, hx1, ?_⟩
      · rw [hf1 b (hnotlc b (List.mem_append_left le hb))]
        exact hs
      · show s.refcnt < st1.cache.slab_objects
        rw [hc1]
        exact hx2
    · intro b hb
      obtain ⟨s, hs, hx1, hx2⟩ := hole b hb
      refine ⟨s, ?_, hx1, ?_⟩
      · rw [hf1 b (hnotlc b (List.mem_append_right lp hb))]
        exact hs
      · show s.refcnt ≤ st1.cache.slab_objects
        rw [hc1]
        exact hx2
    · intro b hb
      have hb1 : b ∈ lp ++ le := hpermdom.mem_iff.mp hb
      have hb2 : b ∈ hdom st.heap := hperm.mem_iff.mpr (by
        rcases List.mem_append.mp hb1 with hb3 | hb3
        · exact List.mem_append_left le (List.mem_append_right lc hb3)
        · exact List.mem_append_right (lc ++ lp) hb3)
      show goodBase st1.cache b
      rw [hc1]
      exact hgood b hb2
    · show geomOK st1.cache
      rw [hc1]
      exact hgeom
    · show st1.nacq = st1.nrel + st1.heap.length
      rw [ha1, hr1]
      omega
  · show st1.cache.partially_slab = st.cache.partially_slab
    rw [hc1]
  · show st1.cache.empty_slab = st.cache.empty_slab
    rw [hc1]
  · show st1.cache.object_size = st.cache.object_size
    rw [hc1]
  · show st1.cache.slab_order = st.cache.slab_order
    rw [hc1]
  · show st1.cache.slab_objects = st.cache.slab_objects
    rw [hc1]

/-- The one-partial-slab trace state satisfies the invariant: the single slab
at base 4096 holds one of its two objects and sits alone on the partial
list. -/
theorem st41_a_InvWith : InvWith st41_a [] [4096] [] := by
  refine ⟨?_, ?_, ?_, ?_, ?_, ⟨?_, ?_, ?_⟩, ?_, ?_, ?_⟩
  · exact isChain_nil_iff.mpr rfl
  · refine isChain_cons_iff.mpr ⟨rfl, ⟨none, none, 1⟩, by decide, rfl, ?_⟩
    exact isChain_nil_iff.mpr rfl
  · exact isChain_nil_iff.mpr rfl
  · decide
  · exact List.Perm.refl _
  · intro b hb
    exact absurd hb (List.not_mem_nil b)
  · intro b hb
    rw [List.mem_singleton] at hb
    subst hb
    exact ⟨⟨none, none, 1⟩, by decide, by decide, by decide⟩
  · intro b hb
    exact absurd hb (List.not_mem_nil b)
  · intro b hb
    rw [show hdom st41_a.heap = [4096] from rfl, List.mem_singleton] at hb
    subst hb
    unfold goodBase
    decide
  · unfold geomOK
    decide
  · rfl

/-- C8: after `cache_release` returns, all three list heads are null, every
region still held from the page primitive has been handed back (no slab
header remains), and the cumulative acquire count equals the cumulative
release count — for every state satisfying the list invariant, including
states whose slabs still have `refcnt > 0`. -/
theorem C8_release_empties_and_balances (st : State) (lc lp le : List Nat)
    (hInv : InvWith st lc lp le) :
    ∃ st', cache_release st = some st' ∧
      st'.cache.complete_slab = none ∧ st'.cache.partially_slab = none ∧
      st'.cache.empty_slab = none ∧ st'.heap = [] ∧ st'.nacq = st'.nrel := by
  obtain ⟨st', hrun, h1, h2, h3, h4, _, _, h7⟩ := cache_release_spec st lc lp le hInv
  exact ⟨st', hrun, h1, h2, h3, h4, h7⟩

theorem C8_release_empties_and_balances_witness :
    ∃ st', cache_release st41_a = some st' ∧
      st'.cache.complete_slab = none ∧ st'.cache.partially_slab = none ∧
      st'.cache.empty_slab = none ∧ st'.heap = [] ∧ st'.nacq = st'.nrel :=
  C8_release_empties_and_balances st41_a [] [4096] [] st41_a_InvWith

/-- C9: `cache_shrink` hands back to the page primitive exactly the slabs of
the complete ("free") list and zeroes that head; the partial and full heads,
every header off the freed list, and the three geometry fields are unchanged;
afterwards no held slab has `refcnt = 0`. -/
theorem C9_shrink_frees_exactly_the_free_list (st : State) (lc lp le : List Nat)
    (hInv : InvWith st lc lp le) :
    ∃ st', cache_shrink st = some st' ∧
      st'.cache.complete_slab = none ∧
      st'.cache.partially_slab = st.cache.partially_slab ∧
      st'.cache.empty_slab = st.cache.empty_slab ∧
      st'.cache.object_size = st.cache.object_size ∧
      st'.cache.slab_order = st.cache.slab_order ∧
      st'.cache.slab_objects = st.cache.slab_objects ∧
      (∀ b ∈ lc, hget st'.heap b = none) ∧
      (∀ b, b ∉ lc → hget st'.heap b = hget st.heap b) ∧
      st'.nacq = st.nacq ∧ st'.nrel = st.nrel + lc.length ∧
      (∀ b s, hget st'.heap b = some s → 1 ≤ s.refcnt) := by
  obtain ⟨st', hrun, hinv', h1, h2, h3, h4, h5, h6, hnone, hframe, hacq, hrel⟩ :=
    cache_shrink_spec st lc lp le hInv
  refine ⟨st', hrun, h1, h2, h3, h4, h5, h6, hnone, hframe, hacq, hrel, ?_⟩
  intro b s hs
  obtain ⟨_, _, _, _, hperm', ⟨_, holp', hole'⟩, _, _, _⟩ := hinv'
  have hb : b ∈ hdom st'.heap := hget_mem_dom hs
  have hb1 : b ∈ ([] : List Nat) ++ lp ++ le := hperm'.mem_iff.mp hb
  simp only [List.nil_append] at hb1
  rcases List.mem_append.mp hb1 with hb2 | hb2
  · obtain ⟨s2, hs2, hx1, _⟩ := holp' b hb2
    rw [hs] at hs2
    have heqs := Option.some_inj.mp hs2
    subst heqs
    exact hx1
  · obtain ⟨s2, hs2, hx1, _⟩ := hole' b hb2
    rw [hs] at hs2
    have heqs := Option.some_inj.mp hs2
    subst heqs
    exact hx1

theorem C9_shrink_frees_exactly_the_free_list_witness :
    ∃ st', cache_shrink st41_a = some st' ∧
      st'.cache.complete_slab = none ∧
      st'.cache.partially_slab = st41_a.cache.partially_slab ∧
      st'.cache.empty_slab = st41_a.cache.empty_slab ∧
      st'.cache.object_size = st41_a.cache.object_size ∧
      st'.cache.slab_order = st41_a.cache.slab_order ∧
      st'.cache.slab_objects = st41_a.cache.slab_objects ∧
      (∀ b ∈ ([] : List Nat), hget st'.heap b = none) ∧
      (∀ b, b ∉ ([] : List Nat) → hget st'.heap b = hget st41_a.heap b) ∧
      st'.nacq = st41_a.nacq ∧ st'.nrel = st41_a.nrel + ([] : List Nat).length ∧
      (∀ b s, hget st'.heap b = some s → 1 ≤ s.refcnt) :=
  C9_shrink_frees_exactly_the_free_list st41_a [] [4096] [] st41_a_InvWith

/-- C10: the three slab lists form finite, acyclic, null-terminated
doubly-linked chains with consistent back-links, no slab on two lists or
twice on one (the `WF` invariant): it holds after `cache_setup`, is preserved
by `cache_alloc` (given a fresh aligned page when one is consumed) and by
`cache_free` of a valid slot pointer, and under it the `free_list` walks of
`cache_release` and `cache_shrink` terminate, releasing each walked slab
exactly once (the release counter grows by exactly the list lengths and a
released cache holds nothing). -/
theorem C10_well_formedness_is_preserved :
    (∀ os, 0 < os → sizeofSlabStruct + os < 2 ^ 64 → WF (initState os)) ∧
    (∀ st page lc lp le, InvWith st lc lp le →
      (∀ b, page = some b → b ∉ hdom st.heap ∧ goodBase st.cache b) →
      ∀ r st', cache_alloc st page = some (r, st') → WF st') ∧
    (∀ st lc lp le base k s, InvWith st lc lp le →
      hget st.heap base = some s → 1 ≤ s.refcnt → k < st.cache.slab_objects →
      ∃ st', cache_free st (base + sizeofSlabStruct + st.cache.object_size * k) = some st' ∧
        WF st') ∧
    (∀ st lc lp le, InvWith st lc lp le →
      ∃ st', cache_release st = some st' ∧
        st'.nrel = st.nrel + (lc.length + lp.length + le.length) ∧ st'.heap = []) ∧
    (∀ st lc lp le, InvWith st lc lp le →
      ∃ st', cache_shrink st = some st' ∧ WF st' ∧ st'.nrel = st.nrel + lc.length) := by
  refine ⟨initState_WF, ?_, ?_, ?_, ?_⟩
  · intro st page lc lp le hInv hpage r st' heq
    exact cache_alloc_preserves_WF st page lc lp le hInv hpage r st' heq
  · intro st lc lp le base k s hInv hs hr1 hk
    obtain ⟨st', h1, h2, _⟩ := cache_free_preserves_WF st lc lp le base k s hInv hs hr1 hk
    exact ⟨st', h1, h2⟩
  · intro st lc lp le hInv
    obtain ⟨st', hrun, _, _, _, hheap0, _, hrel, _⟩ := cache_release_spec st lc lp le hInv
    exact ⟨st', hrun, hrel, hheap0⟩
  · intro st lc lp le hInv
    obtain ⟨st', hrun, hinv', _, _, _, _, _, _, _, _, _, hrel⟩ :=
      cache_shrink_spec st lc lp le hInv
    exact ⟨st', hrun, ⟨[], lp, le, hinv'⟩, hrel⟩

theorem C10_well_formedness_is_preserved_witness : WF (initState 41) :=
  C10_well_formedness_is_preserved.1 41 (by decide) (by decide)
